import Mathlib

/-! Gigatron loader (`Contrib/at67/loader.cpp`): the GT1 container codec and the save data codec.

A shallow embedding of `Loader::loadGt1File`, `Loader::saveGt1File`, `Loader::printGt1Stats`,
`Loader::loadDataFile` and `Loader::saveDataFile`.

Conventions of the embedding:

* a `uint8_t` or `uint16_t` is a `Nat`; every place where the source arithmetic is carried out
  in (or stored back into) a `uint8_t` / `uint16_t` carries an explicit `% 256` / `% 65536`;
* a `std::vector<uint8_t>` is a `List Nat`, a `std::vector<Gt1Segment>` a `List Gt1Segment`;
* a file opened for reading is `Option (List Nat)` (`none`: the file cannot be opened), the
  read position is the list of bytes not yet consumed;
* a file opened for writing is the list of bytes written so far; writes to an opened file are
  taken to succeed, so the `bad()/fail()` branches after each write are not reachable in the model;
* reference parameters are passed in and returned (state passing);
* text printed to `stderr` is not modelled;
* where the source indexes a vector without a range check and the index can be out of range
  (`loadDataFile`), the model has no result for that run (`none`).
-/

namespace Loader

/-! ## Data model -/

/-- Modelled from the spec: `loader.h` is not among the sources. The segment header is the three
bytes (high-address byte, low-address byte, size byte). -/
def SEGMENT_HEADER_SIZE : Nat := 3

/-- Modelled from the spec: `loader.h` is not among the sources. The trailer is a three byte
record that aligns with a segment header (terminator, then the two entry-point bytes). -/
def GT1FILE_TRAILER_SIZE : Nat := 3

/-- Modelled from the spec: the declaration of `Gt1Segment` lives in `loader.h`. The fields are
the ones used by `loader.cpp`; `_hiAddress`, `_loAddress`, `_segmentSize` are consecutive bytes
(the source reads and writes the header as `SEGMENT_HEADER_SIZE` bytes starting at `_hiAddress`),
and a freshly declared segment has `_isRomAddress == false` and an empty `_dataBytes`. -/
structure Gt1Segment where
  _isRomAddress : Bool := false
  _hiAddress : Nat := 0
  _loAddress : Nat := 0
  _segmentSize : Nat := 0
  _dataBytes : List Nat := []
deriving DecidableEq, Repr

/-- Modelled from the spec: the declaration of `Gt1File` lives in `loader.h`. `_terminator`,
`_hiStart`, `_loStart` are consecutive bytes (the source writes the trailer as
`GT1FILE_TRAILER_SIZE` bytes starting at `_terminator`, and its comment on line 71 says that a
segment header aligns with terminator, hiStart and loStart). -/
structure Gt1File where
  _terminator : Nat := 0
  _hiStart : Nat := 0
  _loStart : Nat := 0
  _segments : List Gt1Segment := []
deriving DecidableEq, Repr

/-- The three bytes of memory starting at `&segment._hiAddress`. -/
def Gt1Segment.header (s : Gt1Segment) : List Nat :=
  [s._hiAddress, s._loAddress, s._segmentSize]

/-- The three bytes of memory starting at `&gt1File._terminator`. -/
def Gt1File.trailer (g : Gt1File) : List Nat :=
  [g._terminator, g._hiStart, g._loStart]

/-- The source expression `(_segmentSize == 0) ? 256 : _segmentSize` (lines 78, 148, 194). -/
def effectiveSize (segmentSize : Nat) : Nat :=
  if segmentSize = 0 then 256 else segmentSize

/-! ## Streams -/

/-- The call `infile.read(buf, n)` on a good stream whose unread bytes are `s`: `some (buf, rest)`
when `n` bytes are available, `none` when the stream ends first (the read then sets
`eofbit | failbit`, which is what the source tests right after each read). -/
def istreamRead (s : List Nat) (n : Nat) : Option (List Nat × List Nat) :=
  if n ≤ s.length then some (s.take n, s.drop n) else none

/-- The test `infile.peek() == EOF` on a good stream whose unread bytes are `s`. -/
def istreamPeekEOF (s : List Nat) : Bool :=
  s.isEmpty

/-- The call `outfile.write(buf, n)` where `buf` points at the bytes `mem`: the first `n` bytes of
`mem` are appended to the file. (When `mem` holds fewer than `n` bytes the source reads past
the last byte of the buffer; the model stops at the last byte of `mem`, and every statement
about written bytes assumes payloads at least as long as the size being written.) -/
def ostreamWrite (out : List Nat) (mem : List Nat) (n : Nat) : List Nat :=
  out ++ mem.take n

/-! ## `loadGt1File` (lines 47-92) -/

/-- The `for(;;)` loop of `loadGt1File`. `s` is the unread part of the file, `g` the caller's
container. Every iteration that does not return consumes at least the three header bytes, so
`s.length + 1` iterations always suffice; `none` is returned only when the iteration budget is
exhausted. `some (b, g1)`: the function returns `b` and leaves the container as `g1`. -/
def loadLoop : Nat → List Nat → Gt1File → Option (Bool × Gt1File)
  | 0, _, _ => none
  | fuel + 1, s, g =>
    -- Read segment header
    match istreamRead s SEGMENT_HEADER_SIZE with
    | some ([hi, lo, sz], s1) =>
      -- Finished
      if hi = 0x00 ∧ istreamPeekEOF s1 = true then
        some (true, { g with _hiStart := lo, _loStart := sz })
      else
        -- Read segment
        let segmentSize := effectiveSize sz
        match istreamRead s1 segmentSize with
        | some (data, s2) =>
          let segment : Gt1Segment :=
            { _hiAddress := hi, _loAddress := lo, _segmentSize := sz, _dataBytes := data }
          loadLoop fuel s2 { g with _segments := g._segments ++ [segment] }
        | none => some (false, g)
    | _ => some (false, g)

/-- The function `bool loadGt1File(const std::string& filename, Gt1File& gt1File)`. `infile` is the
content of the file called `filename`, `none` when it cannot be opened. -/
def loadGt1File (infile : Option (List Nat)) (gt1File : Gt1File) : Option (Bool × Gt1File) :=
  match infile with
  | none => some (false, gt1File)
  | some s => loadLoop (s.length + 1) s gt1File

/-! ## `saveGt1File` (lines 94-166) -/

/-- The `uint16_t` value `segment._loAddress + (segment._hiAddress <<8)` of the sort comparator
(lines 115-116). -/
def address16 (s : Gt1Segment) : Nat :=
  (s._loAddress + s._hiAddress * 256) % 65536

/-- The comparator lambda of lines 113-118: `addressA < addressB`. -/
def segmentLess (segmentA segmentB : Gt1Segment) : Bool :=
  decide (address16 segmentA < address16 segmentB)

/-- The order `std::sort` establishes for the comparator `segmentLess`: an element never
precedes one that compares less than it. -/
def segmentLE (segmentA segmentB : Gt1Segment) : Prop :=
  segmentLess segmentB segmentA = false

instance : DecidableRel segmentLE := fun a b =>
  inferInstanceAs (Decidable (segmentLess b a = false))

instance : IsTotal Gt1Segment segmentLE :=
  ⟨fun a b => by
    simp only [segmentLE, segmentLess, decide_eq_false_iff_not, Nat.not_lt]
    exact Nat.le_total _ _⟩

instance : IsTrans Gt1Segment segmentLE :=
  ⟨fun a b c => by
    simp only [segmentLE, segmentLess, decide_eq_false_iff_not, Nat.not_lt]
    exact Nat.le_trans⟩

/-- The call `std::sort(_segments.begin(), _segments.end(), comparator)` of line 113. The standard
leaves the relative order of segments with equal addresses unspecified, and an implementation
of `std::sort` need not keep it (introsort reorders equal elements of longer vectors); the
model keeps them in their original order (insertion sort), which is one of the orders the
standard allows. When no two segments have the same address the result does not depend on the
implementation (`sortSegments_unique`). The theorems below use only that the result is a
permutation of the vector in ascending address order. -/
def sortSegments (segments : List Gt1Segment) : List Gt1Segment :=
  segments.insertionSort segmentLE

/-- The inner `while (addr < B._loAddress)` loop of lines 126-130, on the state `(A, addr)`.
`addr` is a `uint8_t`, so the loop body runs fewer than 256 times. -/
def padLoop : Nat → Gt1Segment → Nat → Nat → Gt1Segment
  | 0, A, _, _ => A
  | fuel + 1, A, addr, bLo =>
    if addr < bLo then
      padLoop fuel
        { A with
          _dataBytes := A._dataBytes ++ [if addr = 0x80 then 1 else 0]
          _segmentSize := (A._segmentSize + 1) % 256 }
        ((addr + 1) % 256) bLo
    else A

/-- The body of the outer `while` loop (lines 123-133): the new value of `_segments[0]`. -/
def mergeBody (A B : Gt1Segment) : Gt1Segment :=
  let addr := (A._loAddress + A._segmentSize) % 256
  let A1 := padLoop 256 A addr B._loAddress
  { A1 with
    _dataBytes := A1._dataBytes ++ B._dataBytes
    _segmentSize := (A1._segmentSize + B._segmentSize) % 256 }

/-- One iteration of the outer `while` loop of lines 121-135 on the vector `_segments`:
`none` when the loop condition is false, otherwise the vector after the body
(`_segments[0]` updated, `_segments[1]` erased). -/
def mergeStep : List Gt1Segment → Option (List Gt1Segment)
  | A :: B :: rest =>
    if A._hiAddress = 0 ∧ B._hiAddress = 0 then some (mergeBody A B :: rest) else none
  | _ => none

/-- The outer `while` loop of lines 121-135. Each iteration erases one segment, so a budget of
`segments.length` iterations is never exhausted before the loop condition fails. -/
def mergeWhile : Nat → List Gt1Segment → List Gt1Segment
  | 0, segments => segments
  | fuel + 1, segments =>
    match mergeStep segments with
    | some segments1 => mergeWhile fuel segments1
    | none => segments

/-- Lines 112-135: the sort followed by the page-zero merge, on the vector `_segments`. -/
def sortAndMerge (segments : List Gt1Segment) : List Gt1Segment :=
  let sorted := sortSegments segments
  mergeWhile sorted.length sorted

/-- The `for` loop of lines 137-155 from index `i` on (`segments` are `_segments[i..]`):
header, then `segmentSize` payload bytes. -/
def writeSegments : List Gt1Segment → List Nat → List Nat
  | [], out => out
  | segment :: segments, out =>
    -- Write header
    let out1 := ostreamWrite out segment.header SEGMENT_HEADER_SIZE
    -- Write segment
    let segmentSize := effectiveSize segment._segmentSize
    let out2 := ostreamWrite out1 segment._dataBytes segmentSize
    writeSegments segments out2

/-- The position `filepath.rfind(c)`: the index of the last occurrence of `c`. -/
def rfind (s : List Char) (c : Char) : Option Nat :=
  match s.reverse.indexOf? c with
  | some k => some (s.length - 1 - k)
  | none => none

/-- What `saveGt1File` leaves behind: its return value, the container and the `filename`
reference parameters, and the output file (`none`: no file was opened, otherwise the bytes
written to it). -/
structure SaveResult where
  ok : Bool
  gt1File : Gt1File
  filename : List Char
  outfile : Option (List Nat)
deriving DecidableEq, Repr

/-- The function
`bool saveGt1File(const std::string& filepath, Gt1File& gt1File, std::string& filename)`.
`canOpen` tells whether the output file can be opened for writing. -/
def saveGt1File (canOpen : Bool) (filepath : List Char) (gt1File : Gt1File)
    (filename : List Char) : SaveResult :=
  if gt1File._segments.length = 0 then
    { ok := false, gt1File := gt1File, filename := filename, outfile := none }
  else
    let filename1 := match rfind filepath '.' with
      | some i => filepath.take i ++ ".gt1".toList
      | none => filepath ++ ".gt1".toList
    if canOpen = false then
      { ok := false, gt1File := gt1File, filename := filename1, outfile := none }
    else
      -- Sort segments from lowest address to highest address, then merge page 0
      let gt1File1 := { gt1File with _segments := sortAndMerge gt1File._segments }
      let out := writeSegments gt1File1._segments []
      -- Write trailer
      let out1 := ostreamWrite out gt1File1.trailer GT1FILE_TRAILER_SIZE
      { ok := true, gt1File := gt1File1, filename := filename1, outfile := some out1 }

/-! ## `printGt1Stats` (lines 168-244) -/

/-- What `printGt1Stats` leaves behind: the `uint16_t` it returns and whether it has printed the
size mismatch line of lines 207-211. The other lines it prints to `stderr`, and the local
variables that only feed them (`output`, `startAddress`, `address`, `memory`, the three
`contiguous` counters), are not part of the model. -/
structure StatsResult where
  value : Nat
  mismatch : Bool
deriving DecidableEq, Repr

/-- The first loop (lines 175-179): `totalSize += int(_dataBytes.size())` on a `uint16_t`. -/
def totalSizeLoop : List Gt1Segment → Nat → Nat
  | [], totalSize => totalSize
  | segment :: segments, totalSize =>
    totalSizeLoop segments ((totalSize + segment._dataBytes.length) % 65536)

/-- The second loop (lines 191-238) from index `i` on (`segments` are `_segments[i..]`, `size`
is `_segments.size()`); `totalSize -= segmentSize` is carried out on a `uint16_t`. The loop
ends by falling through to the `return totalSize` of line 243. -/
def segmentsLoop (size : Nat) : List Gt1Segment → Nat → StatsResult
  | [], totalSize => { value := totalSize, mismatch := false }
  | segment :: segments, totalSize =>
    let segmentSize := effectiveSize segment._segmentSize
    if segment._isRomAddress = true then
      if size = 1 then
        { value := totalSize, mismatch := false }
      else
        segmentsLoop size segments ((totalSize + (65536 - segmentSize % 65536)) % 65536)
    else if segmentSize ≠ segment._dataBytes.length then
      { value := 0, mismatch := true }
    else
      segmentsLoop size segments totalSize

/-- The function `uint16_t printGt1Stats(const std::string& filename, const Gt1File& gt1File)`;
`filename` only appears in the printed lines. -/
def printGt1Stats (gt1File : Gt1File) : StatsResult :=
  let totalSize := totalSizeLoop gt1File._segments 0
  segmentsLoop gt1File._segments.length gt1File._segments totalSize

/-! ## Save data: `loadDataFile` and `saveDataFile` (lines 556-727)

The host is taken to be little-endian, as the format description of the spec has it (the
source reads and writes the 16-bit values through their memory image and marks this with
`TODO: endian`). -/

/-- Modelled from the spec: `enum Endianness` is declared in `loader.h`; `loader.cpp` uses its
two values `Little` and `Big`. -/
inductive Endianness where
  | Little
  | Big
deriving DecidableEq, Repr

/-- Modelled from the spec: the declaration of `SaveData` lives in `loader.h`. The fields are
the ones used by `loader.cpp`: `_counts` and `_addresses` are vectors of `uint16_t`, `_data` is
a vector of byte vectors, `_updaterate` is an `int`. -/
structure SaveData where
  _initialised : Bool := false
  _updaterate : Int := 0
  _filename : List Char := []
  _counts : List Nat := []
  _addresses : List Nat := []
  _endianness : List Endianness := []
  _data : List (List Nat) := []
deriving DecidableEq, Repr

/-- The emulated RAM behind `Cpu::getRAM` and `Cpu::setRAM`: a byte for every address. -/
abbrev Memory := Nat → Nat

/-- Modelled from the spec: `Cpu::setRAM` is declared in `cpu.h` and defined outside
`loader.cpp`; the memory store takes a 16-bit address (`writeByte(address:uint16, byte)`), so
the `int` argument of the call sites is reduced modulo 2^16. -/
def setRAM (ram : Memory) (address : Nat) (data : Nat) : Memory :=
  fun a => if a = address % 65536 then data else ram a

/-- How a loop of `loadDataFile` ends: it runs to its end (`ok`), a read fails so that the
function returns false (`readError`), or it indexes a vector out of range, which the source
does not check and C++ leaves undefined (`undefined`). `ok` and `readError` carry the state of
the loop variables. -/
inductive ReadOutcome (σ : Type) where
  | ok (state : σ)
  | readError (state : σ)
  | undefined

/-- The call `infile.read((char *)&word, 2)` for a `uint16_t word`, followed by the test of the
stream state: the word read and the rest of the stream, or `none` when the read fails. -/
def readWord (s : List Nat) : Option (Nat × List Nat) :=
  match istreamRead s 2 with
  | some ([b0, b1], s1) => some (b0 + 256 * b1, s1)
  | _ => none

/-- The loops of lines 576-586 (on `sdata._counts`) and 597-607 (on `sdata._addresses`), which
are the same code: `for(i<num) { read word; if failed return false; vector[i] = word; }`.
The first argument is the number of iterations left. -/
def loadWords : Nat → Nat → List Nat → List Nat → ReadOutcome (List Nat × List Nat)
  | 0, _, s, vector => .ok (s, vector)
  | k + 1, i, s, vector =>
    match readWord s with
    | none => .readError (s, vector)
    | some (word, s1) =>
      if i < vector.length then loadWords k (i + 1) s1 (vector.set i word)
      else .undefined

/-- The inner loop of lines 619-630 for the group `j` at `address`:
`for(i<count) { read data; if failed return false; _data[j][i] = data; setRAM(address + i, data); }`.
The first argument is the number of iterations left. -/
def loadBytes : Nat → Nat → Nat → Nat → List Nat → List (List Nat) → Memory →
    ReadOutcome (List Nat × List (List Nat) × Memory)
  | 0, _, _, _, s, data, ram => .ok (s, data, ram)
  | k + 1, i, j, address, s, data, ram =>
    match istreamRead s 1 with
    | some ([byte], s1) =>
      match data[j]? with
      | some buffer =>
        if i < buffer.length then
          loadBytes k (i + 1) j address s1 (data.set j (buffer.set i byte))
            (setRAM ram (address + i) byte)
        else .undefined
      | none => .undefined
    | _ => .readError (s, data, ram)

/-- The outer loop of lines 616-631: for every `j` a new zero-filled buffer of `_counts[j]`
bytes is pushed at the back of `_data`, then the inner loop fills `_data[j]`. The first
argument is the number of iterations left. -/
def loadGroups : Nat → Nat → List Nat → List Nat → List Nat → List (List Nat) → Memory →
    ReadOutcome (List Nat × List (List Nat) × Memory)
  | 0, _, _, _, s, data, ram => .ok (s, data, ram)
  | k + 1, j, counts, addresses, s, data, ram =>
    match counts[j]?, addresses[j]? with
    | some count, some address =>
      let data1 := data ++ [List.replicate count 0x00]
      match loadBytes count 0 j address s data1 ram with
      | .ok (s1, data2, ram1) => loadGroups k (j + 1) counts addresses s1 data2 ram1
      | other => other
    | _, _ => .undefined

/-- What `loadDataFile` leaves behind when it returns: its return value, the caller's slot and
the RAM. -/
structure LoadDataResult where
  ok : Bool
  saveData : SaveData
  ram : Memory

/-- The function `bool loadDataFile(SaveData& saveData)`. `infile` is the content of the file
`_filename + ".dat"`, `none` when it cannot be opened; `none` as result: the source has indexed
a vector out of range (undefined behaviour). -/
def loadDataFile (infile : Option (List Nat)) (saveData : SaveData) (ram : Memory) :
    Option LoadDataResult :=
  let sdata := saveData
  match infile with
  | none => some { ok := false, saveData := saveData, ram := ram }
  | some s =>
    -- Load counts
    match readWord s with
    | none => some { ok := false, saveData := saveData, ram := ram }
    | some (numCounts, s1) =>
      match loadWords numCounts 0 s1 sdata._counts with
      | .undefined => none
      | .readError _ => some { ok := false, saveData := saveData, ram := ram }
      | .ok (s2, counts) =>
        -- Load addresses
        match readWord s2 with
        | none => some { ok := false, saveData := saveData, ram := ram }
        | some (numAddresses, s3) =>
          match loadWords numAddresses 0 s3 sdata._addresses with
          | .undefined => none
          | .readError _ => some { ok := false, saveData := saveData, ram := ram }
          | .ok (s4, addresses) =>
            if counts.length = 0 ∨ counts.length ≠ addresses.length then
              some { ok := false, saveData := saveData, ram := ram }
            else
              -- load data
              match loadGroups addresses.length 0 counts addresses s4 sdata._data ram with
              | .undefined => none
              | .readError (_, _, ram1) =>
                some { ok := false, saveData := saveData, ram := ram1 }
              | .ok (_, data, ram1) =>
                some
                  { ok := true
                    saveData :=
                      { sdata with
                        _counts := counts
                        _addresses := addresses
                        _data := data
                        _initialised := true }
                    ram := ram1 }

/-- The memory image of a `uint16_t` on the little-endian host: low byte, then high byte. -/
def le16 (word : Nat) : List Nat :=
  [word % 256, word / 256 % 256]

/-- The call `outfile.write((char *)&word, 2)` for a `uint16_t word`. -/
def writeWord (out : List Nat) (word : Nat) : List Nat :=
  ostreamWrite out (le16 word) 2

/-- The loops of lines 665-673 (on `_counts`) and 683-691 (on `_addresses`):
`for(i<num) write vector[i]`. `num` is the `uint16_t` size of the vector, so every index is in
range. The first argument is the number of iterations left. -/
def saveWords : Nat → Nat → List Nat → List Nat → List Nat
  | 0, _, _, out => out
  | k + 1, i, vector, out => saveWords k (i + 1) vector (writeWord out (vector.getD i 0))

/-- The inner loop of lines 701-708: `for(i<count) if(dataSize != count) return false`;
`true` when the loop runs to its end. -/
def checkInner : Nat → Nat → Nat → Bool
  | 0, _, _ => true
  | k + 1, dataSize, count => if dataSize ≠ count then false else checkInner k dataSize count

/-- The loop of lines 694-709, "check data has been initialised"; `true` when it runs to its
end. The index `j` of `_counts[j]` is in range (the two sizes have been compared before), and
so is the one of `_data[j]` once `_data.size() == _addresses.size()` has been tested. -/
def checkData : Nat → Nat → SaveData → Bool
  | 0, _, _ => true
  | k + 1, j, saveData =>
    if saveData._data.length ≠ saveData._addresses.length then false
    else if checkInner (saveData._counts.getD j 0) (saveData._data.getD j []).length
        (saveData._counts.getD j 0) = false then false
    else checkData k (j + 1) saveData

/-- The inner loop of lines 714-723: `for(i<count) write _data[j][i]`; the index is in range
after `checkData`. -/
def saveBytes : Nat → Nat → List Nat → List Nat → List Nat
  | 0, _, _, out => out
  | k + 1, i, buffer, out => saveBytes k (i + 1) buffer (ostreamWrite out [buffer.getD i 0] 1)

/-- The outer loop of lines 712-724. -/
def saveGroups : Nat → Nat → SaveData → List Nat → List Nat
  | 0, _, _, out => out
  | k + 1, j, saveData, out =>
    saveGroups k (j + 1) saveData
      (saveBytes (saveData._counts.getD j 0) 0 (saveData._data.getD j []) out)

/-- What `saveDataFile` leaves behind: its return value and the output file (`none`: the file
could not be opened, otherwise the bytes written to the newly created file). -/
structure SaveDataResult where
  ok : Bool
  outfile : Option (List Nat)
deriving DecidableEq, Repr

/-- The function `bool saveDataFile(const SaveData& saveData)`. `canOpen` tells whether the
output file `_filename + ".dat"` can be opened for writing. -/
def saveDataFile (canOpen : Bool) (saveData : SaveData) : SaveDataResult :=
  if canOpen = false then
    { ok := false, outfile := none }
  else if saveData._counts.length = 0 ∨
      saveData._counts.length ≠ saveData._addresses.length then
    { ok := false, outfile := some [] }
  else
    -- Save counts
    let numCounts := saveData._counts.length % 65536
    let out1 := writeWord [] numCounts
    let out2 := saveWords numCounts 0 saveData._counts out1
    -- Save addresses
    let numAddresses := saveData._addresses.length % 65536
    let out3 := writeWord out2 numAddresses
    let out4 := saveWords numAddresses 0 saveData._addresses out3
    -- Check data has been initialised
    if checkData saveData._addresses.length 0 saveData = false then
      { ok := false, outfile := some out4 }
    else
      -- Save data
      { ok := true, outfile := some (saveGroups saveData._addresses.length 0 saveData out4) }

/-! ## `saveHighScore` and `updateHighScore` (lines 745-806)

The map `_saveData` is looked up at `_currentGame` only; the model takes the outcome of that
look-up, `none` when the map has no entry for the current game. -/

/-- Modelled from the spec: `Cpu::getRAM` is declared in `cpu.h` and defined outside
`loader.cpp`; the memory store takes a 16-bit address (`readByte(address:uint16)`), so the
`int` argument of the call sites is reduced modulo 2^16. -/
def getRAM (ram : Memory) (address : Nat) : Nat :=
  ram (address % 65536)

/-- The function `saveHighScore` (lines 745-757): without an entry for the current game
nothing is saved, otherwise `saveDataFile` is called on the entry. The result lists the calls
of `saveDataFile` made, each with what it has left behind. -/
def saveHighScore (canOpen : Bool) (entry : Option SaveData) : List SaveDataResult :=
  match entry with
  | none => []
  | some saveData => [saveDataFile canOpen saveData]

/-- The values the index `i` takes in the loop `while(start != end)` of lines 777-803, in
order: with `start = count - 1`, `end = -1`, `step = -1` (little endian, the default) these
are `count - 1, ..., 1, 0`; with `start = 0`, `end = count`, `step = 1` (big endian) these are
`0, 1, ..., count - 1`. -/
def scanIndices (endianness : Endianness) (count : Nat) : List Nat :=
  match endianness with
  | .Little => (List.range count).reverse
  | .Big => List.range count

/-- The loop of lines 795-798, `for(k=i; k!=end; k+=step) _data[j][k] = getRAM(address + k)`,
on the buffer `_data[j]`; the first argument lists the values `k` takes. `none`: the buffer is
indexed out of range. -/
def copyLoop (address : Nat) (ram : Memory) : List Nat → List Nat → Option (List Nat)
  | [], buffer => some buffer
  | k :: ks, buffer =>
    if k < buffer.length then copyLoop address ram ks (buffer.set k (getRAM ram (address + k)))
    else none

/-- How the scan of one watch entry ends: the loop runs to its end (`equal`), the function
returns at line 792 (`smaller`), the bytes from the current position on are copied from the
RAM and the function saves and returns (`update`, with the buffer `_data[j]` after the copy),
or a vector is indexed out of range (`undefined`). -/
inductive ScanOutcome where
  | equal
  | smaller
  | update (buffer : List Nat)
  | undefined
deriving DecidableEq, Repr

/-- The loop `while(start != end)` of lines 786-803 for the watch entry `j` at `address`; the
last argument lists the values of `i` still to come. -/
def scanLoop (address : Nat) (ram : Memory) (data : List (List Nat)) (j : Nat) :
    List Nat → ScanOutcome
  | [] => .equal
  | i :: rest =>
    match data[j]? with
    | none => .undefined
    | some buffer =>
      match buffer[i]? with
      | none => .undefined
      | some stored =>
        if getRAM ram (address + i) < stored then .smaller
        else if stored = 0 ∨ getRAM ram (address + i) > stored then
          match copyLoop address ram (i :: rest) buffer with
          | some buffer1 => .update buffer1
          | none => .undefined
        else scanLoop address ram data j rest

/-- The loop `for(j<_addresses.size())` of lines 774-804, the comparison pass: the slot after
the pass and the calls of `saveDataFile` made. The first argument is the number of iterations
left. `none`: a vector has been indexed out of range. -/
def compareLoop (canOpen : Bool) (ram : Memory) :
    Nat → Nat → SaveData → Option (SaveData × List SaveDataResult)
  | 0, _, saveData => some (saveData, [])
  | n + 1, j, saveData =>
    match saveData._counts[j]?, saveData._endianness[j]?, saveData._addresses[j]? with
    | some count, some endianness, some address =>
      match scanLoop address ram saveData._data j (scanIndices endianness count) with
      | .equal => compareLoop canOpen ram n (j + 1) saveData
      | .smaller => some (saveData, [])
      | .update buffer =>
        some ({ saveData with _data := saveData._data.set j buffer },
          saveHighScore canOpen (some { saveData with _data := saveData._data.set j buffer }))
      | .undefined => none
    | _, _, _ => none

/-- What a call of `updateHighScore` leaves behind: the static `frameCount`, the entry of the
current game and the calls of `saveDataFile` made. -/
structure UpdateResult where
  frameCount : Int
  entry : Option SaveData
  saved : List SaveDataResult
deriving DecidableEq, Repr

/-- The function `updateHighScore` (lines 760-806). `frameCount` is the value of the static
counter before the call, `entry` the entry of the current game in `_saveData`. `none`: a
vector has been indexed out of range (undefined behaviour). -/
def updateHighScore (canOpen : Bool) (frameCount : Int) (entry : Option SaveData)
    (ram : Memory) : Option UpdateResult :=
  match entry with
  | none => some { frameCount := frameCount, entry := none, saved := [] }
  | some saveData =>
    if saveData._initialised = false then
      some { frameCount := frameCount, entry := some saveData, saved := [] }
    else if frameCount < saveData._updaterate then
      some { frameCount := frameCount + 1, entry := some saveData, saved := [] }
    else
      match compareLoop canOpen ram saveData._addresses.length 0 saveData with
      | some (saveData1, saved) =>
        some { frameCount := 0, entry := some saveData1, saved := saved }
      | none => none

/-- Consecutive calls of `updateHighScore`, one for each RAM content of the list, each call
starting from what the one before has left; the calls of `saveDataFile` are collected. -/
def updateCalls (canOpen : Bool) : List Memory → Int → Option SaveData → Option UpdateResult
  | [], frameCount, entry => some { frameCount := frameCount, entry := entry, saved := [] }
  | ram :: rams, frameCount, entry =>
    match updateHighScore canOpen frameCount entry ram with
    | none => none
    | some r =>
      match updateCalls canOpen rams r.frameCount r.entry with
      | none => none
      | some r1 => some { r1 with saved := r.saved ++ r1.saved }

/-- The watch entry `j` agrees with the RAM: the entry has a count, an endianness and an
address, and at every offset below the count the snapshot byte is there and equals the live
byte. -/
def EntrySame (saveData : SaveData) (ram : Memory) (j : Nat) : Prop :=
  ∃ count endianness address, saveData._counts[j]? = some count ∧
    saveData._endianness[j]? = some endianness ∧ saveData._addresses[j]? = some address ∧
    ∀ i, i < count → ∃ buffer stored, saveData._data[j]? = some buffer ∧
      buffer[i]? = some stored ∧ getRAM ram (address + i) = stored

/-- The watch entry `j` agrees with the RAM and none of its snapshot bytes is 0: the scan of
the entry meets neither a difference nor a stored 0. -/
def EntryEqual (saveData : SaveData) (ram : Memory) (j : Nat) : Prop :=
  ∃ count endianness address, saveData._counts[j]? = some count ∧
    saveData._endianness[j]? = some endianness ∧ saveData._addresses[j]? = some address ∧
    ∀ i, i < count → ∃ buffer stored, saveData._data[j]? = some buffer ∧
      buffer[i]? = some stored ∧ stored ≠ 0 ∧ getRAM ram (address + i) = stored

/-! ## The frame transmitter: `sendByte`, `sendFrame` and `upload` (lines 1091-1247)

The constants `VSYNC_START` and `PAYLOAD_SIZE` are defined in headers outside `loader.cpp`;
they are parameters of the model. -/

/-- The `enum LoaderState` of line 248. -/
inductive LoaderState where
  | FirstByte
  | MsgLength
  | LowAddress
  | HighAddress
  | Message
  | LastByte
  | ResetIN
deriving DecidableEq, Repr

/-- The `enum FrameState` of line 249. -/
inductive FrameState where
  | Resync
  | Frame
  | Execute
deriving DecidableEq, Repr

/-- Modelled from the spec: `enum UploadTarget` is declared in `loader.h`; `loader.cpp` uses
its values `None`, `Emulator` and `Hardware`. -/
inductive UploadTarget where
  | None
  | Emulator
  | Hardware
deriving DecidableEq, Repr

/-- Modelled from the spec: `Cpu::setIN` is declared in `cpu.h` and defined outside
`loader.cpp`; it writes a byte to the emulated input port. The port is kept as the list of the
bytes written to it, oldest first. -/
def setIN (port : List Nat) (value : Nat) : List Nat :=
  port ++ [value]

/-- The variables `sendFrame` works on: its statics `loaderState`, `payload` (an array of
`PAYLOAD_SIZE` bytes) and `msgIdx`, the `uint8_t checksum` it gets by reference, and the input
port. -/
structure Sender where
  loaderState : LoaderState := LoaderState.FirstByte
  payload : List Nat := []
  msgIdx : Nat := 0
  checksum : Nat := 0
  port : List Nat := []
deriving DecidableEq, Repr

/-- The function `sendByte(uint8_t value, uint8_t& checksum)` (lines 1091-1095). -/
def sendByte (value : Nat) (s : Sender) : Sender :=
  { s with port := setIN s.port value, checksum := (s.checksum + value) % 256 }

/-- The loop of line 1110,
`for(int i=0; i<len; ++i) payload[i % PAYLOAD_SIZE] = message[i % PAYLOAD_SIZE]`. The first
argument is the number of iterations left. The array `message` of the caller holds at least
`PAYLOAD_SIZE` bytes (`upload` passes an array of `RAM_SIZE` bytes). -/
def copyPayload (PAYLOAD_SIZE : Nat) (message : List Nat) : Nat → Nat → List Nat → List Nat
  | 0, _, payload => payload
  | k + 1, i, payload =>
    copyPayload PAYLOAD_SIZE message k (i + 1)
      (payload.set (i % PAYLOAD_SIZE) (message.getD (i % PAYLOAD_SIZE) 0))

/-- The function `sendFrame` (lines 1097-1188): its return value and the variables after the
call. `firstByte` and `len` are `uint8_t`, `address` is `uint16_t`. -/
def sendFrame (VSYNC_START : Int) (PAYLOAD_SIZE : Nat) (vgaY : Int) (firstByte : Nat)
    (message : List Nat) (len : Nat) (address : Nat) (s : Sender) : Bool × Sender :=
  match s.loaderState with
  | .FirstByte =>
    if vgaY = VSYNC_START + 8 then
      (true,
        { loaderState := LoaderState.MsgLength
          payload := copyPayload PAYLOAD_SIZE message len 0 s.payload
          msgIdx := s.msgIdx
          checksum := ((s.checksum + firstByte) % 256 + firstByte * 64) % 256
          port := setIN s.port firstByte })
    else (true, s)
  | .MsgLength =>
    if vgaY = VSYNC_START + 14 then
      (true, { sendByte len s with loaderState := LoaderState.LowAddress })
    else (true, s)
  | .LowAddress =>
    if vgaY = VSYNC_START + 22 then
      (true, { sendByte (address % 256) s with loaderState := LoaderState.HighAddress })
    else (true, s)
  | .HighAddress =>
    if vgaY = VSYNC_START + 30 then
      (true, { sendByte (address / 256 % 256) s with loaderState := LoaderState.Message })
    else (true, s)
  | .Message =>
    if vgaY = VSYNC_START + 38 + (s.msgIdx : Int) * 8 then
      if s.msgIdx + 1 = PAYLOAD_SIZE then
        (true,
          { sendByte (s.payload.getD s.msgIdx 0) s with
            msgIdx := 0, loaderState := LoaderState.LastByte })
      else
        (true, { sendByte (s.payload.getD s.msgIdx 0) s with msgIdx := s.msgIdx + 1 })
    else (true, s)
  | .LastByte =>
    if vgaY = VSYNC_START + 38 + (PAYLOAD_SIZE : Int) * 8 then
      (true,
        { sendByte ((256 - s.checksum % 256) % 256) s with
          checksum := (256 - s.checksum % 256) % 256, loaderState := LoaderState.ResetIN })
    else (true, s)
  | .ResetIN =>
    if vgaY = VSYNC_START + 39 + (PAYLOAD_SIZE : Int) * 8 then
      (false, { s with port := setIN s.port 0xFF, loaderState := LoaderState.FirstByte })
    else (true, s)

/-- The variables `upload` works on: the global `_uploadTarget`, the statics `frameUploading`,
`payload` (an array of `RAM_SIZE` bytes), `payloadSize` and `frameState`, the variables of
`sendFrame` (among them the static `checksum` of `upload`), and the calls of `uploadDirect`
made, oldest first. -/
structure Uploader where
  uploadTarget : UploadTarget := UploadTarget.None
  frameUploading : Bool := false
  payload : List Nat := []
  payloadSize : Nat := 0
  frameState : FrameState := FrameState.Resync
  sender : Sender := {}
  directUploads : List UploadTarget := []
deriving DecidableEq, Repr

/-- The function `upload` (lines 1191-1247). `loadBaseAddress` is the `uint16_t` value that
`Editor::getLoadBaseAddress()` returns in this call. A call of `uploadDirect` is recorded in
`directUploads`; it works on none of the other variables of the model. -/
def upload (VSYNC_START : Int) (PAYLOAD_SIZE : Nat) (loadBaseAddress : Nat) (vgaY : Int)
    (u : Uploader) : Uploader :=
  if u.uploadTarget ≠ UploadTarget.None ∨ u.frameUploading = true then
    if u.uploadTarget ≠ UploadTarget.None then
      { u with
        directUploads := u.directUploads ++ [u.uploadTarget]
        uploadTarget := UploadTarget.None }
    else
      match u.frameState with
      | .Resync =>
        match sendFrame VSYNC_START PAYLOAD_SIZE vgaY 0xFF u.payload u.payloadSize
            loadBaseAddress u.sender with
        | (false, s1) =>
          { u with sender := { s1 with checksum := 0x67 }, frameState := FrameState.Frame }
        | (true, s1) => { u with sender := s1 }
      | .Frame =>
        match sendFrame VSYNC_START PAYLOAD_SIZE vgaY 0x4C u.payload u.payloadSize
            loadBaseAddress u.sender with
        | (false, s1) => { u with sender := s1, frameState := FrameState.Execute }
        | (true, s1) => { u with sender := s1 }
      | .Execute =>
        match sendFrame VSYNC_START PAYLOAD_SIZE vgaY 0x4C u.payload 0
            loadBaseAddress u.sender with
        | (false, s1) =>
          { u with
            sender := { s1 with checksum := 0 }
            frameState := FrameState.Resync
            frameUploading := false }
        | (true, s1) => { u with sender := s1 }
  else u

/-- The scan lines `start, start + 1, ...`, `n` of them. -/
def scanLines (start : Int) : Nat → List Int
  | 0 => []
  | n + 1 => start :: scanLines (start + 1) n

/-- Consecutive calls of `sendFrame` with the same arguments, one for each scan line of the
list: the return values in order and the variables after the last call. -/
def sendFrames (VSYNC_START : Int) (PAYLOAD_SIZE : Nat) (firstByte : Nat) (message : List Nat)
    (len : Nat) (address : Nat) : List Int → Sender → List Bool × Sender
  | [], s => ([], s)
  | vgaY :: lines, s =>
    ((sendFrame VSYNC_START PAYLOAD_SIZE vgaY firstByte message len address s).1 ::
        (sendFrames VSYNC_START PAYLOAD_SIZE firstByte message len address lines
          (sendFrame VSYNC_START PAYLOAD_SIZE vgaY firstByte message len address s).2).1,
      (sendFrames VSYNC_START PAYLOAD_SIZE firstByte message len address lines
        (sendFrame VSYNC_START PAYLOAD_SIZE vgaY firstByte message len address s).2).2)

/-- Consecutive calls of `upload`, one for each scan line of the list. -/
def uploads (VSYNC_START : Int) (PAYLOAD_SIZE : Nat) (loadBaseAddress : Nat) :
    List Int → Uploader → Uploader
  | [], u => u
  | vgaY :: lines, u =>
    uploads VSYNC_START PAYLOAD_SIZE loadBaseAddress lines
      (upload VSYNC_START PAYLOAD_SIZE loadBaseAddress vgaY u)

/-- The scan line at which `sendFrame` acts in the state it is in. -/
def triggerLine (VSYNC_START : Int) (PAYLOAD_SIZE : Nat) (s : Sender) : Int :=
  match s.loaderState with
  | .FirstByte => VSYNC_START + 8
  | .MsgLength => VSYNC_START + 14
  | .LowAddress => VSYNC_START + 22
  | .HighAddress => VSYNC_START + 30
  | .Message => VSYNC_START + 38 + (s.msgIdx : Int) * 8
  | .LastByte => VSYNC_START + 38 + (PAYLOAD_SIZE : Int) * 8
  | .ResetIN => VSYNC_START + 39 + (PAYLOAD_SIZE : Int) * 8

/-- The scan lines of one frame: `VSYNC_START + 8` up to `VSYNC_START + 39 + 8 * PAYLOAD_SIZE`. -/
def frameLines (VSYNC_START : Int) (PAYLOAD_SIZE : Nat) : List Int :=
  scanLines (VSYNC_START + 8) (8 * PAYLOAD_SIZE + 32)

/-- The negation of a sum as a `uint8_t`. -/
def negate8 (sum : Nat) : Nat :=
  (256 - sum % 256) % 256

/-- The bytes that one frame sends before its last byte: the first byte, the length, the low
and the high address byte and the `PAYLOAD_SIZE` bytes of the static `payload` after the copy
of line 1110. -/
def frameBytes (PAYLOAD_SIZE : Nat) (firstByte : Nat) (message : List Nat) (len : Nat)
    (address : Nat) (s : Sender) : List Nat :=
  [firstByte, len, address % 256, address / 256 % 256]
    ++ copyPayload PAYLOAD_SIZE message len 0 s.payload

/-- The last byte of a frame that starts with the variables `s`: the negation of the checksum
the frame starts with, 64 times the first byte and the bytes sent before the last byte. -/
def lastByte (PAYLOAD_SIZE : Nat) (firstByte : Nat) (message : List Nat) (len : Nat)
    (address : Nat) (s : Sender) : Nat :=
  negate8 (s.checksum + 64 * firstByte
    + (frameBytes PAYLOAD_SIZE firstByte message len address s).sum)

/-- The variables of `sendFrame` after a complete frame that starts with the variables `s`. -/
def frameDone (PAYLOAD_SIZE : Nat) (firstByte : Nat) (message : List Nat) (len : Nat)
    (address : Nat) (s : Sender) : Sender :=
  { loaderState := LoaderState.FirstByte
    payload := copyPayload PAYLOAD_SIZE message len 0 s.payload
    msgIdx := 0
    checksum := lastByte PAYLOAD_SIZE firstByte message len address s
    port := s.port ++ frameBytes PAYLOAD_SIZE firstByte message len address s
      ++ [lastByte PAYLOAD_SIZE firstByte message len address s, 0xFF] }

/-! ## The RAM writes of `loadDataFile`, for the statements about it -/

/-- The writes `(address + i, byte)` for the bytes of one group, from offset `i` on. -/
def ramWrites (address : Nat) : Nat → List Nat → List (Nat × Nat)
  | _, [] => []
  | i, byte :: bytes => (address + i, byte) :: ramWrites address (i + 1) bytes

/-- The writes for the groups `j, j + 1, ...` in the order of the file. -/
def groupWrites (addresses : List Nat) : Nat → List (List Nat) → List (Nat × Nat)
  | _, [] => []
  | j, group :: groups =>
    ramWrites (addresses.getD j 0) 0 group ++ groupWrites addresses (j + 1) groups

/-- The RAM after the calls `setRAM(address, byte)` of a list of writes, in order. -/
def applyWrites (ram : Memory) : List (Nat × Nat) → Memory
  | [] => ram
  | w :: ws => applyWrites (setRAM ram w.1 w.2) ws

/-! ## The byte sequences of a comparison pass, for the statements about it -/

/-- The slot invariant of the spec: the counts, addresses and endianness arrays have the same
length, there is one snapshot buffer for every count and it has that many bytes. -/
def SlotInvariant (saveData : SaveData) : Prop :=
  saveData._counts.length = saveData._addresses.length ∧
    saveData._endianness.length = saveData._addresses.length ∧
    saveData._data.map List.length = saveData._counts

/-- The stored snapshot bytes of the watch entry `j` in scan order. -/
def storedBlock (saveData : SaveData) (j : Nat) : List Nat :=
  (scanIndices (saveData._endianness.getD j Endianness.Little)
      (saveData._counts.getD j 0)).map
    (fun i => (saveData._data.getD j []).getD i 0)

/-- The live memory bytes of the watch entry `j` in scan order. -/
def liveBlock (saveData : SaveData) (ram : Memory) (j : Nat) : List Nat :=
  (scanIndices (saveData._endianness.getD j Endianness.Little)
      (saveData._counts.getD j 0)).map
    (fun i => getRAM ram (saveData._addresses.getD j 0 + i))

/-- The stored snapshot bytes of the `n` watch entries from `j` on, in scan order. -/
def storedFrom (saveData : SaveData) : Nat → Nat → List Nat
  | 0, _ => []
  | n + 1, j => storedBlock saveData j ++ storedFrom saveData n (j + 1)

/-- The live memory bytes of the `n` watch entries from `j` on, in scan order. -/
def liveFrom (saveData : SaveData) (ram : Memory) : Nat → Nat → List Nat
  | 0, _ => []
  | n + 1, j => liveBlock saveData ram j ++ liveFrom saveData ram n (j + 1)

/-- The sequence of the stored snapshot bytes of a slot, taken in scan order. -/
def storedBytes (saveData : SaveData) : List Nat :=
  storedFrom saveData saveData._addresses.length 0

/-- The sequence of the live memory bytes of a slot, taken in scan order. -/
def liveBytes (saveData : SaveData) (ram : Memory) : List Nat :=
  liveFrom saveData ram saveData._addresses.length 0

/-! ## `waitForPromptGiga` (lines 465-484)

`readLineGiga` reads the serial port against a timeout, both outside `loader.cpp`; what its
calls return is an input of the model. -/

/-- What a call of `readLineGiga(line)` leaves: its return value (false: timed out) and the
line. -/
structure ReadLine where
  ok : Bool
  line : List Char
deriving DecidableEq, Repr

/-- The C string that a `char*` into a `std::string` points at, as `fprintf` prints it for
`%s`: the characters up to the first NUL or the end of the string. -/
def cString (s : List Char) : List Char :=
  s.takeWhile (fun c => c ≠ Char.ofNat 0)

/-- What a call of `waitForPromptGiga(line)` leaves: its return value, the line, and the
string printed after "Arduino Error :" when that message is printed. -/
structure PromptResult where
  ok : Bool
  line : List Char
  error : Option (List Char)
deriving DecidableEq, Repr

/-- The function `waitForPromptGiga` (lines 465-484) over the results of its calls of
`readLineGiga`, in order. In `if(size_t e = line.find('!') != std::string::npos)` the variable
`e` gets the value of the comparison, 1 or 0, and the message prints `&line[e]`. `none`: the
loop is still running when the list of results ends. -/
def waitForPromptGiga : List ReadLine → Option PromptResult
  | [] => none
  | r :: rest =>
    if r.ok = false then some { ok := false, line := r.line, error := none }
    else if (if '!' ∈ r.line then 1 else 0) ≠ 0 then
      some
        { ok := false
          line := r.line
          error := some (cString (r.line.drop (if '!' ∈ r.line then 1 else 0))) }
    else if '?' ∈ r.line then some { ok := true, line := r.line, error := none }
    else waitForPromptGiga rest

/-- The remainder of a line starting at its first `'!'`, as a C string. -/
def errorRemainder (line : List Char) : List Char :=
  cString (line.dropWhile (fun c => c ≠ '!'))

/-! ## Upload requests (lines 272-273) and sequences of `upload` calls -/

/-- The function `setUploadTarget` (line 273). -/
def setUploadTarget (u : Uploader) (target : UploadTarget) : Uploader :=
  { u with uploadTarget := target }

/-- One step of the host: an optional call of `setUploadTarget`, then a call of `upload` at
the scan line `vgaY`, in which `Editor::getLoadBaseAddress()` returns `loadBaseAddress`. -/
structure UploadEvent where
  request : Option UploadTarget
  loadBaseAddress : Nat
  vgaY : Int

/-- The variables of `upload` before the call of an event: after the request, if any. -/
def requested (u : Uploader) (event : UploadEvent) : Uploader :=
  match event.request with
  | none => u
  | some target => setUploadTarget u target

/-- The variables of `upload` after a sequence of events. -/
def uploadEvents (VSYNC_START : Int) (PAYLOAD_SIZE : Nat) : List UploadEvent → Uploader → Uploader
  | [], u => u
  | event :: events, u =>
    uploadEvents VSYNC_START PAYLOAD_SIZE events
      (upload VSYNC_START PAYLOAD_SIZE event.loadBaseAddress event.vgaY (requested u event))

/-- The initial values of the variables of `upload` and `sendFrame`: no upload target, no
transfer in progress, zero-filled arrays (`RAM_SIZE` is defined outside `loader.cpp`), frame
state `Resync`, state `FirstByte`, checksum 0, and nothing written to the port yet. -/
def initialUploader (PAYLOAD_SIZE RAM_SIZE : Nat) : Uploader :=
  { payload := List.replicate RAM_SIZE 0
    sender := { payload := List.replicate PAYLOAD_SIZE 0 } }

/-! ## The save file of a slot, for the statements about persisting -/

/-- The bytes of the save file of a slot in the layout that `saveDataFile` writes (lines
656-724): the number of counts, the counts, the number of addresses, the addresses, all as
16-bit little-endian values, then the snapshot buffers one after the other. -/
def slotFile (saveData : SaveData) : List Nat :=
  le16 saveData._counts.length ++ saveData._counts.flatMap le16
    ++ le16 saveData._addresses.length ++ saveData._addresses.flatMap le16
    ++ saveData._data.flatten

/-! ## The entry point as `uploadDirect` uses it (line 961) -/

/-- The `uint16_t` value `gt1File._loStart + (gt1File._hiStart <<8)` that `uploadDirect` takes
as the execute address right after a successful `loadGt1File` (line 961). -/
def executeAddress (gt1File : Gt1File) : Nat :=
  (gt1File._loStart + gt1File._hiStart * 256) % 65536

/-! ## Well-formedness predicates -/

/-- A stream at which the decode loop fails: it holds fewer than three bytes (truncated
header), or a three-byte header that is not taken as the terminator, followed by fewer payload
bytes than its size byte declares (truncated segment). -/
def IncompleteRecord (s : List Nat) : Prop :=
  s.length < SEGMENT_HEADER_SIZE ∨
    ∃ (hi lo sz : Nat) (part : List Nat), s = [hi, lo, sz] ++ part ∧
      part.length < effectiveSize sz ∧ (part ≠ [] ∨ hi ≠ 0)

/-- The header fields of a segment are bytes (`uint8_t` in the source). -/
def Gt1Segment.InRange (s : Gt1Segment) : Prop :=
  s._hiAddress < 256 ∧ s._loAddress < 256 ∧ s._segmentSize < 256

instance (s : Gt1Segment) : Decidable s.InRange :=
  inferInstanceAs (Decidable (_ ∧ _ ∧ _))

/-- The segment invariant of the data model: the payload length is the effective size. -/
def Gt1Segment.Sized (s : Gt1Segment) : Prop :=
  s._dataBytes.length = effectiveSize s._segmentSize

instance (s : Gt1Segment) : Decidable s.Sized :=
  inferInstanceAs (Decidable (_ = _))

/-- The filler bytes the inner loop appends for the addresses `addr, addr+1, ..., bLo-1`. -/
def filler (addr bLo : Nat) : List Nat :=
  (List.range' addr (bLo - addr)).map (fun a => if a = 0x80 then 1 else 0)

/-- The record of one segment in the file: header, then the first `effectiveSize` payload bytes. -/
def segmentRecord (s : Gt1Segment) : List Nat :=
  s.header ++ s._dataBytes.take (effectiveSize s._segmentSize)

/-- A segment as the decoder rebuilds it: the ROM flag is not stored in the file. -/
def Gt1Segment.decoded (s : Gt1Segment) : Gt1Segment :=
  { s with _isRomAddress := false }

/-- Ascending order of the 16-bit addresses. -/
def AddrSorted (l : List Gt1Segment) : Prop :=
  l.Pairwise (fun a b => address16 a ≤ address16 b)

/-- What the merge loop keeps true of `_segments[0]`: it satisfies the size invariant, or its
payload has outgrown the 256 bytes a size byte can describe. -/
def HeadOk (A : Gt1Segment) : Prop :=
  A.Sized ∨ 256 < A._dataBytes.length

/-- The state of the vector during the merge loop when the loop starts from segments that all
satisfy the size invariant. -/
def MergeInv (l : List Gt1Segment) : Prop :=
  (∀ s ∈ l, s.InRange) ∧ (∀ s ∈ l.tail, s.Sized) ∧ (∀ s ∈ l.head?, HeadOk s)

/-- Two page-zero segments do not overlap: one ends at or before the start of the other. -/
def PageZeroDisjoint (X Y : Gt1Segment) : Prop :=
  X._hiAddress = 0 → Y._hiAddress = 0 →
    X._loAddress + effectiveSize X._segmentSize ≤ Y._loAddress ∨
      Y._loAddress + effectiveSize Y._segmentSize ≤ X._loAddress

/-- A page-zero segment does not run past the last address 0x00FF of page zero. -/
def WithinPageZero (s : Gt1Segment) : Prop :=
  s._hiAddress = 0 → s._loAddress + effectiveSize s._segmentSize ≤ 256

/-- The state of the vector during the merge loop when the loop starts from page-zero segments
that neither overlap nor run past page zero: every segment satisfies the size invariant and
each page-zero segment ends at or before the start of the page-zero segments after it. -/
def MergeFit (l : List Gt1Segment) : Prop :=
  (∀ s ∈ l, s.InRange ∧ s.Sized ∧ WithinPageZero s) ∧
    l.Pairwise (fun X Y => X._hiAddress = 0 → Y._hiAddress = 0 →
      X._loAddress + effectiveSize X._segmentSize ≤ Y._loAddress)

/-! ## Example inputs -/

/-- Example container: a segment in page 2, a 256-byte segment in page 8 and a page-zero
segment, given out of address order, with entry point 0x0210. -/
def exampleContainer : Gt1File :=
  { _hiStart := 2
    _loStart := 0x10
    _segments :=
      [{ _hiAddress := 2, _loAddress := 0x10, _segmentSize := 2, _dataBytes := [8, 9] },
       { _hiAddress := 8, _segmentSize := 0, _dataBytes := List.replicate 256 3 },
       { _loAddress := 0x30, _segmentSize := 3, _dataBytes := [1, 2, 3] }] }

/-- Example container of a page-zero segment that fills the page (size byte 0, 256 bytes at
address 0x0000) and a one-byte segment at address 0x0001. -/
def fullPageExample : Gt1File :=
  { _segments :=
      [{ _segmentSize := 0, _dataBytes := List.replicate 256 7 },
       { _loAddress := 1, _segmentSize := 1, _dataBytes := [5] }] }

/-- Example container for the page-zero merge: `[addr=0x80,len=2]` and `[addr=0x00,len=4]`. -/
def pageZeroExample : Gt1File :=
  { _segments :=
      [{ _loAddress := 0x80, _segmentSize := 2, _dataBytes := [0xAA, 0xBB] },
       { _loAddress := 0x00, _segmentSize := 4, _dataBytes := [0x11, 0x12, 0x13, 0x14] }] }

/-- Example container of two overlapping page-zero segments, each satisfying the size
invariant: 200 bytes at address 0x0000 and 100 bytes at address 0x0064. -/
def overlapExample : Gt1File :=
  { _segments :=
      [{ _loAddress := 0, _segmentSize := 200, _dataBytes := List.replicate 200 1 },
       { _loAddress := 100, _segmentSize := 100, _dataBytes := List.replicate 100 2 }] }

/-- Example stream: a one-byte segment in page 2, a 256-byte segment in page zero and the
terminator record with entry point 0x0200. -/
def exampleStream : List Nat :=
  [2, 0, 1, 9] ++ ([0, 0, 0] ++ List.replicate 256 4) ++ [0, 2, 0]

/-- Example stream that is cut off: one complete record (a one-byte segment at 0x0200), then
two bytes of a header. -/
def truncatedStream : List Nat :=
  [0x02, 0x00, 0x01, 0x09, 0x03, 0x00]

/-- The container that a failed decode of `truncatedStream` leaves behind. -/
def truncatedResult : Gt1File :=
  { _segments := [{ _hiAddress := 2, _segmentSize := 1, _dataBytes := [9] }] }

/-- Example stream with entry point: a one-byte segment at 0x0200 and the terminator record
`00 02 10`. -/
def entryStream : List Nat :=
  [0x02, 0x00, 0x01, 0x09, 0x00, 0x02, 0x10]

/-- The container decoded from `entryStream`. -/
def entryDecoded : Gt1File :=
  { _hiStart := 0x02
    _loStart := 0x10
    _segments := [{ _hiAddress := 2, _segmentSize := 1, _dataBytes := [9] }] }

/-- Example container of a single ROM-targeted segment of three bytes. -/
def romOnlyExample : Gt1File :=
  { _segments :=
      [{ _isRomAddress := true, _hiAddress := 2, _segmentSize := 3, _dataBytes := [1, 2, 3] }] }

/-- Example container of a ROM-targeted segment whose size byte 1 differs from its payload
length 2, followed by a one-byte segment for RAM. -/
def romMismatchExample : Gt1File :=
  { _segments :=
      [{ _isRomAddress := true, _hiAddress := 2, _segmentSize := 1, _dataBytes := [1, 2] },
       { _hiAddress := 3, _segmentSize := 1, _dataBytes := [3] }] }

/-- Example container of a ROM-targeted segment followed by a segment for RAM whose size byte
2 differs from its payload length 1. -/
def ramMismatchExample : Gt1File :=
  { _segments :=
      [{ _isRomAddress := true, _hiAddress := 2, _segmentSize := 1, _dataBytes := [1] },
       { _hiAddress := 3, _segmentSize := 2, _dataBytes := [7] }] }

/-- Example container of a 256-byte ROM-targeted segment and two segments for RAM. -/
def mixedExample : Gt1File :=
  { _segments :=
      [{ _hiAddress := 2, _segmentSize := 2, _dataBytes := [8, 9] },
       { _isRomAddress := true, _hiAddress := 8, _segmentSize := 0,
         _dataBytes := List.replicate 256 3 },
       { _loAddress := 0x30, _segmentSize := 3, _dataBytes := [1, 2, 3] }] }

/-- Example slot with two watch entries: two bytes at 0x0100 and one byte at 0x1234. -/
def exampleSlot : SaveData :=
  { _initialised := true
    _updaterate := 60
    _filename := "game".toList
    _counts := [2, 1]
    _addresses := [0x0100, 0x1234]
    _endianness := [Endianness.Little, Endianness.Big]
    _data := [[5, 6], [7]] }

/-- The slot of the configuration of `exampleSlot` as `initialise` builds it (lines 354-368):
same counts, addresses and endianness, zero-filled snapshot buffers. -/
def configuredSlot : SaveData :=
  { exampleSlot with _data := [[0, 0], [0]] }

/-- The bytes of the save file of `exampleSlot`. -/
def exampleSlotFile : List Nat :=
  [2, 0, 2, 0, 1, 0, 2, 0, 0x00, 0x01, 0x34, 0x12, 5, 6, 7]

/-- Example slot with one watch entry (one byte at 0x0100), as `initialise` builds it: the four
arrays have length 1 and the snapshot buffer is zero-filled. -/
def singleSlot : SaveData :=
  { _initialised := true
    _updaterate := 60
    _filename := "game".toList
    _counts := [1]
    _addresses := [0x0100]
    _endianness := [Endianness.Little]
    _data := [[0]] }

/-- A save file for `singleSlot`: one count (1), one address (0x0100), the data byte 0x2A. -/
def singleSlotFile : List Nat :=
  [1, 0, 1, 0, 1, 0, 0x00, 0x01, 0x2A]

/-- A save file that declares two counts (2 and 1) but one address (0x0100), followed by three
data bytes. -/
def unevenFile : List Nat :=
  [2, 0, 2, 0, 1, 0, 1, 0, 0x00, 0x01, 5, 6, 7]

/-- A save file that declares no count and no address, followed by three data bytes. -/
def zeroCountFile : List Nat :=
  [0, 0, 0, 0, 5, 6, 7]

/-- Example slot whose counts array (two entries) and addresses array (one entry) differ in
length. -/
def unevenSlot : SaveData :=
  { _counts := [1, 1]
    _addresses := [0x0100]
    _endianness := [Endianness.Little]
    _data := [[0]] }

/-- Example slot with one watch entry and no snapshot buffer. -/
def emptyBufferSlot : SaveData :=
  { _initialised := true
    _updaterate := 60
    _filename := "game".toList
    _counts := [1]
    _addresses := [0x0100]
    _endianness := [Endianness.Little]
    _data := [] }

/-- Example slot with one watch entry of zero bytes and a snapshot buffer of one byte. -/
def zeroCountSlot : SaveData :=
  { _initialised := true
    _updaterate := 60
    _filename := "game".toList
    _counts := [0]
    _addresses := [0x0100]
    _endianness := [Endianness.Little]
    _data := [[7]] }

/-- Example slot with one big-endian watch entry of two bytes at 0x0100; the snapshot holds 0
and 5. -/
def bigSlot : SaveData :=
  { _initialised := true
    _updaterate := 60
    _filename := "game".toList
    _counts := [2]
    _addresses := [0x0100]
    _endianness := [Endianness.Big]
    _data := [[0, 5]] }

/-- Example slot with two watch entries, two bytes at 0x0100 (little endian) and two bytes at
0x0200 (big endian); the snapshot holds 3, 9 and 8, 1. -/
def scoreSlot : SaveData :=
  { _initialised := true
    _updaterate := 2
    _filename := "game".toList
    _counts := [2, 2]
    _addresses := [0x0100, 0x0200]
    _endianness := [Endianness.Little, Endianness.Big]
    _data := [[3, 9], [8, 1]] }

/-- Example RAM: 4 at 0x0101, 0 everywhere else. -/
def lowRam : Memory :=
  fun a => if a = 0x0101 then 4 else 0

/-- Example RAM: 3, 9 at 0x0100 and 8, 7 at 0x0200, 0 everywhere else. -/
def scoreRam : Memory :=
  fun a => if a = 0x0100 then 3 else if a = 0x0101 then 9 else if a = 0x0200 then 8
    else if a = 0x0201 then 7 else 0

/-- Example RAM: 3, 9 at 0x0100 and 8, 0 at 0x0200, 0 everywhere else. -/
def lowerRam : Memory :=
  fun a => if a = 0x0100 then 3 else if a = 0x0101 then 9 else if a = 0x0200 then 8 else 0

/-- Example value of the parameter `VSYNC_START`. -/
def exampleVsyncStart : Int :=
  -36

/-- Example value of the parameter `PAYLOAD_SIZE`. -/
def examplePayloadSize : Nat :=
  60

/-- The variables of `sendFrame` before its first call, with the checksum 0 that `upload`
starts with: state `FirstByte`, a zero-filled `payload`, nothing written to the port. -/
def exampleSender : Sender :=
  { payload := List.replicate examplePayloadSize 0 }

/-- The variables of `upload` with a transfer in progress and nothing sent so far: no upload
target, `frameUploading` set, a zero-filled `payload` (given by its first `PAYLOAD_SIZE` bytes)
and `payloadSize` 0 (their initial values), frame state `Resync`. -/
def exampleUploader : Uploader :=
  { frameUploading := true
    payload := List.replicate examplePayloadSize 0
    sender := exampleSender }

/-- Example line of the serial link without a marker: `ok`, with the NUL that `readLineGiga`
puts in the place of the line feed. -/
def plainLine : List Char :=
  ['o', 'k', Char.ofNat 0]

/-- Example line of the serial link with the error marker at index 2: `ab!cd`. -/
def errorLine : List Char :=
  ['a', 'b', '!', 'c', 'd', Char.ofNat 0]

/-- Example line of the serial link with the prompt marker: `60?`. -/
def promptLine : List Char :=
  ['6', '0', '?', Char.ofNat 0]

/-- Example sequence of events: two calls of `upload` without a request, a request for an
upload to the emulator, a call without a request, a request for an upload to the hardware. -/
def exampleEvents : List UploadEvent :=
  [{ request := none, loadBaseAddress := 0x0200, vgaY := -28 },
   { request := none, loadBaseAddress := 0x0200, vgaY := -27 },
   { request := some UploadTarget.Emulator, loadBaseAddress := 0x0200, vgaY := -28 },
   { request := none, loadBaseAddress := 0x0200, vgaY := -22 },
   { request := some UploadTarget.Hardware, loadBaseAddress := 0x0200, vgaY := -28 }]

/-- A save file for `singleSlot` whose data byte is 0. -/
def zeroByteFile : List Nat :=
  [1, 0, 1, 0, 1, 0, 0x00, 0x01, 0x00]

/-- Example RAM: 0x2B at 0x0100, 0 everywhere else. -/
def highRam : Memory :=
  fun a => if a = 0x0100 then 0x2B else 0

/-- Example RAM: every byte is 0. -/
def zeroRam : Memory :=
  fun _ => 0

/-- Example path of a source file. -/
def exampleFilepath : List Char :=
  "game.gasm".toList

/-- The container decoded from `exampleStream`. -/
def exampleDecoded : Gt1File :=
  { _hiStart := 2
    _loStart := 0
    _segments :=
      [{ _hiAddress := 2, _segmentSize := 1, _dataBytes := [9] },
       { _segmentSize := 0, _dataBytes := List.replicate 256 4 }] }

/-! ## Lemmas on the merge loops -/

theorem filler_length (addr bLo : Nat) : (filler addr bLo).length = bLo - addr := by
  simp [filler]

theorem filler_self (addr bLo : Nat) (h : bLo ≤ addr) : filler addr bLo = [] := by
  simp [filler, Nat.sub_eq_zero_of_le h]

theorem filler_step (addr bLo : Nat) (h : addr < bLo) :
    filler addr bLo = (if addr = 0x80 then 1 else 0) :: filler (addr + 1) bLo := by
  unfold filler
  have e : bLo - addr = (bLo - (addr + 1)) + 1 := by omega
  rw [e, List.range'_succ]
  simp

theorem padLoop_eq (fuel : Nat) (A : Gt1Segment) (addr bLo : Nat)
    (hb : bLo < 256) (hf : bLo - addr ≤ fuel) :
    padLoop fuel A addr bLo =
      { A with
        _dataBytes := A._dataBytes ++ filler addr bLo
        _segmentSize := if addr < bLo then (A._segmentSize + (bLo - addr)) % 256
                        else A._segmentSize } := by
  induction fuel generalizing A addr with
  | zero =>
    have h : bLo ≤ addr := by omega
    simp [padLoop, filler_self addr bLo h, Nat.not_lt.mpr h]
  | succ n ih =>
    unfold padLoop
    by_cases h : addr < bLo
    · have e : (addr + 1) % 256 = addr + 1 := Nat.mod_eq_of_lt (by omega)
      rw [if_pos h, e, ih _ _ (by omega), filler_step addr bLo h, if_pos h]
      by_cases h2 : addr + 1 < bLo
      · simp only [if_pos h2, List.append_assoc, List.singleton_append]
        congr 1
        omega
      · simp only [if_neg h2, List.append_assoc, List.singleton_append]
        congr 1
        have : bLo - addr = 1 := by omega
        rw [this]
    · have h2 : bLo ≤ addr := by omega
      simp [h, filler_self addr bLo h2]

theorem padLoop_hi (fuel : Nat) (A : Gt1Segment) (addr bLo : Nat) :
    (padLoop fuel A addr bLo)._hiAddress = A._hiAddress := by
  induction fuel generalizing A addr with
  | zero => rfl
  | succ n ih =>
    unfold padLoop
    split
    · rw [ih]
    · rfl

theorem padLoop_lo (fuel : Nat) (A : Gt1Segment) (addr bLo : Nat) :
    (padLoop fuel A addr bLo)._loAddress = A._loAddress := by
  induction fuel generalizing A addr with
  | zero => rfl
  | succ n ih =>
    unfold padLoop
    split
    · rw [ih]
    · rfl

theorem mergeBody_hi (A B : Gt1Segment) : (mergeBody A B)._hiAddress = A._hiAddress := by
  simp [mergeBody, padLoop_hi]

theorem mergeBody_lo (A B : Gt1Segment) : (mergeBody A B)._loAddress = A._loAddress := by
  simp [mergeBody, padLoop_lo]

theorem mergeBody_size_lt (A B : Gt1Segment) : (mergeBody A B)._segmentSize < 256 := by
  simp only [mergeBody]
  exact Nat.mod_lt _ (by decide)

theorem address16_mergeBody (A B : Gt1Segment) : address16 (mergeBody A B) = address16 A := by
  simp [address16, mergeBody_hi, mergeBody_lo]

/-- Closed form of the loop body: payload and size byte of the merged segment. -/
theorem mergeBody_eq (A B : Gt1Segment) (hb : B._loAddress < 256) :
    mergeBody A B =
      { A with
        _dataBytes :=
          A._dataBytes ++ filler ((A._loAddress + A._segmentSize) % 256) B._loAddress
            ++ B._dataBytes
        _segmentSize :=
          (A._segmentSize + (B._loAddress - (A._loAddress + A._segmentSize) % 256)
            + B._segmentSize) % 256 } := by
  unfold mergeBody
  simp only
  rw [padLoop_eq 256 A _ _ hb (by omega)]
  by_cases h : (A._loAddress + A._segmentSize) % 256 < B._loAddress
  · simp only [if_pos h]
    congr 1
    omega
  · simp only [if_neg h]
    have : B._loAddress - (A._loAddress + A._segmentSize) % 256 = 0 := by omega
    rw [this]
    rfl

theorem mergeStep_length (l l1 : List Gt1Segment) (h : mergeStep l = some l1) :
    l1.length + 1 = l.length := by
  match l, h with
  | A :: B :: rest, h =>
    simp only [mergeStep] at h
    split at h
    · cases h
      simp
    · cases h

/-- The iteration budget of `mergeWhile` is never exhausted: the loop condition is false on
the result. -/
theorem mergeWhile_done (fuel : Nat) (l : List Gt1Segment) (h : l.length ≤ fuel) :
    mergeStep (mergeWhile fuel l) = none := by
  induction fuel generalizing l with
  | zero =>
    have : l = [] := List.length_eq_zero.mp (by omega)
    subst this
    rfl
  | succ n ih =>
    unfold mergeWhile
    cases hs : mergeStep l with
    | none => simpa using hs
    | some l1 =>
      have := mergeStep_length l l1 hs
      exact ih l1 (by omega)

/-- More budget than the length does not change the result of `mergeWhile`. -/
theorem mergeWhile_fuel (fuel : Nat) (l : List Gt1Segment) (h : l.length ≤ fuel) :
    mergeWhile fuel l = mergeWhile l.length l := by
  induction fuel generalizing l with
  | zero =>
    have : l = [] := List.length_eq_zero.mp (by omega)
    subst this
    rfl
  | succ n ih =>
    cases hs : mergeStep l with
    | none =>
      cases l with
      | nil => rfl
      | cons a t => simp [mergeWhile, hs]
    | some l1 =>
      have hl := mergeStep_length l l1 hs
      cases l with
      | nil => simp at hl
      | cons a t =>
        simp only [mergeWhile, hs, List.length_cons]
        simp only [List.length_cons] at hl h
        have e : t.length = l1.length := by omega
        rw [ih l1 (by omega), e]

theorem mergeStep_some (l l1 : List Gt1Segment) (h : mergeStep l = some l1) :
    ∃ A B rest, l = A :: B :: rest ∧ A._hiAddress = 0 ∧ B._hiAddress = 0 ∧
      l1 = mergeBody A B :: rest := by
  match l, h with
  | A :: B :: rest, h =>
    simp only [mergeStep] at h
    split at h
    · rename_i hc
      cases h
      exact ⟨A, B, rest, rfl, hc.1, hc.2, rfl⟩
    · cases h

/-- Induction principle for the outer loop: a property of the vector kept by every iteration
holds when the loop is left. -/
theorem mergeWhile_induct (P : List Gt1Segment → Prop)
    (hstep : ∀ l l1, P l → mergeStep l = some l1 → P l1) :
    ∀ (fuel : Nat) (l : List Gt1Segment), P l → P (mergeWhile fuel l) := by
  intro fuel
  induction fuel with
  | zero => intro l h; exact h
  | succ n ih =>
    intro l h
    unfold mergeWhile
    cases hs : mergeStep l with
    | none => exact h
    | some l1 => exact ih l1 (hstep l l1 h hs)

/-! ## Lemmas on the sort -/

theorem segmentLE_iff (a b : Gt1Segment) : segmentLE a b ↔ address16 a ≤ address16 b := by
  simp [segmentLE, segmentLess]

theorem sortSegments_sorted (l : List Gt1Segment) : AddrSorted (sortSegments l) := by
  have h := List.sorted_insertionSort segmentLE l
  unfold AddrSorted sortSegments
  exact List.Pairwise.imp (fun {a b} hab => (segmentLE_iff a b).mp hab) h

theorem sortSegments_perm (l : List Gt1Segment) : (sortSegments l).Perm l :=
  List.perm_insertionSort segmentLE l

theorem sortSegments_length (l : List Gt1Segment) : (sortSegments l).length = l.length :=
  (sortSegments_perm l).length_eq

theorem mem_sortSegments (l : List Gt1Segment) (s : Gt1Segment) :
    s ∈ sortSegments l ↔ s ∈ l :=
  (sortSegments_perm l).mem_iff

/-- When no two segments of the vector have the same 16-bit address, the vector in ascending
address order is unique: every permutation of the vector that is in ascending address order,
and so the result of every implementation of `std::sort`, is `sortSegments` of the vector. -/
theorem sortSegments_unique (l sorted : List Gt1Segment)
    (hd : ∀ a ∈ l, ∀ b ∈ l, address16 a = address16 b → a = b)
    (hp : sorted.Perm l) (hs : AddrSorted sorted) : sorted = sortSegments l := by
  haveI : IsAntisymm Gt1Segment
      (fun a b => address16 a ≤ address16 b ∧ (address16 a = address16 b → a = b)) :=
    ⟨fun a b hab hba => hab.2 (Nat.le_antisymm hab.1 hba.1)⟩
  have hstrong : ∀ l1 : List Gt1Segment, l1.Perm l → AddrSorted l1 →
      List.Sorted
        (fun a b => address16 a ≤ address16 b ∧ (address16 a = address16 b → a = b)) l1 := by
    intro l1 hp1 hs1
    unfold AddrSorted at hs1
    exact List.Pairwise.imp_of_mem
      (fun {a b} ha hb hab => ⟨hab, hd a (hp1.mem_iff.mp ha) b (hp1.mem_iff.mp hb)⟩) hs1
  exact List.eq_of_perm_of_sorted (hp.trans (sortSegments_perm l).symm)
    (hstrong sorted hp hs) (hstrong _ (sortSegments_perm l) (sortSegments_sorted l))

theorem mergeBody_inRange (A B : Gt1Segment) (hA : A.InRange) : (mergeBody A B).InRange := by
  refine ⟨?_, ?_, mergeBody_size_lt A B⟩
  · rw [mergeBody_hi]; exact hA.1
  · rw [mergeBody_lo]; exact hA.2.1

theorem mergeStep_sorted (l l1 : List Gt1Segment) (h : AddrSorted l)
    (hs : mergeStep l = some l1) : AddrSorted l1 := by
  obtain ⟨A, B, rest, rfl, -, -, rfl⟩ := mergeStep_some l l1 hs
  unfold AddrSorted at h ⊢
  rw [List.pairwise_cons] at h
  obtain ⟨hA, hrest⟩ := h
  rw [List.pairwise_cons] at hrest
  rw [List.pairwise_cons]
  refine ⟨fun x hx => ?_, hrest.2⟩
  rw [address16_mergeBody]
  exact hA x (List.mem_cons_of_mem _ hx)

theorem mergeStep_inRange (l l1 : List Gt1Segment) (h : ∀ s ∈ l, s.InRange)
    (hs : mergeStep l = some l1) : ∀ s ∈ l1, s.InRange := by
  obtain ⟨A, B, rest, rfl, -, -, rfl⟩ := mergeStep_some l l1 hs
  intro s hsm
  rcases List.mem_cons.mp hsm with rfl | hm
  · exact mergeBody_inRange A B (h A (List.mem_cons_self _ _))
  · exact h s (List.mem_cons_of_mem _ (List.mem_cons_of_mem _ hm))

theorem sortAndMerge_sorted (l : List Gt1Segment) : AddrSorted (sortAndMerge l) :=
  mergeWhile_induct AddrSorted mergeStep_sorted _ _ (sortSegments_sorted l)

theorem sortAndMerge_inRange (l : List Gt1Segment) (h : ∀ s ∈ l, s.InRange) :
    ∀ s ∈ sortAndMerge l, s.InRange :=
  mergeWhile_induct (fun l => ∀ s ∈ l, s.InRange) mergeStep_inRange _ _
    (fun s hs => h s ((mem_sortSegments l s).mp hs))

theorem sortAndMerge_done (l : List Gt1Segment) : mergeStep (sortAndMerge l) = none :=
  mergeWhile_done _ _ (Nat.le_refl _)

theorem hi_ne_zero_of_le (a b : Gt1Segment) (ha : a.InRange) (hb : b.InRange)
    (h0 : a._hiAddress ≠ 0) (hle : address16 a ≤ address16 b) : b._hiAddress ≠ 0 := by
  obtain ⟨h1, h2, -⟩ := ha
  obtain ⟨h3, h4, -⟩ := hb
  unfold address16 at hle
  omega

/-- In an address-sorted vector on which the merge loop has stopped, at most one segment lies
in page zero. -/
theorem pageZero_le_one (l : List Gt1Segment) (hs : AddrSorted l) (hr : ∀ s ∈ l, s.InRange)
    (hd : mergeStep l = none) : (l.filter (fun s => decide (s._hiAddress = 0))).length ≤ 1 := by
  match l, hs, hr, hd with
  | [], _, _, _ => simp
  | [a], _, _, _ =>
    by_cases h : a._hiAddress = 0 <;> simp [List.filter, h]
  | A :: B :: rest, hs, hr, hd =>
    unfold AddrSorted at hs
    rw [List.pairwise_cons] at hs
    obtain ⟨hA, hrest⟩ := hs
    rw [List.pairwise_cons] at hrest
    obtain ⟨hB, -⟩ := hrest
    have rA := hr A (List.mem_cons_self _ _)
    have rB := hr B (List.mem_cons_of_mem _ (List.mem_cons_self _ _))
    have hB0 : B._hiAddress ≠ 0 := by
      intro hb0
      by_cases ha0 : A._hiAddress = 0
      · simp [mergeStep, ha0, hb0] at hd
      · exact hi_ne_zero_of_le A B rA rB ha0 (hA B (List.mem_cons_self _ _)) hb0
    have hnil : (B :: rest).filter (fun s => decide (s._hiAddress = 0)) = [] := by
      rw [List.filter_eq_nil_iff]
      intro x hx
      have rx := hr x (List.mem_cons_of_mem _ hx)
      rcases List.mem_cons.mp hx with rfl | hm
      · simpa using hB0
      · simpa using hi_ne_zero_of_le B x rB rx hB0 (hB x hm)
    rw [List.filter_cons]
    split
    · rw [hnil]; simp
    · rw [hnil]; simp

/-! ## Lemmas on writing and reading records -/

theorem effectiveSize_pos (n : Nat) : 0 < effectiveSize n := by
  unfold effectiveSize
  split <;> omega

theorem effectiveSize_le (n : Nat) (h : n < 256) : effectiveSize n ≤ 256 := by
  unfold effectiveSize
  split <;> omega

theorem writeSegments_eq (segs : List Gt1Segment) (out : List Nat) :
    writeSegments segs out = out ++ segs.flatMap segmentRecord := by
  induction segs generalizing out with
  | nil => simp [writeSegments]
  | cons s t ih =>
    simp [writeSegments, ih, ostreamWrite, segmentRecord, Gt1Segment.header,
      SEGMENT_HEADER_SIZE]

theorem segmentRecord_length (s : Gt1Segment)
    (h : effectiveSize s._segmentSize ≤ s._dataBytes.length) :
    (segmentRecord s).length = 3 + effectiveSize s._segmentSize := by
  simp [segmentRecord, Gt1Segment.header, Nat.min_eq_left h]
  omega

theorem length_le_flatMap_record (segs : List Gt1Segment) :
    segs.length ≤ (segs.flatMap segmentRecord).length := by
  induction segs with
  | nil => simp
  | cons s t ih =>
    simp only [List.flatMap_cons, List.length_append, List.length_cons]
    have : 3 ≤ (segmentRecord s).length := by
      simp [segmentRecord, Gt1Segment.header]
    omega

theorem loadLoop_succ (fuel : Nat) (s : List Nat) (g : Gt1File) :
    loadLoop (fuel + 1) s g =
      match istreamRead s SEGMENT_HEADER_SIZE with
      | some ([hi, lo, sz], s1) =>
        if hi = 0x00 ∧ istreamPeekEOF s1 = true then
          some (true, { g with _hiStart := lo, _loStart := sz })
        else
          match istreamRead s1 (effectiveSize sz) with
          | some (data, s2) =>
            loadLoop fuel s2
              { g with
                _segments := g._segments ++
                  [{ _hiAddress := hi, _loAddress := lo, _segmentSize := sz, _dataBytes := data }] }
          | none => some (false, g)
      | _ => some (false, g) := rfl

theorem istreamRead_some (s : List Nat) (n : Nat) (b r : List Nat)
    (h : istreamRead s n = some (b, r)) : n ≤ s.length ∧ b = s.take n ∧ r = s.drop n := by
  unfold istreamRead at h
  split at h
  · simp only [Option.some.injEq, Prod.mk.injEq] at h
    exact ⟨by assumption, h.1.symm, h.2.symm⟩
  · cases h

/-- The loop always returns within `s.length + 1` iterations. -/
theorem loadLoop_isSome (fuel : Nat) (s : List Nat) (g : Gt1File) (h : s.length < fuel) :
    (loadLoop fuel s g).isSome = true := by
  induction fuel generalizing s g with
  | zero => omega
  | succ n ih =>
    unfold loadLoop
    split
    · rename_i hi lo sz s1 hread
      split
      · rfl
      · simp only
        split
        · rename_i data s2 hread2
          apply ih
          obtain ⟨h1, -, rfl⟩ := istreamRead_some _ _ _ _ hread
          obtain ⟨h2, -, rfl⟩ := istreamRead_some _ _ _ _ hread2
          simp only [List.length_drop, SEGMENT_HEADER_SIZE] at h1 h2 ⊢
          omega
        · rfl
    · rfl

/-- The function `loadGt1File` always returns: the iteration budget of its loop is never
exhausted. -/
theorem loadGt1File_isSome (infile : Option (List Nat)) (g : Gt1File) :
    (loadGt1File infile g).isSome = true := by
  cases infile with
  | none => rfl
  | some s => exact loadLoop_isSome _ s g (Nat.lt_succ_self _)

/-- One loop iteration on a complete record of a segment that satisfies the size invariant:
the segment is appended and the loop goes on with the bytes after the record. -/
theorem loadLoop_record (fuel : Nat) (s : Gt1Segment) (rest : List Nat) (g : Gt1File)
    (hs : s.Sized) :
    loadLoop (fuel + 1) (segmentRecord s ++ rest) g =
      loadLoop fuel rest { g with _segments := g._segments ++ [s.decoded] } := by
  have hpos := effectiveSize_pos s._segmentSize
  have htake : s._dataBytes.take (effectiveSize s._segmentSize) = s._dataBytes :=
    List.take_of_length_le (by rw [hs])
  have hne : s._dataBytes ≠ [] := by
    intro h
    rw [Gt1Segment.Sized, h] at hs
    simp at hs
    omega
  have h1 : istreamRead (segmentRecord s ++ rest) SEGMENT_HEADER_SIZE =
      some ([s._hiAddress, s._loAddress, s._segmentSize], s._dataBytes ++ rest) := by
    simp [istreamRead, segmentRecord, Gt1Segment.header, SEGMENT_HEADER_SIZE, htake]
  have h2 : istreamRead (s._dataBytes ++ rest) (effectiveSize s._segmentSize) =
      some (s._dataBytes, rest) := by
    unfold istreamRead
    rw [if_pos (by rw [List.length_append, hs]; omega), List.take_left' hs, List.drop_left' hs]
  have h3 : istreamPeekEOF (s._dataBytes ++ rest) = false := by
    cases hd : s._dataBytes with
    | nil => exact absurd hd hne
    | cons a t => rfl
  rw [loadLoop_succ]
  simp only [h1, h2, h3, Gt1Segment.decoded]
  simp

/-- Decoding the records of segments that satisfy the size invariant, followed by a trailer
whose first byte is zero. -/
theorem loadLoop_records_trailer (segs : List Gt1Segment) (a b : Nat) (fuel : Nat)
    (g : Gt1File) (hs : ∀ s ∈ segs, s.Sized) (hf : segs.length < fuel) :
    loadLoop fuel (segs.flatMap segmentRecord ++ [0, a, b]) g =
      some (true,
        { g with
          _segments := g._segments ++ segs.map Gt1Segment.decoded
          _hiStart := a
          _loStart := b }) := by
  induction segs generalizing fuel g with
  | nil =>
    obtain ⟨n, rfl⟩ : ∃ n, fuel = n + 1 := ⟨fuel - 1, by simp at hf; omega⟩
    rw [loadLoop_succ]
    simp [istreamRead, istreamPeekEOF, SEGMENT_HEADER_SIZE]
  | cons s t ih =>
    obtain ⟨n, rfl⟩ : ∃ n, fuel = n + 1 := ⟨fuel - 1, by simp at hf; omega⟩
    rw [List.flatMap_cons, List.append_assoc,
      loadLoop_record n s _ g (hs s (List.mem_cons_self _ _)),
      ih n _ (fun x hx => hs x (List.mem_cons_of_mem _ hx)) (by simp at hf; omega)]
    simp

/-- Decoding complete records followed by a header and a payload that is cut short. -/
theorem loadLoop_truncated (segs : List Gt1Segment) (hi lo sz : Nat) (part : List Nat)
    (fuel : Nat) (g : Gt1File) (hs : ∀ s ∈ segs, s.Sized)
    (hp : part.length < effectiveSize sz) (hne : part ≠ [] ∨ hi ≠ 0)
    (hf : segs.length < fuel) :
    loadLoop fuel (segs.flatMap segmentRecord ++ ([hi, lo, sz] ++ part)) g =
      some (false, { g with _segments := g._segments ++ segs.map Gt1Segment.decoded }) := by
  induction segs generalizing fuel g with
  | nil =>
    obtain ⟨n, rfl⟩ : ∃ n, fuel = n + 1 := ⟨fuel - 1, by simp at hf; omega⟩
    rw [loadLoop_succ]
    have h1 : istreamRead ([].flatMap segmentRecord ++ ([hi, lo, sz] ++ part))
        SEGMENT_HEADER_SIZE = some ([hi, lo, sz], part) := by
      simp [istreamRead, SEGMENT_HEADER_SIZE]
    have h2 : istreamRead part (effectiveSize sz) = none := by
      unfold istreamRead
      rw [if_neg (by omega)]
    have h3 : ¬ (hi = 0x00 ∧ istreamPeekEOF part = true) := by
      rintro ⟨h0, he⟩
      rcases hne with hne | hne
      · cases part with
        | nil => exact hne rfl
        | cons x xs => simp [istreamPeekEOF] at he
      · exact hne h0
    simp only [h1, h2, if_neg h3]
    simp
  | cons s t ih =>
    obtain ⟨n, rfl⟩ : ∃ n, fuel = n + 1 := ⟨fuel - 1, by simp at hf; omega⟩
    rw [List.flatMap_cons, List.append_assoc,
      loadLoop_record n s _ g (hs s (List.mem_cons_self _ _)),
      ih n _ (fun x hx => hs x (List.mem_cons_of_mem _ hx)) (by simp at hf; omega)]
    simp

/-- Every segment appended by a run of the loop that ends normally satisfies the size
invariant. -/
theorem loadLoop_sized (fuel : Nat) (s : List Nat) (g g1 : Gt1File)
    (h : loadLoop fuel s g = some (true, g1)) :
    ∃ segs, g1._segments = g._segments ++ segs ∧ ∀ x ∈ segs, x.Sized := by
  induction fuel generalizing s g with
  | zero => simp [loadLoop] at h
  | succ n ih =>
    rw [loadLoop_succ] at h
    split at h
    · rename_i hi lo sz s1 hread
      split at h
      · simp only [Option.some.injEq, Prod.mk.injEq, true_and] at h
        subst h
        exact ⟨[], by simp, by simp⟩
      · split at h
        · rename_i data s2 hread2
          obtain ⟨segs, he, hsz⟩ := ih _ _ h
          obtain ⟨hlen, rfl, -⟩ := istreamRead_some _ _ _ _ hread2
          refine ⟨(⟨false, hi, lo, sz, List.take (effectiveSize sz) s1⟩ : Gt1Segment) :: segs,
            by rw [he]; simp, ?_⟩
          intro x hx
          rcases List.mem_cons.mp hx with rfl | hm
          · simp only [Gt1Segment.Sized, List.length_take]
            omega
          · exact hsz x hm
        · simp at h
    · simp at h

/-! ## The size invariant across the merge -/

theorem mergeBody_data_length (A B : Gt1Segment) (hb : B._loAddress < 256) :
    (mergeBody A B)._dataBytes.length =
      A._dataBytes.length + (B._loAddress - (A._loAddress + A._segmentSize) % 256)
        + B._dataBytes.length := by
  rw [mergeBody_eq A B hb]
  simp only [List.length_append, filler_length]

theorem mergeBody_headOk (A B : Gt1Segment) (hA : A.InRange) (hB : B.InRange)
    (hsB : B.Sized) (hJ : HeadOk A) : HeadOk (mergeBody A B) := by
  have hlen := mergeBody_data_length A B hB.2.1
  obtain ⟨-, hb1, hb2⟩ := hB
  obtain ⟨-, -, ha2⟩ := hA
  unfold HeadOk Gt1Segment.Sized at *
  rw [hlen]
  have hsz : (mergeBody A B)._segmentSize =
      (A._segmentSize + (B._loAddress - (A._loAddress + A._segmentSize) % 256)
        + B._segmentSize) % 256 := by
    rw [mergeBody_eq A B hb1]
  rw [hsz]
  unfold effectiveSize at *
  rcases hJ with hJ | hJ
  · split at hJ <;> split at hsB <;> split <;> omega
  · right; omega

theorem mergeStep_mergeInv (l l1 : List Gt1Segment) (h : MergeInv l)
    (hs : mergeStep l = some l1) : MergeInv l1 := by
  obtain ⟨hr, ht, hh⟩ := h
  refine ⟨mergeStep_inRange l l1 hr hs, ?_, ?_⟩
  · obtain ⟨A, B, rest, rfl, -, -, rfl⟩ := mergeStep_some l l1 hs
    intro s hsm
    exact ht s (List.mem_cons_of_mem _ hsm)
  · obtain ⟨A, B, rest, rfl, -, -, rfl⟩ := mergeStep_some l l1 hs
    intro s hsm
    simp only [List.head?_cons, Option.mem_def, Option.some.injEq] at hsm
    subst hsm
    exact mergeBody_headOk A B (hr A (List.mem_cons_self _ _))
      (hr B (List.mem_cons_of_mem _ (List.mem_cons_self _ _)))
      (ht B (List.mem_cons_self _ _)) (hh A rfl)

theorem sortAndMerge_mergeInv (l : List Gt1Segment) (hr : ∀ s ∈ l, s.InRange)
    (hs : ∀ s ∈ l, s.Sized) : MergeInv (sortAndMerge l) := by
  apply mergeWhile_induct MergeInv mergeStep_mergeInv
  have hmem := mem_sortSegments l
  refine ⟨fun s h => hr s ((hmem s).mp h), fun s h => ?_, fun s h => ?_⟩
  · exact hs s ((hmem s).mp (List.mem_of_mem_tail h))
  · exact Or.inl (hs s ((hmem s).mp (List.mem_of_mem_head? h)))

/-- After the sort and merge of segments that satisfy the size invariant, the invariant holds
again exactly when the payload of the first segment is at most 256 bytes long. -/
theorem sortAndMerge_sized_iff (l : List Gt1Segment) (hr : ∀ s ∈ l, s.InRange)
    (hs : ∀ s ∈ l, s.Sized) :
    (∀ s ∈ sortAndMerge l, s.Sized) ↔
      (∀ s ∈ (sortAndMerge l).head?, s._dataBytes.length ≤ 256) := by
  obtain ⟨hr1, ht, hh⟩ := sortAndMerge_mergeInv l hr hs
  constructor
  · intro h s hsm
    have hm := List.mem_of_mem_head? hsm
    have h1 := h s hm
    unfold Gt1Segment.Sized at h1
    rw [h1]
    exact effectiveSize_le _ (hr1 s hm).2.2
  · intro h s hsm
    cases hl : sortAndMerge l with
    | nil => rw [hl] at hsm; cases hsm
    | cons a t =>
      rw [hl] at hsm ht hh h
      rcases List.mem_cons.mp hsm with rfl | hm
      · rcases hh s rfl with h1 | h1
        · exact h1
        · have := h s rfl
          omega
      · exact ht s hm

theorem address16_eq (s : Gt1Segment) (h : s.InRange) :
    address16 s = s._loAddress + 256 * s._hiAddress := by
  obtain ⟨h1, h2, -⟩ := h
  unfold address16
  omega

theorem mergeBody_fit (A B : Gt1Segment) (hB : B.InRange)
    (hsA : A.Sized) (hsB : B.Sized) (hwB : B._loAddress + effectiveSize B._segmentSize ≤ 256)
    (hAB : A._loAddress + effectiveSize A._segmentSize ≤ B._loAddress) :
    (mergeBody A B).Sized ∧
      (mergeBody A B)._loAddress + effectiveSize (mergeBody A B)._segmentSize =
        B._loAddress + effectiveSize B._segmentSize := by
  have hlen := mergeBody_data_length A B hB.2.1
  have hlo := mergeBody_lo A B
  obtain ⟨-, hb1, hb2⟩ := hB
  have hsz : (mergeBody A B)._segmentSize =
      (A._segmentSize + (B._loAddress - (A._loAddress + A._segmentSize) % 256)
        + B._segmentSize) % 256 := by
    rw [mergeBody_eq A B hb1]
  unfold Gt1Segment.Sized at hsA hsB ⊢
  rw [hlo]
  generalize (mergeBody A B)._dataBytes.length = ml at hlen ⊢
  generalize (mergeBody A B)._segmentSize = ms at hsz ⊢
  unfold effectiveSize at *
  split_ifs at * <;> omega

theorem mergeStep_mergeFit (l l1 : List Gt1Segment) (h : MergeFit l)
    (hs : mergeStep l = some l1) : MergeFit l1 := by
  obtain ⟨A, B, rest, rfl, hA0, hB0, rfl⟩ := mergeStep_some l l1 hs
  obtain ⟨hall, hpw⟩ := h
  rw [List.pairwise_cons] at hpw
  obtain ⟨hAall, hpw1⟩ := hpw
  rw [List.pairwise_cons] at hpw1
  obtain ⟨hBall, hrest⟩ := hpw1
  obtain ⟨hrA, hsA, -⟩ := hall A (List.mem_cons_self _ _)
  obtain ⟨hrB, hsB, hwB⟩ := hall B (List.mem_cons_of_mem _ (List.mem_cons_self _ _))
  have hfit := mergeBody_fit A B hrB hsA hsB (hwB hB0) (hAall B (List.mem_cons_self _ _) hA0 hB0)
  refine ⟨fun s hm => ?_, ?_⟩
  · rcases List.mem_cons.mp hm with rfl | hm
    · refine ⟨mergeBody_inRange A B hrA, hfit.1, fun _ => ?_⟩
      rw [hfit.2]
      exact hwB hB0
    · exact hall s (List.mem_cons_of_mem _ (List.mem_cons_of_mem _ hm))
  · rw [List.pairwise_cons]
    refine ⟨fun Y hY _ hY0 => ?_, hrest⟩
    rw [hfit.2]
    exact hBall Y hY hB0 hY0

/-- Sufficient condition on the segments given to `saveGt1File`: when they satisfy the size
invariant and the page-zero ones neither overlap one another nor run past page zero, every
segment left by the sort and merge satisfies the size invariant. -/
theorem sortAndMerge_sized_of_disjoint (l : List Gt1Segment) (hr : ∀ s ∈ l, s.InRange)
    (hs : ∀ s ∈ l, s.Sized) (hd : l.Pairwise PageZeroDisjoint)
    (hw : ∀ s ∈ l, WithinPageZero s) : ∀ s ∈ sortAndMerge l, s.Sized := by
  have hmem := mem_sortSegments l
  have hsym : ∀ {x y : Gt1Segment}, PageZeroDisjoint x y → PageZeroDisjoint y x :=
    fun {x y} h hy hx => (h hx hy).symm
  have hd1 : (sortSegments l).Pairwise PageZeroDisjoint :=
    (List.Perm.pairwise_iff hsym (sortSegments_perm l)).mpr hd
  have hfit : MergeFit (sortAndMerge l) := by
    apply mergeWhile_induct MergeFit mergeStep_mergeFit
    refine ⟨fun s h => ⟨hr s ((hmem s).mp h), hs s ((hmem s).mp h), hw s ((hmem s).mp h)⟩, ?_⟩
    refine List.Pairwise.imp_of_mem (fun {X Y} hX hY hXY hX0 hY0 => ?_)
      ((sortSegments_sorted l).and hd1)
    obtain ⟨hle, hdis⟩ := hXY
    have hrX := hr X ((hmem X).mp hX)
    have hrY := hr Y ((hmem Y).mp hY)
    rw [address16_eq X hrX, address16_eq Y hrY, hX0, hY0] at hle
    have hpos := effectiveSize_pos Y._segmentSize
    rcases hdis hX0 hY0 with h1 | h1
    · exact h1
    · omega
  exact fun s h => (hfit.1 s h).2.1

/-! ## `saveGt1File` as a whole -/

theorem saveGt1File_segments (filepath filename : List Char) (g : Gt1File)
    (hne : g._segments ≠ []) :
    (saveGt1File true filepath g filename).gt1File =
      { g with _segments := sortAndMerge g._segments } := by
  have h : ¬ g._segments.length = 0 := fun h => hne (List.length_eq_zero.mp h)
  simp [saveGt1File, h]

theorem saveGt1File_outfile (filepath filename : List Char) (g : Gt1File)
    (hne : g._segments ≠ []) :
    (saveGt1File true filepath g filename).outfile =
      some ((sortAndMerge g._segments).flatMap segmentRecord
        ++ [g._terminator, g._hiStart, g._loStart]) := by
  have h : ¬ g._segments.length = 0 := fun h => hne (List.length_eq_zero.mp h)
  simp [saveGt1File, h, writeSegments_eq, ostreamWrite, Gt1File.trailer, GT1FILE_TRAILER_SIZE]

theorem sortAndMerge_ne_nil (l : List Gt1Segment) (h : l ≠ []) : sortAndMerge l ≠ [] := by
  apply mergeWhile_induct (fun l => l ≠ [])
  · intro l l1 _ hs
    obtain ⟨A, B, rest, -, -, -, rfl⟩ := mergeStep_some l l1 hs
    simp
  · intro he
    have := sortSegments_length l
    rw [he] at this
    exact h (List.length_eq_zero.mp this.symm)

theorem flatMap_record_length (segs : List Gt1Segment)
    (hp : ∀ s ∈ segs, effectiveSize s._segmentSize ≤ s._dataBytes.length) :
    (segs.flatMap segmentRecord).length =
      3 * segs.length + (segs.map (fun s => effectiveSize s._segmentSize)).sum := by
  induction segs with
  | nil => simp
  | cons s t ih =>
    rw [List.flatMap_cons, List.length_append,
      segmentRecord_length s (hp s (List.mem_cons_self _ _)),
      ih (fun x hx => hp x (List.mem_cons_of_mem _ hx))]
    simp only [List.length_cons, List.map_cons, List.sum_cons]
    omega

/-- In an address-sorted vector the page-zero segments come first. -/
theorem sorted_split (l : List Gt1Segment) (hs : AddrSorted l) (hr : ∀ s ∈ l, s.InRange) :
    l = l.filter (fun s => decide (s._hiAddress = 0))
      ++ l.filter (fun s => !decide (s._hiAddress = 0)) := by
  induction l with
  | nil => rfl
  | cons x t ih =>
    unfold AddrSorted at hs
    rw [List.pairwise_cons] at hs
    have iht := ih hs.2 (fun s h => hr s (List.mem_cons_of_mem _ h))
    by_cases hx : x._hiAddress = 0
    · simp only [List.filter_cons, hx, decide_True, if_true, Bool.not_true, Bool.false_eq_true,
        if_false, List.cons_append]
      rw [← iht]
    · have hall : ∀ y ∈ t, y._hiAddress ≠ 0 := fun y hy =>
        hi_ne_zero_of_le x y (hr x (List.mem_cons_self _ _)) (hr y (List.mem_cons_of_mem _ hy))
          hx (hs.1 y hy)
      have h1 : t.filter (fun s => decide (s._hiAddress = 0)) = [] := by
        rw [List.filter_eq_nil_iff]
        intro y hy
        simpa using hall y hy
      have h2 : t.filter (fun s => !decide (s._hiAddress = 0)) = t := by
        rw [List.filter_eq_self]
        intro y hy
        simpa using hall y hy
      simp only [List.filter_cons, hx, decide_False, Bool.false_eq_true, if_false, Bool.not_false,
        if_true, h1, h2, List.nil_append]

/-- When exactly two segments `A` and `B` lie in page zero, `A` below `B`, the sort and merge
leaves the merge of `A` and `B` followed by the segments outside page zero. -/
theorem sortAndMerge_two_pageZero (segs : List Gt1Segment) (A B : Gt1Segment)
    (hr : ∀ s ∈ segs, s.InRange)
    (hz : (segs.filter (fun s => decide (s._hiAddress = 0))).Perm [A, B])
    (hlt : address16 A < address16 B) :
    ∃ rest, sortAndMerge segs = mergeBody A B :: rest ∧ ∀ s ∈ rest, s._hiAddress ≠ 0 := by
  have hs := sortSegments_sorted segs
  have hr1 : ∀ s ∈ sortSegments segs, s.InRange := fun s h => hr s ((mem_sortSegments segs s).mp h)
  have hsplit := sorted_split _ hs hr1
  have hperm : ((sortSegments segs).filter (fun s => decide (s._hiAddress = 0))).Perm [A, B] :=
    ((sortSegments_perm segs).filter _).trans hz
  have hsub : AddrSorted ((sortSegments segs).filter (fun s => decide (s._hiAddress = 0))) :=
    List.Pairwise.sublist (List.filter_sublist _) hs
  have hA0 : A._hiAddress = 0 := by
    have : A ∈ segs.filter (fun s => decide (s._hiAddress = 0)) := hz.mem_iff.mpr (by simp)
    simpa using (List.mem_filter.mp this).2
  have hB0 : B._hiAddress = 0 := by
    have : B ∈ segs.filter (fun s => decide (s._hiAddress = 0)) := hz.mem_iff.mpr (by simp)
    simpa using (List.mem_filter.mp this).2
  have hnz : ∀ s ∈ (sortSegments segs).filter (fun s => !decide (s._hiAddress = 0)),
      s._hiAddress ≠ 0 := fun s h => by simpa using (List.mem_filter.mp h).2
  generalize (sortSegments segs).filter (fun s => !decide (s._hiAddress = 0)) = nz at hsplit hnz
  have hfil : (sortSegments segs).filter (fun s => decide (s._hiAddress = 0)) = [A, B] := by
    have hlen := hperm.length_eq
    generalize (sortSegments segs).filter (fun s => decide (s._hiAddress = 0)) = zs
      at hperm hsub hlen
    match zs, hlen with
    | [X, Y], _ =>
      have hX : X ∈ [A, B] := hperm.mem_iff.mp (by simp)
      have hY : Y ∈ [A, B] := hperm.mem_iff.mp (by simp)
      have hA : A ∈ [X, Y] := hperm.mem_iff.mpr (by simp)
      have hB : B ∈ [X, Y] := hperm.mem_iff.mpr (by simp)
      unfold AddrSorted at hsub
      have hXY : address16 X ≤ address16 Y := by
        rw [List.pairwise_cons] at hsub
        exact hsub.1 Y (by simp)
      simp only [List.mem_cons, List.mem_singleton, List.not_mem_nil, or_false] at hX hY hA hB
      rcases hX with rfl | rfl <;> rcases hY with rfl | rfl
      · rcases hB with rfl | rfl <;> omega
      · rfl
      · omega
      · rcases hA with rfl | rfl <;> omega
  rw [hfil] at hsplit
  refine ⟨nz, ?_, hnz⟩
  unfold sortAndMerge
  simp only
  rw [hsplit]
  simp only [List.cons_append, List.nil_append, List.length_cons, mergeWhile, mergeStep, hA0, hB0,
    and_self, if_true]
  cases nz with
  | nil => cases hn : ([] : List Gt1Segment).length <;> simp [mergeWhile, mergeStep]
  | cons C t =>
    have hC : C._hiAddress ≠ 0 := hnz C (List.mem_cons_self _ _)
    simp [mergeWhile, mergeStep, hC]

/-! ## The claims -/

/-! ### C1 -/

set_option maxRecDepth 20000 in
/-- C1, as stated, fails at `fullPageExample`: two page-zero segments, a 256-byte one (size
byte 0) at address 0x0000 and a one-byte one at address 0x0001, each with payload length equal
to its effective size, and a zero terminator. The merge leaves one segment with size byte 2 and
a payload of 258 bytes; two payload bytes are written, and the decoder succeeds with a segment
whose payload has two bytes, which is not the payload left in the container. -/
theorem saveGt1File_roundtrip_counterexample :
    (∀ s ∈ fullPageExample._segments,
      s.InRange ∧ s._dataBytes.length = effectiveSize s._segmentSize) ∧
    fullPageExample._segments.length = 2 ∧ fullPageExample._terminator = 0 ∧
    (saveGt1File true [] fullPageExample []).gt1File._segments =
      [{ _segmentSize := 2, _dataBytes := List.replicate 256 7 ++ [0, 5] }] ∧
    (saveGt1File true [] fullPageExample []).outfile = some [0, 0, 2, 7, 7, 0, 0, 0] ∧
    loadGt1File (saveGt1File true [] fullPageExample []).outfile {} =
      some (true, { _segments := [{ _segmentSize := 2, _dataBytes := [7, 7] }] }) ∧
    ([7, 7] : List Nat) ≠ List.replicate 256 7 ++ [0, 5] := by
  refine ⟨by decide, by decide, by decide, by decide, by decide, by decide, by decide⟩

/-- C1, amended. Round trip: for every container `c` with at least one segment, header fields
being bytes, each segment's payload length equal to its effective size, and a zero terminator
byte, such that the payload of the first segment that `saveGt1File` leaves in `c` is at most
256 bytes long, `loadGt1File` applied to the bytes written by `saveGt1File(c)` succeeds and
appends to the caller's container exactly the segment sequence that `saveGt1File` leaves in `c`
after sorting and page-zero merging (same address bytes, size bytes and payloads, in the same
order; `decoded` only clears the ROM flag, which is not stored in the file), and it sets the
entry point to the one of `c`. -/
theorem saveGt1File_loadGt1File_roundtrip (filepath filename : List Char) (c g0 : Gt1File)
    (hne : c._segments ≠ []) (hr : ∀ s ∈ c._segments, s.InRange)
    (hs : ∀ s ∈ c._segments, s._dataBytes.length = effectiveSize s._segmentSize)
    (ht : c._terminator = 0)
    (hfit : ∀ s ∈ ((saveGt1File true filepath c filename).gt1File._segments).head?,
      s._dataBytes.length ≤ 256) :
    loadGt1File (saveGt1File true filepath c filename).outfile g0 =
      some (true,
        { g0 with
          _segments := g0._segments ++
            ((saveGt1File true filepath c filename).gt1File._segments).map Gt1Segment.decoded
          _hiStart := c._hiStart
          _loStart := c._loStart }) := by
  rw [saveGt1File_segments filepath filename c hne] at hfit ⊢
  rw [saveGt1File_outfile filepath filename c hne, ht]
  simp only at hfit ⊢
  have hsized := (sortAndMerge_sized_iff c._segments hr hs).mpr hfit
  unfold loadGt1File
  simp only
  apply loadLoop_records_trailer _ _ _ _ _ hsized
  have := length_le_flatMap_record (sortAndMerge c._segments)
  rw [List.length_append]
  omega

set_option maxRecDepth 20000 in
/-- Witness for C1, amended, at `exampleContainer` and a fresh container for the decoder. -/
theorem saveGt1File_loadGt1File_roundtrip_witness :
    exampleContainer._segments ≠ [] ∧
    loadGt1File (saveGt1File true [] exampleContainer []).outfile {} =
      some (true,
        { ({} : Gt1File) with
          _segments := ({} : Gt1File)._segments ++
            ((saveGt1File true [] exampleContainer []).gt1File._segments).map
              Gt1Segment.decoded
          _hiStart := exampleContainer._hiStart
          _loStart := exampleContainer._loStart }) :=
  ⟨by decide,
    saveGt1File_loadGt1File_roundtrip [] [] exampleContainer {} (by decide) (by decide)
      (by decide) rfl (by decide)⟩

/-! ### C2 -/

set_option maxRecDepth 20000 in
/-- C2, as stated, fails: saving `pageZeroExample` leaves one segment of length 0x82, but its
payload holds the first byte 0xAA of the second segment at offset 0x80 (not the filler 0x01),
the second byte 0xBB at offset 0x81, and it has no offset 0x82. -/
theorem saveGt1File_pageZero_example_counterexample :
    ∃ M, (saveGt1File true [] pageZeroExample []).gt1File._segments = [M] ∧
      M._segmentSize = 0x82 ∧ M._dataBytes.length = 0x82 ∧
      M._dataBytes[0x80]? = some 0xAA ∧ M._dataBytes[0x80]? ≠ some 0x01 ∧
      M._dataBytes[0x81]? = some 0xBB ∧ M._dataBytes[0x82]? = none :=
  ⟨_, rfl, by decide, by decide, by decide, by decide, by decide, by decide⟩

/-- C2, amended. Page-zero merge example: saving a container (header fields being bytes) whose
page-zero segments are `A = [address 0x00, length 4]` and `B = [address 0x80, length 2]`
merges them into one segment `M` at address 0x0000 of length 0x82, placed first, whose payload
is `A`'s four bytes at offsets 0..3, filler 0x00 at offsets 4..0x7F, and `B`'s original bytes
at offsets 0x80..0x81; no 0x01 filler is written, because address 0x80 is the first address of
`B`. The segments after `M` are outside page zero. -/
theorem saveGt1File_pageZero_example (filepath filename : List Char) (g : Gt1File)
    (A B : Gt1Segment) (hr : ∀ s ∈ g._segments, s.InRange)
    (hz : (g._segments.filter (fun s => decide (s._hiAddress = 0))).Perm [A, B])
    (hA : A._loAddress = 0x00 ∧ A._segmentSize = 4 ∧ A._dataBytes.length = 4)
    (hB : B._loAddress = 0x80 ∧ B._segmentSize = 2 ∧ B._dataBytes.length = 2) :
    ∃ M rest,
      (saveGt1File true filepath g filename).gt1File._segments = M :: rest ∧
      (∀ s ∈ rest, s._hiAddress ≠ 0) ∧
      M._hiAddress = 0 ∧ M._loAddress = 0 ∧ M._segmentSize = 0x82 ∧
      M._dataBytes = A._dataBytes ++ List.replicate 0x7C 0x00 ++ B._dataBytes ∧
      M._dataBytes.length = 0x82 ∧
      (∀ k, k < 4 → M._dataBytes[k]? = A._dataBytes[k]?) ∧
      (∀ k, 4 ≤ k → k < 0x80 → M._dataBytes[k]? = some 0x00) ∧
      M._dataBytes[0x80]? = B._dataBytes[0]? ∧ M._dataBytes[0x81]? = B._dataBytes[1]? := by
  obtain ⟨hA1, hA2, hA3⟩ := hA
  obtain ⟨hB1, hB2, hB3⟩ := hB
  have hmA : A ∈ g._segments.filter (fun s => decide (s._hiAddress = 0)) :=
    hz.mem_iff.mpr (by simp)
  have hmB : B ∈ g._segments.filter (fun s => decide (s._hiAddress = 0)) :=
    hz.mem_iff.mpr (by simp)
  have hA0 : A._hiAddress = 0 := by simpa using (List.mem_filter.mp hmA).2
  have hB0 : B._hiAddress = 0 := by simpa using (List.mem_filter.mp hmB).2
  have hne : g._segments ≠ [] := List.ne_nil_of_mem (List.mem_filter.mp hmA).1
  have hlt : address16 A < address16 B := by
    simp [address16, hA0, hB0, hA1, hB1]
  obtain ⟨rest, hsm, hrest⟩ := sortAndMerge_two_pageZero g._segments A B hr hz hlt
  have hM := mergeBody_eq A B (by omega)
  have hfill : filler ((A._loAddress + A._segmentSize) % 256) B._loAddress
      = List.replicate 0x7C 0x00 := by
    rw [hA1, hA2, hB1]
    decide
  rw [hfill] at hM
  have hdata : (mergeBody A B)._dataBytes =
      A._dataBytes ++ List.replicate 0x7C 0x00 ++ B._dataBytes := by rw [hM]
  refine ⟨mergeBody A B, rest, ?_, hrest, ?_, ?_, ?_, hdata, ?_, ?_, ?_, ?_, ?_⟩
  · rw [saveGt1File_segments filepath filename g hne]
    exact hsm
  · rw [mergeBody_hi, hA0]
  · rw [mergeBody_lo, hA1]
  · rw [hM]; simp [hA1, hA2, hB1, hB2]
  · rw [hdata]; simp [hA3, hB3]
  · intro k hk
    rw [hdata, List.append_assoc, List.getElem?_append_left (by omega)]
  · intro k h1 h2
    rw [hdata, List.getElem?_append_left (by simp; omega),
      List.getElem?_append_right (by omega), List.getElem?_replicate, if_pos (by omega)]
  · rw [hdata, List.getElem?_append_right (by simp; omega)]
    simp [hA3]
  · rw [hdata, List.getElem?_append_right (by simp; omega)]
    simp [hA3]

/-- Witness for C2, amended, at `pageZeroExample`. -/
theorem saveGt1File_pageZero_example_witness :
    (∀ s ∈ pageZeroExample._segments, s.InRange) ∧
    ∃ M rest,
      (saveGt1File true [] pageZeroExample []).gt1File._segments = M :: rest ∧
      (∀ s ∈ rest, s._hiAddress ≠ 0) ∧
      M._hiAddress = 0 ∧ M._loAddress = 0 ∧ M._segmentSize = 0x82 ∧
      M._dataBytes = [0x11, 0x12, 0x13, 0x14] ++ List.replicate 0x7C 0x00 ++ [0xAA, 0xBB] ∧
      M._dataBytes.length = 0x82 ∧
      (∀ k, k < 4 → M._dataBytes[k]? = [0x11, 0x12, 0x13, 0x14][k]?) ∧
      (∀ k, 4 ≤ k → k < 0x80 → M._dataBytes[k]? = some 0x00) ∧
      M._dataBytes[0x80]? = [0xAA, 0xBB][0]? ∧ M._dataBytes[0x81]? = [0xAA, 0xBB][1]? :=
  ⟨by decide,
    saveGt1File_pageZero_example [] [] pageZeroExample
      { _loAddress := 0x00, _segmentSize := 4, _dataBytes := [0x11, 0x12, 0x13, 0x14] }
      { _loAddress := 0x80, _segmentSize := 2, _dataBytes := [0xAA, 0xBB] }
      (by decide) (List.Perm.swap _ _ _) (by decide) (by decide)⟩

/-! ### C3 -/

/-- C3, as stated, fails in its last part: `A = [address 0x00, size byte 1]` carrying a two-byte
payload and `B = [address 0x04, size byte 1]` have high-address byte 0, non-zero sizes and
`A.low + A.size <= B.low`; the merge step gives the payload `A`'s two bytes, three fillers and
`B`'s byte, so the byte of `B` (original address 4) is at payload offset 5, and offset
`4 - A.low = 4` holds a filler. -/
theorem mergeStep_pageZero_rule_counterexample :
    mergeStep
        [{ _loAddress := 0, _segmentSize := 1, _dataBytes := [1, 2] },
         { _loAddress := 4, _segmentSize := 1, _dataBytes := [9] }] =
      some [{ _loAddress := 0, _segmentSize := 5, _dataBytes := [1, 2, 0, 0, 0, 9] }] ∧
    [1, 2, 0, 0, 0, 9][4 - 0]? ≠ [9][0]? ∧ [1, 2, 0, 0, 0, 9][5]? = [9][0]? := by
  decide

/-- C3, amended. Page-zero merge rule: when the first two segments `A` and `B` of the sorted
vector both have high-address byte 0 and `A.low + A.size <= B.low` (no overlap; header fields
being bytes), one iteration of the merge loop of `saveGt1File` replaces `A` and `B` by a single
segment `M` at `A`'s address whose payload is `A`'s payload, then one filler byte for each
address from `A.low + A.size` up to `B.low - 1` (0x01 for address 0x80, 0x00 for every other
address), then `B`'s payload in full, and whose size byte is
`A.size + (B.low - A.low - A.size) + B.size` modulo 256; hence, when `A`'s payload length
equals `A.size`, every byte of `B` ends up at payload offset equal to its original address
minus `A.low`. -/
theorem mergeStep_pageZero_rule (A B : Gt1Segment) (rest : List Gt1Segment)
    (hB : B.InRange) (hA0 : A._hiAddress = 0) (hB0 : B._hiAddress = 0)
    (hno : A._loAddress + A._segmentSize ≤ B._loAddress) :
    ∃ M fill,
      mergeStep (A :: B :: rest) = some (M :: rest) ∧
      M._hiAddress = A._hiAddress ∧ M._loAddress = A._loAddress ∧
      M._dataBytes = A._dataBytes ++ fill ++ B._dataBytes ∧
      fill.length = B._loAddress - (A._loAddress + A._segmentSize) ∧
      (∀ k, k < fill.length →
        fill[k]? = some (if A._loAddress + A._segmentSize + k = 0x80 then 0x01 else 0x00)) ∧
      M._segmentSize =
        (A._segmentSize + (B._loAddress - A._loAddress - A._segmentSize) + B._segmentSize)
          % 256 ∧
      (A._dataBytes.length = A._segmentSize →
        ∀ k, k < B._dataBytes.length →
          M._dataBytes[B._loAddress + k - A._loAddress]? = B._dataBytes[k]?) := by
  obtain ⟨-, hb1, -⟩ := hB
  have haddr : (A._loAddress + A._segmentSize) % 256 = A._loAddress + A._segmentSize :=
    Nat.mod_eq_of_lt (by omega)
  have hM := mergeBody_eq A B hb1
  rw [haddr] at hM
  have hdata : (mergeBody A B)._dataBytes =
      A._dataBytes ++ filler (A._loAddress + A._segmentSize) B._loAddress ++ B._dataBytes := by
    rw [hM]
  refine ⟨mergeBody A B, filler (A._loAddress + A._segmentSize) B._loAddress, ?_,
    mergeBody_hi A B, mergeBody_lo A B, hdata, filler_length _ _, ?_, ?_, ?_⟩
  · simp [mergeStep, hA0, hB0]
  · intro k hk
    rw [filler_length] at hk
    unfold filler
    rw [List.getElem?_map, List.getElem?_range' _ _ hk]
    simp
  · rw [hM]
    simp only
    congr 1
    omega
  · intro hlen k hk
    have hfl := filler_length (A._loAddress + A._segmentSize) B._loAddress
    rw [hdata, List.getElem?_append_right (by rw [List.length_append, hfl]; omega)]
    congr 1
    rw [List.length_append, hfl]
    omega

/-- Witness for C3, amended: `A = [addr=0x7E, 2 bytes]`, `B = [addr=0x82, 1 byte]`; the fillers
for the addresses 0x80 and 0x81 are 0x01 and 0x00. -/
theorem mergeStep_pageZero_rule_witness :
    ({ _loAddress := 0x82, _segmentSize := 1, _dataBytes := [7] } : Gt1Segment).InRange ∧
    0x7E + 2 ≤ 0x82 ∧
    ∃ M fill,
      mergeStep
          [{ _loAddress := 0x7E, _segmentSize := 2, _dataBytes := [5, 6] },
           { _loAddress := 0x82, _segmentSize := 1, _dataBytes := [7] }] = some [M] ∧
      M._hiAddress = 0 ∧ M._loAddress = 0x7E ∧
      M._dataBytes = [5, 6] ++ fill ++ [7] ∧
      fill.length = 0x82 - (0x7E + 2) ∧
      (∀ k, k < fill.length → fill[k]? = some (if 0x7E + 2 + k = 0x80 then 0x01 else 0x00)) ∧
      M._segmentSize = (2 + (0x82 - 0x7E - 2) + 1) % 256 ∧
      (([5, 6] : List Nat).length = 2 →
        ∀ k, k < ([7] : List Nat).length → M._dataBytes[0x82 + k - 0x7E]? = [7][k]?) :=
  ⟨by decide, by decide,
    mergeStep_pageZero_rule
      { _loAddress := 0x7E, _segmentSize := 2, _dataBytes := [5, 6] }
      { _loAddress := 0x82, _segmentSize := 1, _dataBytes := [7] } []
      (by decide) rfl rfl (by decide)⟩

/-! ### C4 -/

/-- C4. For every container with at least one segment (header fields being bytes), after
`saveGt1File` has sorted and merged, at most one segment of the sequence left in the container
(the sequence that is written) has high-address byte 0. -/
theorem saveGt1File_pageZero_atMostOne (filepath filename : List Char) (g : Gt1File)
    (hne : g._segments ≠ []) (hr : ∀ s ∈ g._segments, s.InRange) :
    (((saveGt1File true filepath g filename).gt1File._segments).filter
      (fun s => decide (s._hiAddress = 0))).length ≤ 1 := by
  rw [saveGt1File_segments filepath filename g hne]
  exact pageZero_le_one _ (sortAndMerge_sorted _) (sortAndMerge_inRange _ hr)
    (sortAndMerge_done _)

set_option maxRecDepth 20000 in
/-- Witness for C4 at `exampleContainer`. -/
theorem saveGt1File_pageZero_atMostOne_witness :
    exampleContainer._segments ≠ [] ∧
    (∀ s ∈ exampleContainer._segments, s.InRange) ∧
    (((saveGt1File true [] exampleContainer []).gt1File._segments).filter
      (fun s => decide (s._hiAddress = 0))).length ≤ 1 :=
  ⟨by decide, by decide,
    saveGt1File_pageZero_atMostOne [] [] exampleContainer (by decide) (by decide)⟩

/-! ### C5 -/

/-- C5. For every container with at least one segment (header fields being bytes), the
sequence of segments that `saveGt1File` writes, after the sort and the page-zero merge, is in
non-decreasing order of the 16-bit address `low + 256*high`. -/
theorem saveGt1File_sorted (filepath filename : List Char) (g : Gt1File)
    (hne : g._segments ≠ []) (hr : ∀ s ∈ g._segments, s.InRange) :
    ((saveGt1File true filepath g filename).gt1File._segments).Pairwise
      (fun a b => a._loAddress + 256 * a._hiAddress ≤ b._loAddress + 256 * b._hiAddress) := by
  rw [saveGt1File_segments filepath filename g hne]
  have hs := sortAndMerge_sorted g._segments
  have hin := sortAndMerge_inRange g._segments hr
  unfold AddrSorted at hs
  refine List.Pairwise.imp_of_mem (fun {a b} ha hb hab => ?_) hs
  rw [← address16_eq a (hin a ha), ← address16_eq b (hin b hb)]
  exact hab

set_option maxRecDepth 20000 in
/-- Witness for C5 at `exampleContainer`. -/
theorem saveGt1File_sorted_witness :
    exampleContainer._segments ≠ [] ∧
    (∀ s ∈ exampleContainer._segments, s.InRange) ∧
    ((saveGt1File true [] exampleContainer []).gt1File._segments).Pairwise
      (fun a b => a._loAddress + 256 * a._hiAddress ≤ b._loAddress + 256 * b._hiAddress) :=
  ⟨by decide, by decide, saveGt1File_sorted [] [] exampleContainer (by decide) (by decide)⟩

/-! ### C6 -/

/-- C6. `saveGt1File` applied to a container with zero segments fails (returns false), opens no
output file, so that no byte is written, and leaves the container (and the `filename`
parameter) unchanged. -/
theorem saveGt1File_zero_segments (canOpen : Bool) (filepath filename : List Char)
    (g : Gt1File) (h : g._segments = []) :
    saveGt1File canOpen filepath g filename =
      { ok := false, gt1File := g, filename := filename, outfile := none } := by
  simp [saveGt1File, h]

/-- Witness for C6: the default-constructed container, with an entry point set. -/
theorem saveGt1File_zero_segments_witness :
    ({ _hiStart := 2, _loStart := 0 } : Gt1File)._segments = [] ∧
    saveGt1File true exampleFilepath { _hiStart := 2, _loStart := 0 } [] =
      { ok := false, gt1File := { _hiStart := 2, _loStart := 0 }, filename := [],
        outfile := none } :=
  ⟨rfl, saveGt1File_zero_segments true exampleFilepath [] { _hiStart := 2, _loStart := 0 } rfl⟩

/-! ### C7 -/

/-- C7. When `loadGt1File` succeeds, the segments of the returned container are the segments
the caller's container held before the call followed by the decoded ones, and every decoded
segment has a payload whose length is exactly its size byte when that byte is non-zero and
exactly 256 when it is zero. Hence every segment of the returned container has such a payload
as soon as those of the caller's container had, in particular when the decoder is given a
fresh container, as its callers do. -/
theorem loadGt1File_segment_sizes (infile : Option (List Nat)) (g g1 : Gt1File)
    (h : loadGt1File infile g = some (true, g1)) :
    (∃ segs, g1._segments = g._segments ++ segs ∧
      ∀ s ∈ segs,
        (s._segmentSize ≠ 0 → s._dataBytes.length = s._segmentSize) ∧
        (s._segmentSize = 0 → s._dataBytes.length = 256)) ∧
    ((∀ s ∈ g._segments,
        (s._segmentSize ≠ 0 → s._dataBytes.length = s._segmentSize) ∧
        (s._segmentSize = 0 → s._dataBytes.length = 256)) →
      ∀ s ∈ g1._segments,
        (s._segmentSize ≠ 0 → s._dataBytes.length = s._segmentSize) ∧
        (s._segmentSize = 0 → s._dataBytes.length = 256)) := by
  have key : ∃ segs, g1._segments = g._segments ++ segs ∧
      ∀ s ∈ segs,
        (s._segmentSize ≠ 0 → s._dataBytes.length = s._segmentSize) ∧
        (s._segmentSize = 0 → s._dataBytes.length = 256) := by
    cases infile with
    | none => simp [loadGt1File] at h
    | some bytes =>
      obtain ⟨segs, he, hs⟩ := loadLoop_sized _ bytes g g1 h
      refine ⟨segs, he, fun s hm => ?_⟩
      have := hs s hm
      unfold Gt1Segment.Sized effectiveSize at this
      constructor
      · intro hz; rw [if_neg hz] at this; exact this
      · intro hz; rw [if_pos hz] at this; exact this
  refine ⟨key, fun h0 s hm => ?_⟩
  obtain ⟨segs, he, hs⟩ := key
  rw [he] at hm
  rcases List.mem_append.mp hm with h1 | h1
  · exact h0 s h1
  · exact hs s h1

set_option maxRecDepth 20000 in
/-- Witness for C7 at `exampleStream`, decoded into a fresh container. -/
theorem loadGt1File_segment_sizes_witness :
    loadGt1File (some exampleStream) {} = some (true, exampleDecoded) ∧
    (∃ segs, exampleDecoded._segments = ({} : Gt1File)._segments ++ segs ∧
      ∀ s ∈ segs,
        (s._segmentSize ≠ 0 → s._dataBytes.length = s._segmentSize) ∧
        (s._segmentSize = 0 → s._dataBytes.length = 256)) ∧
    ((∀ s ∈ ({} : Gt1File)._segments,
        (s._segmentSize ≠ 0 → s._dataBytes.length = s._segmentSize) ∧
        (s._segmentSize = 0 → s._dataBytes.length = 256)) →
      ∀ s ∈ exampleDecoded._segments,
        (s._segmentSize ≠ 0 → s._dataBytes.length = s._segmentSize) ∧
        (s._segmentSize = 0 → s._dataBytes.length = 256)) :=
  ⟨by decide, loadGt1File_segment_sizes (some exampleStream) {} exampleDecoded (by decide)⟩

/-! ### C8 -/

set_option maxRecDepth 20000 in
/-- C8, as stated, fails: every segment of `overlapExample` satisfies
`payload length == (size byte == 0 ? 256 : size byte)`, and the merge leaves one segment with
size byte 44 (300 modulo 256) and a payload of 300 bytes. -/
theorem saveGt1File_size_invariant_counterexample :
    (∀ s ∈ overlapExample._segments,
      s.InRange ∧ s._dataBytes.length = effectiveSize s._segmentSize) ∧
    (saveGt1File true [] overlapExample []).gt1File._segments =
      [{ _loAddress := 0, _segmentSize := 44,
         _dataBytes := List.replicate 200 1 ++ List.replicate 100 2 }] ∧
    ¬ (∀ s ∈ (saveGt1File true [] overlapExample []).gt1File._segments,
      s._dataBytes.length = effectiveSize s._segmentSize) := by
  refine ⟨by decide, by decide, by decide⟩

/-- C8, amended. Segment size invariant under encode: if every segment of a container (header
fields being bytes) satisfies `payload length == (size byte == 0 ? 256 : size byte)` before
`saveGt1File`, then every segment left in the container after the sort and page-zero merge
satisfies the same equality if and only if the payload of the first segment left (the only one
the merge changes) is at most 256 bytes long; this is the case whenever the page-zero segments
of the container neither overlap one another nor run past the last address of page zero. -/
theorem saveGt1File_size_invariant (filepath filename : List Char) (g : Gt1File)
    (hr : ∀ s ∈ g._segments, s.InRange)
    (hs : ∀ s ∈ g._segments, s._dataBytes.length = effectiveSize s._segmentSize) :
    ((∀ s ∈ (saveGt1File true filepath g filename).gt1File._segments,
        s._dataBytes.length = effectiveSize s._segmentSize) ↔
      (∀ s ∈ ((saveGt1File true filepath g filename).gt1File._segments).head?,
        s._dataBytes.length ≤ 256)) ∧
    (g._segments.Pairwise PageZeroDisjoint → (∀ s ∈ g._segments, WithinPageZero s) →
      ∀ s ∈ (saveGt1File true filepath g filename).gt1File._segments,
        s._dataBytes.length = effectiveSize s._segmentSize) := by
  by_cases hne : g._segments = []
  · simp [saveGt1File, hne]
  · rw [saveGt1File_segments filepath filename g hne]
    exact ⟨sortAndMerge_sized_iff g._segments hr hs,
      sortAndMerge_sized_of_disjoint g._segments hr hs⟩

set_option maxRecDepth 20000 in
/-- Witness for C8, amended, at `pageZeroExample`. -/
theorem saveGt1File_size_invariant_witness :
    (∀ s ∈ pageZeroExample._segments, s.InRange) ∧
    (∀ s ∈ pageZeroExample._segments, s._dataBytes.length = effectiveSize s._segmentSize) ∧
    ((∀ s ∈ (saveGt1File true [] pageZeroExample []).gt1File._segments,
        s._dataBytes.length = effectiveSize s._segmentSize) ↔
      (∀ s ∈ ((saveGt1File true [] pageZeroExample []).gt1File._segments).head?,
        s._dataBytes.length ≤ 256)) ∧
    (pageZeroExample._segments.Pairwise PageZeroDisjoint →
      (∀ s ∈ pageZeroExample._segments, WithinPageZero s) →
      ∀ s ∈ (saveGt1File true [] pageZeroExample []).gt1File._segments,
        s._dataBytes.length = effectiveSize s._segmentSize) :=
  ⟨by decide, by decide,
    saveGt1File_size_invariant [] [] pageZeroExample (by decide) (by decide)⟩

/-! ### C9 -/

/-- C9. Encoded layout: when the payload of every segment left after the sort and merge holds
at least its effective size, the bytes written by `saveGt1File` are, for each of these `n >= 1`
segments in order, the three header bytes (high address, low address, size) followed by exactly
`size == 0 ? 256 : size` payload bytes (the first ones of the payload), then the three trailer
bytes (terminator, entry-point bytes); the total length is `3*(n+1)` plus the sum of the
effective sizes. -/
theorem saveGt1File_layout (filepath filename : List Char) (g : Gt1File)
    (hne : g._segments ≠ [])
    (hp : ∀ s ∈ (saveGt1File true filepath g filename).gt1File._segments,
      (if s._segmentSize = 0 then 256 else s._segmentSize) ≤ s._dataBytes.length) :
    ∃ out segs,
      (saveGt1File true filepath g filename).ok = true ∧
      (saveGt1File true filepath g filename).outfile = some out ∧
      (saveGt1File true filepath g filename).gt1File._segments = segs ∧
      1 ≤ segs.length ∧
      out =
        segs.flatMap (fun s =>
          [s._hiAddress, s._loAddress, s._segmentSize]
            ++ s._dataBytes.take (if s._segmentSize = 0 then 256 else s._segmentSize))
        ++ [g._terminator, g._hiStart, g._loStart] ∧
      (∀ s ∈ segs,
        (s._dataBytes.take (if s._segmentSize = 0 then 256 else s._segmentSize)).length =
          (if s._segmentSize = 0 then 256 else s._segmentSize)) ∧
      out.length =
        3 * (segs.length + 1)
          + (segs.map (fun s => if s._segmentSize = 0 then 256 else s._segmentSize)).sum := by
  have hseg := saveGt1File_segments filepath filename g hne
  rw [hseg] at hp
  simp only at hp
  refine ⟨_, _, ?_, saveGt1File_outfile filepath filename g hne, by rw [hseg], ?_, ?_, ?_, ?_⟩
  · have h : ¬ g._segments.length = 0 := fun h => hne (List.length_eq_zero.mp h)
    simp [saveGt1File, h]
  · have h := sortAndMerge_ne_nil g._segments hne
    cases hl : sortAndMerge g._segments with
    | nil => exact absurd hl h
    | cons a t => simp
  · rfl
  · intro s hs
    rw [List.length_take]
    exact Nat.min_eq_left (hp s hs)
  · have h := flatMap_record_length (sortAndMerge g._segments) hp
    simp only [List.length_append, List.length_cons, List.length_nil]
    unfold effectiveSize at h
    omega

set_option maxRecDepth 20000 in
/-- Witness for C9 at `exampleContainer`. -/
theorem saveGt1File_layout_witness :
    exampleContainer._segments ≠ [] ∧
    (∀ s ∈ (saveGt1File true [] exampleContainer []).gt1File._segments,
      (if s._segmentSize = 0 then 256 else s._segmentSize) ≤ s._dataBytes.length) ∧
    ∃ out segs,
      (saveGt1File true [] exampleContainer []).ok = true ∧
      (saveGt1File true [] exampleContainer []).outfile = some out ∧
      (saveGt1File true [] exampleContainer []).gt1File._segments = segs ∧
      1 ≤ segs.length ∧
      out =
        segs.flatMap (fun s =>
          [s._hiAddress, s._loAddress, s._segmentSize]
            ++ s._dataBytes.take (if s._segmentSize = 0 then 256 else s._segmentSize))
        ++ [exampleContainer._terminator, exampleContainer._hiStart,
            exampleContainer._loStart] ∧
      (∀ s ∈ segs,
        (s._dataBytes.take (if s._segmentSize = 0 then 256 else s._segmentSize)).length =
          (if s._segmentSize = 0 then 256 else s._segmentSize)) ∧
      out.length =
        3 * (segs.length + 1)
          + (segs.map (fun s => if s._segmentSize = 0 then 256 else s._segmentSize)).sum :=
  ⟨by decide, by decide, saveGt1File_layout [] [] exampleContainer (by decide) (by decide)⟩

/-! ### C10 -/

/-- C10, as stated, fails: the stream `00 05 07` is a complete three-byte header followed by
no payload byte, fewer than the 7 its size byte declares, and `loadGt1File` succeeds: the
high-address byte is 0 and the stream has ended, so the header is taken as the terminator
record. -/
theorem loadGt1File_truncated_counterexample :
    ([] : List Nat).length < effectiveSize 7 ∧
    loadGt1File (some ([0x00, 0x05, 0x07] ++ [])) {} =
      some (true, { _hiStart := 0x05, _loStart := 0x07 }) := by
  decide

/-- C10, amended. Truncation: for every byte stream made of complete segment records followed
by a complete three-byte header and fewer payload bytes than its size byte declares (0 meaning
256), where at least one payload byte is present or the header's high-address byte is not 0,
`loadGt1File` fails; the caller's container then holds, appended, the segments of the complete
records. -/
theorem loadGt1File_truncated (segs : List Gt1Segment) (hi lo sz : Nat) (part : List Nat)
    (g : Gt1File)
    (hs : ∀ s ∈ segs, s._dataBytes.length = effectiveSize s._segmentSize)
    (hp : part.length < effectiveSize sz) (hne : part ≠ [] ∨ hi ≠ 0) :
    loadGt1File (some (segs.flatMap segmentRecord ++ ([hi, lo, sz] ++ part))) g =
      some (false, { g with _segments := g._segments ++ segs.map Gt1Segment.decoded }) := by
  unfold loadGt1File
  simp only
  apply loadLoop_truncated segs hi lo sz part _ g hs hp hne
  have := length_le_flatMap_record segs
  rw [List.length_append]
  omega

/-- Witness for C10, amended: one complete record, then a page-zero header declaring 3 payload
bytes followed by a single payload byte. -/
theorem loadGt1File_truncated_witness :
    (∀ s ∈ [({ _hiAddress := 2, _segmentSize := 2, _dataBytes := [8, 9] } : Gt1Segment)],
      s._dataBytes.length = effectiveSize s._segmentSize) ∧
    ([1] : List Nat).length < effectiveSize 3 ∧
    (([1] : List Nat) ≠ [] ∨ 0 ≠ 0) ∧
    loadGt1File (some
        ([({ _hiAddress := 2, _segmentSize := 2, _dataBytes := [8, 9] } : Gt1Segment)].flatMap
          segmentRecord ++ ([0, 0x30, 3] ++ [1]))) {} =
      some (false,
        { ({} : Gt1File) with
          _segments := ({} : Gt1File)._segments ++
            [({ _hiAddress := 2, _segmentSize := 2, _dataBytes := [8, 9] } : Gt1Segment)].map
              Gt1Segment.decoded }) :=
  ⟨by decide, by decide, by decide,
    loadGt1File_truncated [{ _hiAddress := 2, _segmentSize := 2, _dataBytes := [8, 9] }]
      0 0x30 3 [1] {} (by decide) (by decide) (by decide)⟩

/-! ## Lemmas on the outcome of the decode loop -/

/-- What a run of the decode loop has consumed and done when it returns: the stream starts with
the records of the segments it appended (each with a payload of its effective size and a clear
ROM flag); on success the rest of the stream is a three-byte record with first byte 0, whose
second and third byte went to `_hiStart` and `_loStart`; on failure nothing but the appended
segments has changed. -/
theorem loadLoop_outcome (fuel : Nat) (s : List Nat) (g g1 : Gt1File) (b : Bool)
    (h : loadLoop fuel s g = some (b, g1)) :
    ∃ segs rest, s = segs.flatMap segmentRecord ++ rest ∧
      (∀ x ∈ segs, x.Sized ∧ x._isRomAddress = false) ∧
      ((b = true ∧ ∃ lo sz, rest = [0, lo, sz] ∧
          g1 = { g with _segments := g._segments ++ segs, _hiStart := lo, _loStart := sz }) ∨
        (b = false ∧ g1 = { g with _segments := g._segments ++ segs })) := by
  induction fuel generalizing s g with
  | zero => simp [loadLoop] at h
  | succ n ih =>
    rw [loadLoop_succ] at h
    split at h
    · rename_i hi lo sz s1 hread
      obtain ⟨-, htake, rfl⟩ := istreamRead_some _ _ _ _ hread
      have hs : s = [hi, lo, sz] ++ s.drop SEGMENT_HEADER_SIZE := by
        rw [htake]; exact (List.take_append_drop _ _).symm
      split at h
      · rename_i hc
        simp only [Option.some.injEq, Prod.mk.injEq] at h
        obtain ⟨rfl, rfl⟩ := h
        obtain ⟨h0, he⟩ := hc
        have hnil : s.drop SEGMENT_HEADER_SIZE = [] := by
          simpa [istreamPeekEOF] using he
        refine ⟨[], s, by simp, by simp, Or.inl ⟨rfl, lo, sz, ?_, by simp⟩⟩
        rw [hs, hnil, h0]
        rfl
      · split at h
        · rename_i data s2 hread2
          obtain ⟨hlen, rfl, rfl⟩ := istreamRead_some _ _ _ _ hread2
          obtain ⟨segs, rest, hsplit, hsz, hout⟩ := ih _ _ h
          have hx : (⟨false, hi, lo, sz,
              List.take (effectiveSize sz) (s.drop SEGMENT_HEADER_SIZE)⟩ : Gt1Segment).Sized := by
            simp only [Gt1Segment.Sized, List.length_take]
            omega
          refine ⟨⟨false, hi, lo, sz,
            List.take (effectiveSize sz) (s.drop SEGMENT_HEADER_SIZE)⟩ :: segs, rest, ?_, ?_, ?_⟩
          · rw [List.flatMap_cons, List.append_assoc, ← hsplit]
            simp only [segmentRecord, Gt1Segment.header, List.take_take, Nat.min_self]
            rw [List.append_assoc, List.take_append_drop]
            exact hs
          · intro x hxm
            rcases List.mem_cons.mp hxm with rfl | hm
            · exact ⟨hx, rfl⟩
            · exact hsz x hm
          · rcases hout with ⟨hb, lo1, sz1, hr, hg⟩ | ⟨hb, hg⟩
            · exact Or.inl ⟨hb, lo1, sz1, hr, by rw [hg]; simp⟩
            · exact Or.inr ⟨hb, by rw [hg]; simp⟩
        · simp only [Option.some.injEq, Prod.mk.injEq] at h
          obtain ⟨rfl, rfl⟩ := h
          exact ⟨[], s, by simp, by simp, Or.inr ⟨rfl, by simp⟩⟩
    · simp only [Option.some.injEq, Prod.mk.injEq] at h
      obtain ⟨rfl, rfl⟩ := h
      exact ⟨[], s, by simp, by simp, Or.inr ⟨rfl, by simp⟩⟩

/-! ## Lemmas on `printGt1Stats` -/

theorem totalSizeLoop_mod (l : List Gt1Segment) (t : Nat) :
    totalSizeLoop l t % 65536 = (t + (l.map (fun s => s._dataBytes.length)).sum) % 65536 := by
  induction l generalizing t with
  | nil => simp [totalSizeLoop]
  | cons s rest ih =>
    simp only [totalSizeLoop, List.map_cons, List.sum_cons]
    rw [ih]
    omega

theorem totalSizeLoop_lt (l : List Gt1Segment) (t : Nat) (ht : t < 65536) :
    totalSizeLoop l t < 65536 := by
  induction l generalizing t with
  | nil => simpa [totalSizeLoop] using ht
  | cons s rest ih =>
    simp only [totalSizeLoop]
    exact ih _ (Nat.mod_lt _ (by decide))

/-- The value returned by the second loop when no mismatch is reported and the early return
for a single ROM segment is not taken, provided the ROM segments satisfy the size invariant. -/
theorem segmentsLoop_value (size : Nat) (l : List Gt1Segment) (t : Nat) (ht : t < 65536)
    (hc : size ≠ 1 ∨ ∀ s ∈ l, s._isRomAddress = false)
    (hm : (segmentsLoop size l t).mismatch = false)
    (hrom : ∀ s ∈ l, s._isRomAddress = true →
      s._dataBytes.length = effectiveSize s._segmentSize) :
    ((segmentsLoop size l t).value + (l.map (fun s => s._dataBytes.length)).sum) % 65536 =
        (t + ((l.filter (fun s => !s._isRomAddress)).map
          (fun s => s._dataBytes.length)).sum) % 65536 ∧
      (segmentsLoop size l t).value < 65536 := by
  induction l generalizing t with
  | nil => simpa [segmentsLoop] using ht
  | cons s rest ih =>
    have hc1 : size ≠ 1 ∨ ∀ x ∈ rest, x._isRomAddress = false := by
      rcases hc with h | h
      · exact Or.inl h
      · exact Or.inr (fun x hx => h x (List.mem_cons_of_mem _ hx))
    have hrom1 : ∀ x ∈ rest, x._isRomAddress = true →
        x._dataBytes.length = effectiveSize x._segmentSize :=
      fun x hx => hrom x (List.mem_cons_of_mem _ hx)
    by_cases hr : s._isRomAddress = true
    · have hsize : size ≠ 1 := by
        rcases hc with h | h
        · exact h
        · have := h s (List.mem_cons_self _ _)
          rw [hr] at this
          cases this
      have hlen := hrom s (List.mem_cons_self _ _) hr
      simp only [segmentsLoop, hr, if_true, if_neg hsize] at hm ⊢
      obtain ⟨h1, h2⟩ := ih _ (Nat.mod_lt _ (by decide)) hc1 hm hrom1
      refine ⟨?_, h2⟩
      simp only [List.map_cons, List.sum_cons, List.filter_cons, hr, Bool.not_true,
        Bool.false_eq_true, if_false]
      rw [hlen]
      omega
    · have hr0 : s._isRomAddress = false := by simpa using hr
      by_cases hsz : effectiveSize s._segmentSize ≠ s._dataBytes.length
      · simp [segmentsLoop, hr0, hsz] at hm
      · simp only [segmentsLoop, hr0, Bool.false_eq_true, if_false, if_neg hsz] at hm ⊢
        obtain ⟨h1, h2⟩ := ih t ht hc1 hm hrom1
        refine ⟨?_, h2⟩
        simp only [List.map_cons, List.sum_cons, List.filter_cons, hr0, Bool.not_false, if_true]
        omega

/-- The second loop returns 0 and reports a mismatch as soon as a segment for RAM violates the
size invariant, unless the early return for a single ROM segment is taken. -/
theorem segmentsLoop_mismatch (size : Nat) (l : List Gt1Segment) (t : Nat) (s : Gt1Segment)
    (hc : size ≠ 1 ∨ ∀ x ∈ l, x._isRomAddress = false)
    (hs : s ∈ l) (hr : s._isRomAddress = false)
    (hne : s._dataBytes.length ≠ effectiveSize s._segmentSize) :
    segmentsLoop size l t = { value := 0, mismatch := true } := by
  induction l generalizing t with
  | nil => cases hs
  | cons a rest ih =>
    have hc1 : size ≠ 1 ∨ ∀ x ∈ rest, x._isRomAddress = false := by
      rcases hc with h | h
      · exact Or.inl h
      · exact Or.inr (fun x hx => h x (List.mem_cons_of_mem _ hx))
    by_cases ha : a._isRomAddress = true
    · have hsize : size ≠ 1 := by
        rcases hc with h | h
        · exact h
        · have := h a (List.mem_cons_self _ _)
          rw [ha] at this
          cases this
      have hsa : s ≠ a := by
        rintro rfl
        rw [ha] at hr
        cases hr
      have hmem : s ∈ rest := by
        rcases List.mem_cons.mp hs with h | h
        · exact absurd h hsa
        · exact h
      simp only [segmentsLoop, ha, if_true, if_neg hsize]
      exact ih _ hc1 hmem
    · have ha0 : a._isRomAddress = false := by simpa using ha
      by_cases hsz : effectiveSize a._segmentSize ≠ a._dataBytes.length
      · simp [segmentsLoop, ha0, hsz]
      · have hsa : s ≠ a := by
          rintro rfl
          exact hsz (Ne.symm hne)
        have hmem : s ∈ rest := by
          rcases List.mem_cons.mp hs with h | h
          · exact absurd h hsa
          · exact h
        simp only [segmentsLoop, ha0, Bool.false_eq_true, if_false, if_neg hsz]
        exact ih _ hc1 hmem

/-- The loop fails at an incomplete record: the stream is the records of the segments the loop
has appended, followed by a truncated header or a truncated segment. -/
theorem loadLoop_failure (fuel : Nat) (s : List Nat) (g g1 : Gt1File)
    (h : loadLoop fuel s g = some (false, g1)) :
    ∃ segs rest, s = segs.flatMap segmentRecord ++ rest ∧
      (∀ x ∈ segs, x.Sized ∧ x._isRomAddress = false) ∧
      IncompleteRecord rest ∧ g1 = { g with _segments := g._segments ++ segs } := by
  induction fuel generalizing s g with
  | zero => simp [loadLoop] at h
  | succ n ih =>
    rw [loadLoop_succ] at h
    split at h
    · rename_i hi lo sz s1 hread
      obtain ⟨-, htake, rfl⟩ := istreamRead_some _ _ _ _ hread
      have hs : s = [hi, lo, sz] ++ s.drop SEGMENT_HEADER_SIZE := by
        rw [htake]; exact (List.take_append_drop _ _).symm
      split at h
      · simp only [Option.some.injEq, Prod.mk.injEq] at h
        exact absurd h.1 (by decide)
      · rename_i hc
        split at h
        · rename_i data s2 hread2
          obtain ⟨hlen, rfl, rfl⟩ := istreamRead_some _ _ _ _ hread2
          obtain ⟨segs, rest, hsplit, hsz, hinc, hg⟩ := ih _ _ h
          have hx : (⟨false, hi, lo, sz,
              List.take (effectiveSize sz) (s.drop SEGMENT_HEADER_SIZE)⟩ : Gt1Segment).Sized := by
            simp only [Gt1Segment.Sized, List.length_take]
            omega
          refine ⟨⟨false, hi, lo, sz,
            List.take (effectiveSize sz) (s.drop SEGMENT_HEADER_SIZE)⟩ :: segs, rest, ?_, ?_,
            hinc, ?_⟩
          · rw [List.flatMap_cons, List.append_assoc, ← hsplit]
            simp only [segmentRecord, Gt1Segment.header, List.take_take, Nat.min_self]
            rw [List.append_assoc, List.take_append_drop]
            exact hs
          · intro x hxm
            rcases List.mem_cons.mp hxm with rfl | hm
            · exact ⟨hx, rfl⟩
            · exact hsz x hm
          · rw [hg]
            simp
        · rename_i hread2
          simp only [Option.some.injEq, Prod.mk.injEq, true_and] at h
          subst h
          refine ⟨[], s, by simp, by simp, Or.inr ⟨hi, lo, sz, s.drop SEGMENT_HEADER_SIZE, hs,
            ?_, ?_⟩, by simp⟩
          · unfold istreamRead at hread2
            split at hread2
            · cases hread2
            · omega
          · by_cases hnil : s.drop SEGMENT_HEADER_SIZE = []
            · right
              intro h0
              exact hc ⟨h0, by rw [hnil]; rfl⟩
            · exact Or.inl hnil
    · rename_i hne
      simp only [Option.some.injEq, Prod.mk.injEq, true_and] at h
      subst h
      refine ⟨[], s, by simp, by simp, Or.inl ?_, by simp⟩
      by_contra hlen
      match s, hne, hlen with
      | [], _, hlen => exact hlen (by simp [SEGMENT_HEADER_SIZE])
      | [_], _, hlen => exact hlen (by simp [SEGMENT_HEADER_SIZE])
      | [_, _], _, hlen => exact hlen (by simp [SEGMENT_HEADER_SIZE])
      | a :: b :: c :: t, hne, _ =>
        exact hne a b c t (by simp [istreamRead, SEGMENT_HEADER_SIZE])

/-! ### C11 -/

/-- C11, as stated, fails: `truncatedStream` (`02 00 01 09 03 00`) holds one complete record
and then a truncated header; `loadGt1File` fails, and the caller's fresh container is left
holding the segment of the complete record. -/
theorem loadGt1File_atomicity_counterexample :
    loadGt1File (some truncatedStream) {} = some (false, truncatedResult) ∧
    truncatedResult._segments = [{ _hiAddress := 2, _segmentSize := 1, _dataBytes := [9] }] ∧
    truncatedResult ≠ {} := by
  decide

/-- C11, amended. Whenever `loadGt1File` fails (the file cannot be opened, truncated header or
truncated segment), the terminator and the entry point of the caller's container are
unmodified and the segments it held before the call are kept, in order, at the front; the
segments of all the complete records that precede the failure have been appended after them:
the stream is the records of exactly the appended segments, followed by the incomplete record
at which the decoder failed (a truncated header or a truncated segment). The container is
exactly as it was before the call if and only if no segment was appended, that is when the
file cannot be opened or the first record of the stream is the incomplete one. -/
theorem loadGt1File_failure_state (infile : Option (List Nat)) (g g1 : Gt1File)
    (h : loadGt1File infile g = some (false, g1)) :
    g1._terminator = g._terminator ∧ g1._hiStart = g._hiStart ∧ g1._loStart = g._loStart ∧
    ∃ segs, g1 = { g with _segments := g._segments ++ segs } ∧
      (g1 = g ↔ segs = []) ∧
      (∀ x ∈ segs,
        x._isRomAddress = false ∧ x._dataBytes.length = effectiveSize x._segmentSize) ∧
      ((infile = none ∧ segs = []) ∨
        ∃ rest, infile = some (segs.flatMap segmentRecord ++ rest) ∧ IncompleteRecord rest) := by
  have hiff : ∀ segs : List Gt1Segment,
      ({ g with _segments := g._segments ++ segs } : Gt1File) = g ↔ segs = [] := by
    intro segs
    constructor
    · intro heq
      have := congrArg Gt1File._segments heq
      simpa using this
    · intro hnil
      rw [hnil, List.append_nil]
  cases infile with
  | none =>
    simp only [loadGt1File, Option.some.injEq, Prod.mk.injEq, true_and] at h
    subst h
    exact ⟨rfl, rfl, rfl, [], by simp, by simp, by simp, Or.inl ⟨rfl, rfl⟩⟩
  | some bytes =>
    obtain ⟨segs, rest, hsplit, hsz, hinc, hg⟩ := loadLoop_failure _ bytes g g1 h
    subst hg
    exact ⟨rfl, rfl, rfl, segs, rfl, hiff segs, fun x hx => ⟨(hsz x hx).2, (hsz x hx).1⟩,
      Or.inr ⟨rest, by rw [hsplit], hinc⟩⟩

/-- Witness for C11, amended, at `truncatedStream` and a fresh container. -/
theorem loadGt1File_failure_state_witness :
    loadGt1File (some truncatedStream) {} = some (false, truncatedResult) ∧
    truncatedResult._terminator = ({} : Gt1File)._terminator ∧
    truncatedResult._hiStart = ({} : Gt1File)._hiStart ∧
    truncatedResult._loStart = ({} : Gt1File)._loStart ∧
    ∃ segs,
      truncatedResult = { ({} : Gt1File) with _segments := ({} : Gt1File)._segments ++ segs } ∧
      (truncatedResult = {} ↔ segs = []) ∧
      (∀ x ∈ segs,
        x._isRomAddress = false ∧ x._dataBytes.length = effectiveSize x._segmentSize) ∧
      ((some truncatedStream = (none : Option (List Nat)) ∧ segs = []) ∨
        ∃ rest, some truncatedStream = some (segs.flatMap segmentRecord ++ rest) ∧
          IncompleteRecord rest) :=
  ⟨by decide,
    loadGt1File_failure_state (some truncatedStream) {} truncatedResult (by decide)⟩

/-! ### C12 -/

/-- C12, as stated, fails: `loadGt1File` stops normally on the record `00 02 10` at the end of
`entryStream` (`02 00 01 09 00 02 10`); the record's low-address byte 0x02 is the entry-point
high byte `_hiStart` and its size byte 0x10 is the entry-point low byte `_loStart`, so that the
execute address taken by `uploadDirect` is 0x0210, not 0x1002. -/
theorem loadGt1File_terminator_aliasing_counterexample :
    loadGt1File (some entryStream) {} = some (true, entryDecoded) ∧
    entryDecoded._hiStart = 0x02 ∧ entryDecoded._loStart = 0x10 ∧
    entryDecoded._loStart ≠ 0x02 ∧ entryDecoded._hiStart ≠ 0x10 ∧
    executeAddress entryDecoded = 0x0210 := by
  decide

/-- C12, amended. Terminator aliasing: when `loadGt1File` stops normally, the stream ends with
a three-byte record (high-address byte, low-address byte, size byte) whose high-address byte is
0; the container's entry-point high byte `_hiStart` is that record's low-address byte and the
entry-point low byte `_loStart` is that record's size byte, so that the execute address
`_loStart + (_hiStart << 8)` of `uploadDirect` is size byte + 256 * low-address byte. -/
theorem loadGt1File_terminator_aliasing (bytes : List Nat) (g g1 : Gt1File)
    (h : loadGt1File (some bytes) g = some (true, g1)) :
    ∃ pre lo sz, bytes = pre ++ [0x00, lo, sz] ∧ g1._hiStart = lo ∧ g1._loStart = sz ∧
      (lo < 256 → sz < 256 → executeAddress g1 = sz + 256 * lo) := by
  obtain ⟨segs, rest, hsplit, -, hout⟩ := loadLoop_outcome _ bytes g g1 true h
  rcases hout with ⟨-, lo, sz, hr, hg⟩ | ⟨hb, -⟩
  · subst hg hr
    refine ⟨_, lo, sz, hsplit, rfl, rfl, fun hlo hsz => ?_⟩
    simp only [executeAddress]
    omega
  · cases hb

/-- Witness for C12, amended, at `entryStream`. -/
theorem loadGt1File_terminator_aliasing_witness :
    loadGt1File (some entryStream) {} = some (true, entryDecoded) ∧
    ∃ pre lo sz, entryStream = pre ++ [0x00, lo, sz] ∧
      entryDecoded._hiStart = lo ∧ entryDecoded._loStart = sz ∧
      (lo < 256 → sz < 256 → executeAddress entryDecoded = sz + 256 * lo) :=
  ⟨by decide, loadGt1File_terminator_aliasing entryStream {} entryDecoded (by decide)⟩

/-! ### C13 -/

/-- C13, as stated, fails in its second part: in the stream `00 05 07 01` the header `00 05 07`
has high-address byte 0 and is followed by one more byte, but its payload of 7 bytes cannot be
read and no segment is appended: `loadGt1File` fails and leaves the container as it was. -/
theorem loadGt1File_disambiguation_counterexample :
    ([0x01] : List Nat) ≠ [] ∧
    loadGt1File (some ([0x00, 0x05, 0x07] ++ [0x01])) {} = some (false, {}) := by
  decide

/-- C13, amended. Terminator disambiguation: `loadGt1File` stops normally exactly when, after
complete segment records, it has read a header whose high-address byte is 0 and no further
byte follows in the stream; a header with high-address byte 0 that is followed by at least one
more byte is treated as the header of an ordinary page-zero segment: when the bytes that follow
hold its whole payload (size byte, 0 meaning 256), the payload is read, the segment is appended
and decoding goes on after the payload, otherwise `loadGt1File` fails. -/
theorem loadGt1File_disambiguation (bytes : List Nat) (g : Gt1File) (fuel lo sz : Nat)
    (rest : List Nat) (hrest : rest ≠ []) :
    ((∃ g1, loadGt1File (some bytes) g = some (true, g1)) ↔
      ∃ (segs : List Gt1Segment) (lo1 sz1 : Nat),
        (∀ x ∈ segs, x._dataBytes.length = effectiveSize x._segmentSize) ∧
        bytes = segs.flatMap segmentRecord ++ [0x00, lo1, sz1]) ∧
    loadLoop (fuel + 1) ([0x00, lo, sz] ++ rest) g =
      (if effectiveSize sz ≤ rest.length then
        loadLoop fuel (rest.drop (effectiveSize sz))
          { g with
            _segments := g._segments ++
              [{ _hiAddress := 0x00, _loAddress := lo, _segmentSize := sz,
                 _dataBytes := rest.take (effectiveSize sz) }] }
      else some (false, g)) := by
  constructor
  · constructor
    · rintro ⟨g1, h⟩
      obtain ⟨segs, rest1, hsplit, hsz, hout⟩ := loadLoop_outcome _ bytes g g1 true h
      rcases hout with ⟨-, lo1, sz1, hr, -⟩ | ⟨hb, -⟩
      · exact ⟨segs, lo1, sz1, fun x hx => (hsz x hx).1, by rw [hsplit, hr]⟩
      · cases hb
    · rintro ⟨segs, lo1, sz1, hsz, rfl⟩
      refine ⟨_, loadLoop_records_trailer segs lo1 sz1 _ g hsz ?_⟩
      have := length_le_flatMap_record segs
      rw [List.length_append]
      omega
  · rw [loadLoop_succ]
    have h1 : istreamRead ([0x00, lo, sz] ++ rest) SEGMENT_HEADER_SIZE =
        some ([0x00, lo, sz], rest) := by
      simp [istreamRead, SEGMENT_HEADER_SIZE]
    have h3 : istreamPeekEOF rest = false := by
      cases rest with
      | nil => exact absurd rfl hrest
      | cons a t => rfl
    simp only [h1, h3]
    by_cases hlen : effectiveSize sz ≤ rest.length
    · simp [istreamRead, hlen]
    · simp [istreamRead, hlen]

/-- Witness for C13, amended: the page-zero header `00 30 02` followed by its two payload
bytes and the terminator record. -/
theorem loadGt1File_disambiguation_witness :
    ([0x08, 0x09, 0x00, 0x02, 0x00] : List Nat) ≠ [] ∧
    ((∃ g1, loadGt1File (some entryStream) {} = some (true, g1)) ↔
      ∃ (segs : List Gt1Segment) (lo1 sz1 : Nat),
        (∀ x ∈ segs, x._dataBytes.length = effectiveSize x._segmentSize) ∧
        entryStream = segs.flatMap segmentRecord ++ [0x00, lo1, sz1]) ∧
    loadLoop (5 + 1) ([0x00, 0x30, 0x02] ++ [0x08, 0x09, 0x00, 0x02, 0x00]) {} =
      (if effectiveSize 0x02 ≤ ([0x08, 0x09, 0x00, 0x02, 0x00] : List Nat).length then
        loadLoop 5 (([0x08, 0x09, 0x00, 0x02, 0x00] : List Nat).drop (effectiveSize 0x02))
          { ({} : Gt1File) with
            _segments := ({} : Gt1File)._segments ++
              [{ _hiAddress := 0x00, _loAddress := 0x30, _segmentSize := 0x02,
                 _dataBytes := ([0x08, 0x09, 0x00, 0x02, 0x00] : List Nat).take
                   (effectiveSize 0x02) }] }
      else some (false, {})) :=
  ⟨by decide,
    loadGt1File_disambiguation entryStream {} 5 0x30 0x02 [0x08, 0x09, 0x00, 0x02, 0x00]
      (by decide)⟩

/-! ### C14 -/

/-- C14, as stated, fails. For `romOnlyExample`, a single ROM-targeted segment of three bytes,
no mismatch is reported and the value returned is 3, although no segment has a false ROM flag
(sum 0). For `romMismatchExample`, whose ROM-targeted segment has size byte 1 and two payload
bytes, no mismatch is reported and the value returned is 2, although the payloads of the
segments with a false ROM flag sum up to 1. -/
theorem printGt1Stats_value_counterexample :
    printGt1Stats romOnlyExample = { value := 3, mismatch := false } ∧
    ((romOnlyExample._segments.filter (fun s => !s._isRomAddress)).map
      (fun s => s._dataBytes.length)).sum % 65536 = 0 ∧
    printGt1Stats romMismatchExample = { value := 2, mismatch := false } ∧
    ((romMismatchExample._segments.filter (fun s => !s._isRomAddress)).map
      (fun s => s._dataBytes.length)).sum % 65536 = 1 := by
  decide

/-- C14, amended. For every container on which `printGt1Stats` does not report a size mismatch:
when the container is a single ROM-targeted segment, the value returned is the payload byte
count of that segment (modulo 2^16); otherwise, provided the payload length of every
ROM-targeted segment equals its effective size (size byte, 0 meaning 256), the value returned
is the total payload byte count with the bytes of all ROM-targeted segments excluded, i.e. the
sum of the payload lengths of the segments whose ROM flag is false, modulo 2^16. -/
theorem printGt1Stats_value (g : Gt1File) (hm : (printGt1Stats g).mismatch = false) :
    (∀ s, g._segments = [s] → s._isRomAddress = true →
      (printGt1Stats g).value = s._dataBytes.length % 65536) ∧
    ((¬ ∃ s, g._segments = [s] ∧ s._isRomAddress = true) →
      (∀ s ∈ g._segments, s._isRomAddress = true →
        s._dataBytes.length = effectiveSize s._segmentSize) →
      (printGt1Stats g).value =
        ((g._segments.filter (fun s => !s._isRomAddress)).map
          (fun s => s._dataBytes.length)).sum % 65536) := by
  constructor
  · intro s hs hr
    simp [printGt1Stats, hs, totalSizeLoop, segmentsLoop, hr]
  · intro hsingle hrom
    have hc : g._segments.length ≠ 1 ∨ ∀ s ∈ g._segments, s._isRomAddress = false := by
      by_cases hl : g._segments.length = 1
      · right
        obtain ⟨a, ha⟩ := List.length_eq_one.mp hl
        intro s hs
        rw [ha] at hs
        have hsa : s = a := by simpa using hs
        subst hsa
        by_contra hne
        exact hsingle ⟨s, ha, by simpa using hne⟩
      · exact Or.inl hl
    have ht := totalSizeLoop_lt g._segments 0 (by decide)
    have hmod := totalSizeLoop_mod g._segments 0
    unfold printGt1Stats at hm ⊢
    simp only at hm ⊢
    obtain ⟨h1, h2⟩ := segmentsLoop_value _ g._segments _ ht hc hm hrom
    omega

set_option maxRecDepth 20000 in
/-- Witness for C14, amended, at `mixedExample`: the 256 bytes for ROM are left out of the 261
payload bytes. -/
theorem printGt1Stats_value_witness :
    (printGt1Stats mixedExample).mismatch = false ∧
    (printGt1Stats mixedExample).value = 5 ∧
    (∀ s, mixedExample._segments = [s] → s._isRomAddress = true →
      (printGt1Stats mixedExample).value = s._dataBytes.length % 65536) ∧
    ((¬ ∃ s, mixedExample._segments = [s] ∧ s._isRomAddress = true) →
      (∀ s ∈ mixedExample._segments, s._isRomAddress = true →
        s._dataBytes.length = effectiveSize s._segmentSize) →
      (printGt1Stats mixedExample).value =
        ((mixedExample._segments.filter (fun s => !s._isRomAddress)).map
          (fun s => s._dataBytes.length)).sum % 65536) :=
  ⟨by decide, by decide, printGt1Stats_value mixedExample (by decide)⟩

/-! ### C15 -/

/-- C15, as stated, fails: `romMismatchExample` contains a segment whose size byte 1 is non-zero
and differs from the length 2 of its payload, and `printGt1Stats` returns 2 without reporting a
mismatch, because that segment is ROM-targeted and only segments for RAM are checked. -/
theorem printGt1Stats_mismatch_counterexample :
    (∃ s ∈ romMismatchExample._segments,
      s._segmentSize ≠ 0 ∧ s._segmentSize ≠ s._dataBytes.length) ∧
    printGt1Stats romMismatchExample = { value := 2, mismatch := false } := by
  decide

/-- C15, amended. `printGt1Stats` fails (reports the mismatch and returns 0) for every container
that contains a segment, not ROM-targeted, whose size byte is non-zero and differs from the
actual length of its payload (or whose size byte is 0 while its payload is not 256 bytes
long). -/
theorem printGt1Stats_mismatch (g : Gt1File) (s : Gt1Segment) (hs : s ∈ g._segments)
    (hr : s._isRomAddress = false)
    (hne : (s._segmentSize ≠ 0 ∧ s._segmentSize ≠ s._dataBytes.length) ∨
      (s._segmentSize = 0 ∧ s._dataBytes.length ≠ 256)) :
    printGt1Stats g = { value := 0, mismatch := true } := by
  have hne1 : s._dataBytes.length ≠ effectiveSize s._segmentSize := by
    unfold effectiveSize
    rcases hne with ⟨h1, h2⟩ | ⟨h1, h2⟩
    · rw [if_neg h1]; exact Ne.symm h2
    · rw [if_pos h1]; exact h2
  have hc : g._segments.length ≠ 1 ∨ ∀ x ∈ g._segments, x._isRomAddress = false := by
    by_cases hl : g._segments.length = 1
    · right
      obtain ⟨a, ha⟩ := List.length_eq_one.mp hl
      intro x hx
      rw [ha] at hx hs
      have hxa : x = a := by simpa using hx
      have hsa : s = a := by simpa using hs
      rw [hxa, ← hsa]
      exact hr
    · exact Or.inl hl
  exact segmentsLoop_mismatch _ g._segments _ s hc hs hr hne1

/-- Witness for C15, amended, at `ramMismatchExample`: a segment for RAM with size byte 2 and
a payload of one byte, after a ROM-targeted segment. -/
theorem printGt1Stats_mismatch_witness :
    ({ _hiAddress := 3, _segmentSize := 2, _dataBytes := [7] } : Gt1Segment) ∈
      ramMismatchExample._segments ∧
    (((2 : Nat) ≠ 0 ∧ 2 ≠ ([7] : List Nat).length) ∨
      ((2 : Nat) = 0 ∧ ([7] : List Nat).length ≠ 256)) ∧
    printGt1Stats ramMismatchExample = { value := 0, mismatch := true } :=
  ⟨by decide, by decide,
    printGt1Stats_mismatch ramMismatchExample
      { _hiAddress := 3, _segmentSize := 2, _dataBytes := [7] }
      (by decide) rfl (by decide)⟩

/-! ## Lemmas on `saveDataFile` -/

theorem writeWord_eq (out : List Nat) (w : Nat) : writeWord out w = out ++ le16 w := by
  simp [writeWord, ostreamWrite, le16]

theorem le16_length (w : Nat) : (le16 w).length = 2 := rfl

theorem saveWords_eq (k i : Nat) (v out : List Nat) (h : i + k ≤ v.length) :
    saveWords k i v out = out ++ ((v.drop i).take k).flatMap le16 := by
  induction k generalizing i out with
  | zero => simp [saveWords]
  | succ n ih =>
    have hi : i < v.length := by omega
    rw [saveWords, ih (i + 1) _ (by omega), writeWord_eq, List.getD_eq_getElem v 0 hi,
      List.drop_eq_getElem_cons hi, List.take_succ_cons, List.flatMap_cons, List.append_assoc]

theorem saveBytes_eq (k i : Nat) (buffer out : List Nat) (h : i + k ≤ buffer.length) :
    saveBytes k i buffer out = out ++ (buffer.drop i).take k := by
  induction k generalizing i out with
  | zero => simp [saveBytes]
  | succ n ih =>
    have hi : i < buffer.length := by omega
    rw [saveBytes, ih (i + 1) _ (by omega), List.getD_eq_getElem buffer 0 hi,
      List.drop_eq_getElem_cons hi, List.take_succ_cons]
    simp [ostreamWrite]

theorem counts_getD (sd : SaveData) (hmap : sd._data.map List.length = sd._counts) (j : Nat)
    (hj : j < sd._data.length) :
    sd._counts.getD j 0 = (sd._data.getD j []).length := by
  have hjc : j < sd._counts.length := by rw [← hmap, List.length_map]; exact hj
  rw [List.getD_eq_getElem _ _ hjc, List.getD_eq_getElem _ _ hj]
  simp only [← hmap, List.getElem_map]

theorem saveGroups_eq (k j : Nat) (sd : SaveData) (out : List Nat)
    (hmap : sd._data.map List.length = sd._counts) (h : j + k ≤ sd._data.length) :
    saveGroups k j sd out = out ++ ((sd._data.drop j).take k).flatten := by
  induction k generalizing j out with
  | zero => simp [saveGroups]
  | succ n ih =>
    have hj : j < sd._data.length := by omega
    rw [saveGroups, ih (j + 1) _ (by omega), counts_getD sd hmap j hj,
      saveBytes_eq _ 0 _ _ (by omega), List.drop_eq_getElem_cons hj, List.take_succ_cons,
      List.flatten_cons, List.getD_eq_getElem _ _ hj]
    simp

theorem checkInner_self (k c : Nat) : checkInner k c c = true := by
  induction k with
  | zero => rfl
  | succ n ih => simp [checkInner, ih]

theorem checkData_true (k j : Nat) (sd : SaveData)
    (hmap : sd._data.map List.length = sd._counts)
    (hlen : sd._data.length = sd._addresses.length) (h : j + k ≤ sd._data.length) :
    checkData k j sd = true := by
  induction k generalizing j with
  | zero => rfl
  | succ n ih =>
    have hj : j < sd._data.length := by omega
    rw [checkData, if_neg (by simp [hlen]), ← counts_getD sd hmap j hj, checkInner_self,
      if_neg (by simp)]
    exact ih (j + 1) (by omega)

theorem flatMap_le16_length (l : List Nat) : (l.flatMap le16).length = 2 * l.length := by
  induction l with
  | nil => rfl
  | cons a t ih =>
    rw [List.flatMap_cons, List.length_append, ih, le16_length, List.length_cons]
    omega

/-! ### C16 -/

/-- C16. Save-slot layout: for every slot with `n >= 1` watch entries (`n` a 16-bit number),
counts and addresses arrays of length `n`, `n` snapshot buffers and each snapshot buffer of
length `byteCounts[j]`, `saveDataFile` succeeds and the bytes it writes are: `n` as 16-bit
little-endian, the `n` counts as 16-bit little-endian, `n` as 16-bit little-endian, the `n`
addresses as 16-bit little-endian, then `snapshotBytes[0]`, `snapshotBytes[1]`, ...
concatenated; the total length is `4 + 4n` plus the sum of the `byteCounts`. -/
theorem saveDataFile_layout (sd : SaveData) (n : Nat) (hn : 1 ≤ n) (hn16 : n < 65536)
    (hc : sd._counts.length = n) (ha : sd._addresses.length = n)
    (hd : sd._data.map List.length = sd._counts) :
    saveDataFile true sd =
      { ok := true
        outfile := some (le16 n ++ sd._counts.flatMap le16 ++ le16 n
          ++ sd._addresses.flatMap le16 ++ sd._data.flatten) } ∧
    (le16 n ++ sd._counts.flatMap le16 ++ le16 n
      ++ sd._addresses.flatMap le16 ++ sd._data.flatten).length = 4 + 4 * n + sd._counts.sum := by
  have hdl : sd._data.length = n := by
    rw [← hc, ← hd, List.length_map]
  constructor
  · have h1 : ¬ (sd._counts.length = 0 ∨ sd._counts.length ≠ sd._addresses.length) := by
      rw [hc, ha]
      omega
    have hmod : n % 65536 = n := Nat.mod_eq_of_lt hn16
    have hcheck := checkData_true n 0 sd hd (by rw [hdl, ha]) (by omega)
    unfold saveDataFile
    simp only [Bool.true_eq_false, if_false, if_neg h1]
    rw [hc, ha, hmod, hcheck]
    simp only [Bool.true_eq_false, if_false]
    rw [saveGroups_eq n 0 sd _ hd (by omega), saveWords_eq n 0 _ _ (by omega),
      saveWords_eq n 0 _ _ (by omega), writeWord_eq, writeWord_eq]
    simp only [List.drop_zero, List.nil_append]
    rw [← hc, List.take_length, hc, ← ha, List.take_length, ha, ← hdl, List.take_length]
  · simp only [List.length_append, le16_length, flatMap_le16_length, List.length_flatten, hd,
      hc, ha]
    omega

/-- Witness for C16 at `exampleSlot`. -/
theorem saveDataFile_layout_witness :
    1 ≤ 2 ∧ 2 < 65536 ∧ exampleSlot._counts.length = 2 ∧ exampleSlot._addresses.length = 2 ∧
    exampleSlot._data.map List.length = exampleSlot._counts ∧
    saveDataFile true exampleSlot =
      { ok := true
        outfile := some (le16 2 ++ exampleSlot._counts.flatMap le16 ++ le16 2
          ++ exampleSlot._addresses.flatMap le16 ++ exampleSlot._data.flatten) } ∧
    (le16 2 ++ exampleSlot._counts.flatMap le16 ++ le16 2
      ++ exampleSlot._addresses.flatMap le16 ++ exampleSlot._data.flatten).length
        = 4 + 4 * 2 + exampleSlot._counts.sum :=
  ⟨by decide, by decide, by decide, by decide, by decide,
    saveDataFile_layout exampleSlot 2 (by decide) (by decide) (by decide) (by decide)
      (by decide)⟩

/-! ## Lemmas on `loadDataFile` -/

theorem loadWords_length (k i : Nat) (s v s1 v1 : List Nat)
    (h : loadWords k i s v = .ok (s1, v1)) : v1.length = v.length := by
  induction k generalizing i s v with
  | zero =>
    simp only [loadWords, ReadOutcome.ok.injEq, Prod.mk.injEq] at h
    rw [← h.2]
  | succ n ih =>
    rw [loadWords] at h
    split at h
    · cases h
    · split at h
      · rw [ih _ _ _ h, List.length_set]
      · cases h

theorem loadBytes_length (k i j address : Nat) (s : List Nat) (data : List (List Nat))
    (ram : Memory) (s1 : List Nat) (data1 : List (List Nat)) (ram1 : Memory)
    (h : loadBytes k i j address s data ram = .ok (s1, data1, ram1)) :
    data1.length = data.length := by
  induction k generalizing i s data ram with
  | zero =>
    simp only [loadBytes, ReadOutcome.ok.injEq, Prod.mk.injEq] at h
    rw [← h.2.1]
  | succ n ih =>
    rw [loadBytes] at h
    split at h
    · split at h
      · split at h
        · rw [ih _ _ _ _ h, List.length_set]
        · cases h
      · cases h
    · cases h

theorem loadGroups_length (k j : Nat) (counts addresses s : List Nat) (data : List (List Nat))
    (ram : Memory) (s1 : List Nat) (data1 : List (List Nat)) (ram1 : Memory)
    (h : loadGroups k j counts addresses s data ram = .ok (s1, data1, ram1)) :
    data1.length = data.length + k := by
  induction k generalizing j s data ram with
  | zero =>
    simp only [loadGroups, ReadOutcome.ok.injEq, Prod.mk.injEq] at h
    rw [← h.2.1]
    rfl
  | succ n ih =>
    rw [loadGroups] at h
    split at h
    · rename_i count address _ _
      simp only at h
      cases hb : loadBytes count 0 j address s (data ++ [List.replicate count 0]) ram with
      | ok st =>
        obtain ⟨s2, data2, ram2⟩ := st
        rw [hb] at h
        simp only at h
        rw [ih _ _ _ _ h, loadBytes_length _ _ _ _ _ _ _ _ _ _ hb, List.length_append]
        simp only [List.length_singleton]
        omega
      | readError st => rw [hb] at h; cases h
      | undefined => rw [hb] at h; cases h
    · cases h

/-- What a call of `loadDataFile` that returns has done to the slot: nothing when it returns
false; when it returns true, the slot is marked initialised, the counts and addresses arrays
have kept their lengths, which are equal and not zero, and one buffer per watch entry has been
added to the snapshot buffers the slot held before. -/
theorem loadDataFile_some (infile : Option (List Nat)) (sd : SaveData) (ram : Memory)
    (r : LoadDataResult) (h : loadDataFile infile sd ram = some r) :
    (r.ok = false ∧ r.saveData = sd) ∨
    (r.ok = true ∧ r.saveData._initialised = true ∧
      r.saveData._filename = sd._filename ∧ r.saveData._updaterate = sd._updaterate ∧
      r.saveData._endianness = sd._endianness ∧
      r.saveData._counts.length = sd._counts.length ∧
      r.saveData._addresses.length = sd._addresses.length ∧
      sd._counts.length ≠ 0 ∧ sd._counts.length = sd._addresses.length ∧
      r.saveData._data.length = sd._data.length + sd._addresses.length) := by
  unfold loadDataFile at h
  simp only at h
  split at h
  · cases h; exact Or.inl ⟨rfl, rfl⟩
  · split at h
    · cases h; exact Or.inl ⟨rfl, rfl⟩
    · split at h
      · cases h
      · cases h; exact Or.inl ⟨rfl, rfl⟩
      · rename_i s2 counts hcounts
        split at h
        · cases h; exact Or.inl ⟨rfl, rfl⟩
        · split at h
          · cases h
          · cases h; exact Or.inl ⟨rfl, rfl⟩
          · rename_i s4 addresses haddresses
            have hcl := loadWords_length _ _ _ _ _ _ hcounts
            have hal := loadWords_length _ _ _ _ _ _ haddresses
            split at h
            · cases h; exact Or.inl ⟨rfl, rfl⟩
            · rename_i hcheck
              split at h
              · cases h
              · cases h; exact Or.inl ⟨rfl, rfl⟩
              · rename_i s5 data ram1 hgroups
                have hdl := loadGroups_length _ _ _ _ _ _ _ _ _ _ hgroups
                cases h
                refine Or.inr ⟨rfl, rfl, rfl, rfl, rfl, hcl, hal, ?_, ?_, ?_⟩
                · rw [← hcl]; exact fun h0 => hcheck (Or.inl h0)
                · rw [← hcl, ← hal]
                  by_contra hne
                  exact hcheck (Or.inr hne)
                · simp only
                  rw [hdl, hal]

theorem readWord_le16 (w : Nat) (rest : List Nat) (hw : w < 65536) :
    readWord (le16 w ++ rest) = some (w, rest) := by
  simp only [readWord, le16, istreamRead, List.cons_append, List.nil_append, List.length_cons]
  rw [if_pos (by omega)]
  simp only [List.take_succ_cons, List.take_zero, List.drop_succ_cons, List.drop_zero,
    Option.some.injEq, Prod.mk.injEq, and_true]
  omega

/-- The loops over the counts and the addresses run to their end when the stream holds the
words and the indices stay within the vector. -/
theorem loadWords_ok (k i : Nat) (ws rest v : List Nat) (hws : ws.length = 2 * k)
    (hi : i + k ≤ v.length) : ∃ v1, loadWords k i (ws ++ rest) v = .ok (rest, v1) := by
  induction k generalizing i ws v with
  | zero =>
    have : ws = [] := List.length_eq_zero.mp (by omega)
    subst this
    exact ⟨v, rfl⟩
  | succ n ih =>
    match ws, hws with
    | b0 :: b1 :: ws1, hws =>
      have hlen : ws1.length = 2 * n := by
        simp only [List.length_cons] at hws
        omega
      have hread : readWord (b0 :: b1 :: ws1 ++ rest) = some (b0 + 256 * b1, ws1 ++ rest) := by
        simp [readWord, istreamRead]
      obtain ⟨v1, hv1⟩ := ih (i + 1) ws1 (v.set i (b0 + 256 * b1)) hlen
        (by rw [List.length_set]; omega)
      refine ⟨v1, ?_⟩
      rw [loadWords, hread]
      simp only
      rw [if_pos (by omega), hv1]

/-! ### C17 -/

/-- C17, the code at the failing input. `exampleSlot` satisfies the slot invariant and has two
watch entries; `saveDataFile` writes `exampleSlotFile`. Loading these bytes into
`configuredSlot` (same counts, addresses and endianness, zero-filled snapshot buffers)
succeeds, with counts and addresses equal to those of `exampleSlot`, but the snapshot array
holds four buffers, the two of `exampleSlot` followed by two zero-filled ones, and so differs
from the snapshot array of `exampleSlot`. -/
theorem loadDataFile_saveDataFile_example :
    saveDataFile true exampleSlot = { ok := true, outfile := some exampleSlotFile } ∧
    (loadDataFile (some exampleSlotFile) configuredSlot zeroRam).map
        (fun r => (r.ok, r.saveData)) =
      some (true, { exampleSlot with _data := [[5, 6], [7], [0, 0], [0]] }) ∧
    ([[5, 6], [7], [0, 0], [0]] : List (List Nat)) ≠ exampleSlot._data := by
  decide

/-! ### C18 -/

/-- C18, the code at the failing input. In `singleSlot` the counts, addresses, endianness and
snapshot arrays all have length 1 and the snapshot buffer has length `byteCounts[0]`.
`loadDataFile` on `singleSlotFile` succeeds and leaves a slot with one count, one address and
one endianness but two snapshot buffers, the loaded one and a zero-filled one; `saveDataFile`
then refuses that slot ("data has not been initialised or loaded"). -/
theorem loadDataFile_invariant_example :
    (singleSlot._counts.length = 1 ∧ singleSlot._addresses.length = 1 ∧
      singleSlot._endianness.length = 1 ∧ singleSlot._data.length = 1 ∧
      singleSlot._data.map List.length = singleSlot._counts) ∧
    (loadDataFile (some singleSlotFile) singleSlot zeroRam).map
        (fun r => (r.ok, r.saveData)) =
      some (true, { singleSlot with _data := [[0x2A], [0]] }) ∧
    ({ singleSlot with _data := [[0x2A], [0]] } : SaveData)._data.length = 2 ∧
    ({ singleSlot with _data := [[0x2A], [0]] } : SaveData)._addresses.length = 1 ∧
    (saveDataFile true { singleSlot with _data := [[0x2A], [0]] }).ok = false := by
  decide

/-! ### C19 -/

/-- C19, as stated, fails. `unevenFile` declares and holds `N = 2` counts and `M = 1` address,
`zeroCountFile` declares `N = 0` counts and `M = 0` addresses; every read succeeds and
`loadDataFile` into `configuredSlot` (two counts, two addresses) returns true for both. -/
theorem loadDataFile_corrupt_counterexample :
    (loadDataFile (some unevenFile) configuredSlot zeroRam).map (fun r => r.ok) = some true ∧
    (loadDataFile (some zeroCountFile) configuredSlot zeroRam).map (fun r => r.ok)
      = some true := by
  decide

/-- C19, amended. `loadDataFile` fails as corrupt whenever the slot's counts array is empty or
its length differs from the length of the slot's addresses array (the numbers `N` and `M`
declared in the file do not change these lengths and are not compared): whenever it returns,
it returns false and leaves the slot as it was, and it does return so, with slot and RAM as
they were, even when every individual read succeeds, i.e. when the file holds `N` counts and
`M` addresses as declared, with `N` and `M` within the lengths of the slot's arrays. -/
theorem loadDataFile_corrupt (infile : Option (List Nat)) (sd : SaveData) (ram : Memory)
    (hbad : sd._counts.length = 0 ∨ sd._counts.length ≠ sd._addresses.length) :
    (∀ r, loadDataFile infile sd ram = some r → r.ok = false ∧ r.saveData = sd) ∧
    (∀ (N M : Nat) (cs ws rest : List Nat), N < 65536 → M < 65536 →
      N ≤ sd._counts.length → M ≤ sd._addresses.length →
      cs.length = 2 * N → ws.length = 2 * M →
      infile = some (le16 N ++ (cs ++ (le16 M ++ (ws ++ rest)))) →
      loadDataFile infile sd ram = some { ok := false, saveData := sd, ram := ram }) := by
  constructor
  · intro r h
    rcases loadDataFile_some infile sd ram r h with h1 | ⟨-, -, -, -, -, -, -, h0, heq, -⟩
    · exact h1
    · rcases hbad with hb | hb
      · exact absurd hb h0
      · exact absurd heq hb
  · intro N M cs ws rest hN hM hNc hMa hcs hws hfile
    subst hfile
    obtain ⟨counts, hcounts⟩ := loadWords_ok N 0 cs (le16 M ++ (ws ++ rest)) sd._counts hcs
      (by omega)
    obtain ⟨addresses, haddresses⟩ := loadWords_ok M 0 ws rest sd._addresses hws (by omega)
    have hcl := loadWords_length _ _ _ _ _ _ hcounts
    have hal := loadWords_length _ _ _ _ _ _ haddresses
    have hcheck : counts.length = 0 ∨ counts.length ≠ addresses.length := by
      rw [hcl, hal]; exact hbad
    unfold loadDataFile
    simp only [readWord_le16 N _ hN, hcounts, readWord_le16 M _ hM, haddresses, if_pos hcheck]

/-- Witness for C19, amended, at `unevenSlot` and a file that declares and holds one count and
one address. -/
theorem loadDataFile_corrupt_witness :
    (unevenSlot._counts.length = 0 ∨ unevenSlot._counts.length ≠ unevenSlot._addresses.length) ∧
    (loadDataFile (some singleSlotFile) unevenSlot zeroRam).map (fun r => (r.ok, r.saveData))
      = some (false, unevenSlot) ∧
    (∀ r, loadDataFile (some singleSlotFile) unevenSlot zeroRam = some r →
      r.ok = false ∧ r.saveData = unevenSlot) ∧
    (∀ (N M : Nat) (cs ws rest : List Nat), N < 65536 → M < 65536 →
      N ≤ unevenSlot._counts.length → M ≤ unevenSlot._addresses.length →
      cs.length = 2 * N → ws.length = 2 * M →
      some singleSlotFile = some (le16 N ++ (cs ++ (le16 M ++ (ws ++ rest)))) →
      loadDataFile (some singleSlotFile) unevenSlot zeroRam =
        some { ok := false, saveData := unevenSlot, ram := zeroRam }) :=
  ⟨by decide, by decide,
    loadDataFile_corrupt (some singleSlotFile) unevenSlot zeroRam (by decide)⟩

/-! ### C20 -/

/-- C20. Load atomicity: whenever `loadDataFile` returns false (the file cannot be opened, a
short read at any stage, or corrupt lengths) the caller's slot is left exactly as before the
call, including its initialised flag; whenever it returns true the slot's initialised flag is
true. -/
theorem loadDataFile_atomic (infile : Option (List Nat)) (sd : SaveData) (ram : Memory)
    (r : LoadDataResult) (h : loadDataFile infile sd ram = some r) :
    (r.ok = false → r.saveData = sd) ∧ (r.ok = true → r.saveData._initialised = true) := by
  rcases loadDataFile_some infile sd ram r h with ⟨h1, h2⟩ | ⟨h1, h2, -⟩
  · exact ⟨fun _ => h2, fun ht => absurd (h1.symm.trans ht) (by decide)⟩
  · exact ⟨fun hf => absurd (h1.symm.trans hf) (by decide), fun _ => h2⟩

/-- Witness for C20: a load of `singleSlotFile` cut off in its data part into a slot that is
not initialised, and a load of the whole file. -/
theorem loadDataFile_atomic_witness :
    (∃ r, loadDataFile (some [1, 0, 1, 0, 1, 0, 0x00, 0x01])
        { singleSlot with _initialised := false } zeroRam = some r ∧
      r.ok = false ∧
      (r.ok = false → r.saveData = { singleSlot with _initialised := false }) ∧
      (r.ok = true → r.saveData._initialised = true)) ∧
    (∃ r, loadDataFile (some singleSlotFile)
        { singleSlot with _initialised := false } zeroRam = some r ∧
      r.ok = true ∧
      (r.ok = false → r.saveData = { singleSlot with _initialised := false }) ∧
      (r.ok = true → r.saveData._initialised = true)) :=
  ⟨⟨_, rfl, by decide,
      loadDataFile_atomic (some [1, 0, 1, 0, 1, 0, 0x00, 0x01])
        { singleSlot with _initialised := false } zeroRam _ rfl⟩,
    ⟨_, rfl, by decide,
      loadDataFile_atomic (some singleSlotFile)
        { singleSlot with _initialised := false } zeroRam _ rfl⟩⟩

/-! ## Lemmas on what `loadDataFile` stores -/

theorem applyWrites_append (ram : Memory) (ws1 ws2 : List (Nat × Nat)) :
    applyWrites ram (ws1 ++ ws2) = applyWrites (applyWrites ram ws1) ws2 := by
  induction ws1 generalizing ram with
  | nil => rfl
  | cons w ws ih => exact ih _

theorem applyWrites_not_mem (ws : List (Nat × Nat)) (ram : Memory) (a : Nat)
    (h : a ∉ ws.map (fun w => w.1 % 65536)) : applyWrites ram ws a = ram a := by
  induction ws generalizing ram with
  | nil => rfl
  | cons w ws ih =>
    simp only [List.map_cons, List.mem_cons, not_or] at h
    rw [applyWrites, ih _ h.2]
    simp only [setRAM, if_neg h.1]

/-- When no two writes of a list go to the same address, the RAM holds the byte of each write
at its address afterwards. -/
theorem applyWrites_nodup (ws : List (Nat × Nat)) (ram : Memory)
    (h : (ws.map (fun w => w.1 % 65536)).Nodup) (w : Nat × Nat) (hw : w ∈ ws) :
    applyWrites ram ws (w.1 % 65536) = w.2 := by
  induction ws generalizing ram with
  | nil => cases hw
  | cons w0 ws ih =>
    simp only [List.map_cons, List.nodup_cons] at h
    rcases List.mem_cons.mp hw with hw0 | hw1
    · subst hw0
      rw [applyWrites, applyWrites_not_mem _ _ _ h.1]
      simp only [setRAM, if_true]
    · exact ih _ h.2 hw1

theorem ramWrites_mem (address i0 : Nat) (bytes : List Nat) (i byte : Nat)
    (h : bytes[i]? = some byte) : (address + (i0 + i), byte) ∈ ramWrites address i0 bytes := by
  induction bytes generalizing i0 i with
  | nil => cases h
  | cons b bs ih =>
    cases i with
    | zero =>
      simp only [List.getElem?_cons_zero, Option.some.injEq] at h
      subst h
      exact List.mem_cons_self _ _
    | succ i1 =>
      simp only [List.getElem?_cons_succ] at h
      have := ih (i0 + 1) i1 h
      rw [show i0 + (i1 + 1) = i0 + 1 + i1 by omega]
      exact List.mem_cons_of_mem _ this

theorem groupWrites_mem (addresses : List Nat) (j0 : Nat) (groups : List (List Nat))
    (j i byte : Nat) (group : List Nat) (hg : groups[j]? = some group)
    (hb : group[i]? = some byte) :
    (addresses.getD (j0 + j) 0 + i, byte) ∈ groupWrites addresses j0 groups := by
  induction groups generalizing j0 j with
  | nil => cases hg
  | cons g gs ih =>
    rw [groupWrites]
    cases j with
    | zero =>
      simp only [List.getElem?_cons_zero, Option.some.injEq] at hg
      subst hg
      have := ramWrites_mem (addresses.getD j0 0) 0 g i byte hb
      rw [Nat.zero_add] at this
      exact List.mem_append_left _ this
    | succ j1 =>
      simp only [List.getElem?_cons_succ] at hg
      have := ih (j0 + 1) j1 hg
      rw [show j0 + (j1 + 1) = j0 + 1 + j1 by omega]
      exact List.mem_append_right _ this

theorem take_succ_set (l : List Nat) (i a : Nat) (h : i < l.length) :
    (l.set i a).take (i + 1) = l.take i ++ [a] := by
  induction l generalizing i with
  | nil => simp at h
  | cons b bs ih =>
    cases i with
    | zero => simp
    | succ i1 =>
      simp only [List.length_cons, Nat.add_lt_add_iff_right] at h
      simp [ih i1 h]

theorem drop_set_lt (l : List Nat) (i a m : Nat) (h : i < m) :
    (l.set i a).drop m = l.drop m := by
  induction l generalizing i m with
  | nil => simp
  | cons b bs ih =>
    cases m with
    | zero => omega
    | succ m1 =>
      cases i with
      | zero => simp
      | succ i1 => simp [ih i1 m1 (by omega)]

theorem set_getElem?_self (data : List (List Nat)) (j : Nat) (buffer : List Nat)
    (h : data[j]? = some buffer) : data.set j buffer = data := by
  induction data generalizing j with
  | nil => rfl
  | cons b bs ih =>
    cases j with
    | zero =>
      simp only [List.getElem?_cons_zero, Option.some.injEq] at h
      simp [h]
    | succ j1 =>
      simp only [List.getElem?_cons_succ] at h
      simp [ih j1 h]

/-- What the inner loop of `loadDataFile` has done when it runs to its end: it has read `k`
bytes, stored them in the buffer `j` from offset `i` on, and written them to the RAM. -/
theorem loadBytes_ok (k i j address : Nat) (s : List Nat) (data : List (List Nat))
    (ram : Memory) (s1 : List Nat) (data1 : List (List Nat)) (ram1 : Memory)
    (buffer : List Nat) (hbuf : data[j]? = some buffer)
    (h : loadBytes k i j address s data ram = .ok (s1, data1, ram1)) :
    ∃ bytes : List Nat, bytes.length = k ∧ s = bytes ++ s1 ∧
      data1 = data.set j (buffer.take i ++ bytes ++ buffer.drop (i + k)) ∧
      ram1 = applyWrites ram (ramWrites address i bytes) := by
  induction k generalizing i s data ram buffer with
  | zero =>
    simp only [loadBytes, ReadOutcome.ok.injEq, Prod.mk.injEq] at h
    obtain ⟨hs, hd, hr⟩ := h
    refine ⟨[], rfl, by simp [hs], ?_, by rw [← hr]; rfl⟩
    rw [← hd, List.append_nil, Nat.add_zero, List.take_append_drop,
      set_getElem?_self _ _ _ hbuf]
  | succ n ih =>
    rw [loadBytes] at h
    split at h
    · rename_i byte s2 hread
      rw [hbuf] at h
      simp only at h
      split at h
      · rename_i hi
        have hj : j < data.length := (List.getElem?_eq_some_iff.mp hbuf).1
        have hbuf2 : (data.set j (buffer.set i byte))[j]? = some (buffer.set i byte) := by
          simp [hj]
        obtain ⟨bytes, hlen, hs2, hd, hr⟩ := ih (i + 1) s2 _ _ _ hbuf2 h
        obtain ⟨h1, hb, hrest⟩ := istreamRead_some _ _ _ _ hread
        have hs : s = byte :: s2 := by
          rw [← List.take_append_drop 1 s, ← hb, ← hrest]
          rfl
        refine ⟨byte :: bytes, by simp [hlen], by rw [hs, hs2]; rfl, ?_, ?_⟩
        · rw [hd, List.set_set, take_succ_set _ _ _ hi, drop_set_lt _ _ _ _ (by omega)]
          congr 1
          rw [show i + 1 + n = i + (n + 1) by omega]
          simp
        · rw [hr]
          rfl
      · cases h
    · cases h

theorem getElem?_append_singleton_le (data : List (List Nat)) (x : List Nat) (j : Nat)
    (hj : j ≤ data.length) : ∃ buffer, (data ++ [x])[j]? = some buffer := by
  have : j < (data ++ [x]).length := by
    rw [List.length_append, List.length_singleton]
    omega
  exact ⟨_, List.getElem?_eq_getElem this⟩

/-- What the outer loop of `loadDataFile` has done when it runs to its end: it has read the
bytes of `k` groups, whose sizes are the counts from index `j` on; the buffers below `j` are
as before, the buffer `j + t` starts with the bytes of the group `t`, and the bytes have been
written to the RAM group after group. -/
theorem loadGroups_ok (k j : Nat) (counts addresses s : List Nat) (data : List (List Nat))
    (ram : Memory) (s1 : List Nat) (data1 : List (List Nat)) (ram1 : Memory)
    (hj : j ≤ data.length)
    (h : loadGroups k j counts addresses s data ram = .ok (s1, data1, ram1)) :
    ∃ groups : List (List Nat), groups.length = k ∧
      groups.map List.length = (counts.drop j).take k ∧
      s = groups.flatten ++ s1 ∧
      (∀ j1, j1 < j → data1[j1]? = data[j1]?) ∧
      (∀ t group, groups[t]? = some group →
        ∃ buffer, data1[j + t]? = some buffer ∧ buffer.take group.length = group) ∧
      ram1 = applyWrites ram (groupWrites addresses j groups) := by
  induction k generalizing j s data ram with
  | zero =>
    simp only [loadGroups, ReadOutcome.ok.injEq, Prod.mk.injEq] at h
    obtain ⟨hs, hd, hr⟩ := h
    refine ⟨[], rfl, by simp, by simp [hs], fun j1 _ => by rw [hd], ?_, by rw [← hr]; rfl⟩
    intro t group hg
    cases hg
  | succ n ih =>
    rw [loadGroups] at h
    split at h
    · rename_i count address hcount haddress
      simp only at h
      cases hb : loadBytes count 0 j address s (data ++ [List.replicate count 0]) ram with
      | ok st =>
        obtain ⟨s2, data2, ram2⟩ := st
        rw [hb] at h
        simp only at h
        obtain ⟨buffer, hbuf⟩ := getElem?_append_singleton_le data (List.replicate count 0) j hj
        obtain ⟨bytes, hlen, hs, hd2, hr2⟩ := loadBytes_ok _ _ _ _ _ _ _ _ _ _ buffer hbuf hb
        have hl2 : data2.length = data.length + 1 := by
          rw [loadBytes_length _ _ _ _ _ _ _ _ _ _ hb, List.length_append,
            List.length_singleton]
        obtain ⟨groups, hgl, hmap, hs2, hlow, hup, hr⟩ := ih (j + 1) s2 data2 ram2 (by omega) h
        have hjc : j < counts.length := (List.getElem?_eq_some_iff.mp hcount).1
        have hcj : counts[j] = count := by
          have := List.getElem?_eq_getElem hjc
          rw [hcount] at this
          exact (Option.some.inj this).symm
        have hd2j : data2[j]? = some (bytes ++ buffer.drop count) := by
          rw [hd2]
          have hjl : j < (data ++ [List.replicate count 0]).length := by
            rw [List.length_append, List.length_singleton]
            omega
          rw [List.take_zero, List.nil_append, Nat.zero_add, List.getElem?_set_self hjl]
        refine ⟨bytes :: groups, by simp [hgl], ?_, ?_, ?_, ?_, ?_⟩
        · rw [List.drop_eq_getElem_cons hjc, List.take_succ_cons, List.map_cons, hmap, hlen,
            hcj]
        · rw [List.flatten_cons, hs, hs2, List.append_assoc]
        · intro j1 hj1
          rw [hlow j1 (by omega), hd2, List.getElem?_set_ne (by omega),
            List.getElem?_append_left (by omega)]
        · intro t group hg
          cases t with
          | zero =>
            simp only [List.getElem?_cons_zero, Option.some.injEq] at hg
            subst hg
            refine ⟨bytes ++ buffer.drop count, ?_, by simp⟩
            rw [Nat.add_zero, hlow j (by omega), hd2j]
          | succ t1 =>
            simp only [List.getElem?_cons_succ] at hg
            obtain ⟨buffer1, hb1, ht1⟩ := hup t1 group hg
            exact ⟨buffer1, by rw [show j + (t1 + 1) = j + 1 + t1 by omega]; exact hb1, ht1⟩
        · rw [hr, hr2, groupWrites, applyWrites_append]
          have : addresses.getD j 0 = address := by
            rw [List.getD_eq_getElem?_getD, haddress]; rfl
          rw [this]
      | readError st => rw [hb] at h; cases h
      | undefined => rw [hb] at h; cases h
    · cases h

theorem readWord_some (s s1 : List Nat) (w : Nat) (h : readWord s = some (w, s1)) :
    ∃ b0 b1, s = [b0, b1] ++ s1 ∧ w = b0 + 256 * b1 := by
  unfold readWord at h
  split at h
  · rename_i b0 b1 s2 hread
    obtain ⟨-, hb, hrest⟩ := istreamRead_some _ _ _ _ hread
    simp only [Option.some.injEq, Prod.mk.injEq] at h
    refine ⟨b0, b1, ?_, h.1.symm⟩
    rw [← h.2, hb, hrest, List.take_append_drop]
  · cases h

theorem loadWords_consumes (k i : Nat) (s v s1 v1 : List Nat)
    (h : loadWords k i s v = .ok (s1, v1)) : ∃ ws, ws.length = 2 * k ∧ s = ws ++ s1 := by
  induction k generalizing i s v with
  | zero =>
    simp only [loadWords, ReadOutcome.ok.injEq, Prod.mk.injEq] at h
    exact ⟨[], rfl, by simp [h.1]⟩
  | succ n ih =>
    rw [loadWords] at h
    split at h
    · cases h
    · rename_i word s2 hread
      split at h
      · obtain ⟨ws, hlen, hs2⟩ := ih _ _ _ h
        obtain ⟨b0, b1, hs, -⟩ := readWord_some _ _ _ hread
        refine ⟨[b0, b1] ++ ws, by simp [hlen]; omega, ?_⟩
        rw [hs, hs2, List.append_assoc]
      · cases h

/-- The steps of a call of `loadDataFile` that returns true. -/
theorem loadDataFile_ok (infile : Option (List Nat)) (sd : SaveData) (ram : Memory)
    (r : LoadDataResult) (h : loadDataFile infile sd ram = some r) (hok : r.ok = true) :
    ∃ (s s1 s2 s3 s4 s5 counts addresses : List Nat) (N M : Nat) (data : List (List Nat)),
      infile = some s ∧ readWord s = some (N, s1) ∧
      loadWords N 0 s1 sd._counts = .ok (s2, counts) ∧ readWord s2 = some (M, s3) ∧
      loadWords M 0 s3 sd._addresses = .ok (s4, addresses) ∧
      counts.length = addresses.length ∧
      loadGroups addresses.length 0 counts addresses s4 sd._data ram = .ok (s5, data, r.ram) ∧
      r.saveData._counts = counts ∧ r.saveData._addresses = addresses ∧
      r.saveData._data = data := by
  unfold loadDataFile at h
  simp only at h
  split at h
  · cases h; cases hok
  · rename_i s
    split at h
    · cases h; cases hok
    · rename_i N s1 hN
      split at h
      · cases h
      · cases h; cases hok
      · rename_i s2 counts hcounts
        split at h
        · cases h; cases hok
        · rename_i M s3 hM
          split at h
          · cases h
          · cases h; cases hok
          · rename_i s4 addresses haddresses
            split at h
            · cases h; cases hok
            · rename_i hcheck
              split at h
              · cases h
              · cases h; cases hok
              · rename_i s5 data ram1 hgroups
                cases h
                refine ⟨s, s1, s2, s3, s4, s5, counts, addresses, N, M, data, rfl, hN, hcounts,
                  hM, haddresses, ?_, hgroups, rfl, rfl, rfl⟩
                by_contra hne
                exact hcheck (Or.inr hne)

/-! ### C21 -/

/-- C21. After a successful `loadDataFile` the file is made of the two element counts with the
counts and addresses, then the data bytes of the groups, group `j` of `byteCounts[j]` bytes,
one group for every watch index. For every watch index `j` and every offset
`i < byteCounts[j]`, `snapshotBytes[j][i]` is the `i`-th data byte of group `j`, and that
byte has been written to the memory store at `watchAddresses[j] + i`: the RAM is what the
calls of `setRAM` for all data bytes, in the order of the file, make of it (`setRAM` reduces
the address modulo 2^16). When no two of these writes go to the same address (watch ranges
that do not overlap), the RAM then holds every data byte at its address. -/
theorem loadDataFile_stores (bytes : List Nat) (sd : SaveData) (ram : Memory)
    (r : LoadDataResult) (h : loadDataFile (some bytes) sd ram = some r)
    (hok : r.ok = true) :
    ∃ (n0 n1 m0 m1 : Nat) (cs ws : List Nat) (groups : List (List Nat)) (rest : List Nat),
      bytes = [n0, n1] ++ cs ++ [m0, m1] ++ ws ++ groups.flatten ++ rest ∧
      cs.length = 2 * (n0 + 256 * n1) ∧ ws.length = 2 * (m0 + 256 * m1) ∧
      groups.map List.length = r.saveData._counts ∧
      groups.length = r.saveData._addresses.length ∧
      r.ram = applyWrites ram (groupWrites r.saveData._addresses 0 groups) ∧
      ∀ (j i byte : Nat) (group : List Nat), groups[j]? = some group →
        group[i]? = some byte →
        (∃ buffer, r.saveData._data[j]? = some buffer ∧ buffer[i]? = some byte) ∧
        ∃ address, r.saveData._addresses[j]? = some address ∧
          (address + i, byte) ∈ groupWrites r.saveData._addresses 0 groups ∧
          (((groupWrites r.saveData._addresses 0 groups).map
              (fun w => w.1 % 65536)).Nodup →
            r.ram ((address + i) % 65536) = byte) := by
  obtain ⟨s, s1, s2, s3, s4, s5, counts, addresses, N, M, data, hs, hN, hcounts, hM,
    haddresses, hlen, hgroups, hrc, hra, hrd⟩ := loadDataFile_ok _ sd ram r h hok
  cases hs
  obtain ⟨n0, n1, hs0, hNv⟩ := readWord_some _ _ _ hN
  obtain ⟨m0, m1, hs2, hMv⟩ := readWord_some _ _ _ hM
  obtain ⟨cs, hcs, hs1⟩ := loadWords_consumes _ _ _ _ _ _ hcounts
  obtain ⟨ws, hws, hs3⟩ := loadWords_consumes _ _ _ _ _ _ haddresses
  obtain ⟨groups, hgl, hmap, hs4, -, hup, hr⟩ :=
    loadGroups_ok _ _ _ _ _ _ _ _ _ _ (Nat.zero_le _) hgroups
  have hmap1 : groups.map List.length = counts := by
    rw [hmap, List.drop_zero, ← hlen, List.take_length]
  refine ⟨n0, n1, m0, m1, cs, ws, groups, s5, ?_, by rw [hcs, hNv], by rw [hws, hMv], ?_, ?_,
    ?_, ?_⟩
  · rw [hs0, hs1, hs2, hs3, hs4]
    simp only [List.append_assoc]
  · rw [hrc, hmap1]
  · rw [hra, hgl]
  · rw [hra, hr]
  · intro j i byte group hg hb
    have hjl : j < groups.length := (List.getElem?_eq_some_iff.mp hg).1
    have hil : i < group.length := (List.getElem?_eq_some_iff.mp hb).1
    constructor
    · obtain ⟨buffer, hbuf, htake⟩ := hup j group hg
      rw [Nat.zero_add] at hbuf
      refine ⟨buffer, by rw [hrd]; exact hbuf, ?_⟩
      rw [← hb, ← htake, List.getElem?_take_of_lt hil]
    · have hja : j < addresses.length := by omega
      have hmem := groupWrites_mem addresses 0 groups j i byte group hg hb
      rw [Nat.zero_add, List.getD_eq_getElem _ _ hja] at hmem
      refine ⟨addresses[j], by rw [hra]; exact List.getElem?_eq_getElem hja, ?_, ?_⟩
      · rw [hra]
        exact hmem
      · intro hnd
        rw [hra] at hnd
        rw [hr]
        exact applyWrites_nodup _ ram hnd _ hmem

/-- Witness for C21: the file of `exampleSlot` (groups 5, 6 and 7) loaded into
`configuredSlot`. -/
theorem loadDataFile_stores_witness :
    ∃ r, loadDataFile (some exampleSlotFile) configuredSlot zeroRam = some r ∧ r.ok = true ∧
    ∃ (n0 n1 m0 m1 : Nat) (cs ws : List Nat) (groups : List (List Nat)) (rest : List Nat),
      exampleSlotFile = [n0, n1] ++ cs ++ [m0, m1] ++ ws ++ groups.flatten ++ rest ∧
      cs.length = 2 * (n0 + 256 * n1) ∧ ws.length = 2 * (m0 + 256 * m1) ∧
      groups.map List.length = r.saveData._counts ∧
      groups.length = r.saveData._addresses.length ∧
      r.ram = applyWrites zeroRam (groupWrites r.saveData._addresses 0 groups) ∧
      ∀ (j i byte : Nat) (group : List Nat), groups[j]? = some group →
        group[i]? = some byte →
        (∃ buffer, r.saveData._data[j]? = some buffer ∧ buffer[i]? = some byte) ∧
        ∃ address, r.saveData._addresses[j]? = some address ∧
          (address + i, byte) ∈ groupWrites r.saveData._addresses 0 groups ∧
          (((groupWrites r.saveData._addresses 0 groups).map
              (fun w => w.1 % 65536)).Nodup →
            r.ram ((address + i) % 65536) = byte) :=
  ⟨_, rfl, by decide,
    loadDataFile_stores exampleSlotFile configuredSlot zeroRam _ rfl (by decide)⟩

/-! ## Lemmas on the checks of `saveDataFile` -/

theorem checkInner_ne (c d : Nat) (hc : c ≠ 0) (hd : d ≠ c) : checkInner c d c = false := by
  cases c with
  | zero => exact absurd rfl hc
  | succ n => rw [checkInner, if_pos hd]

/-- The check loop fails when the number of buffers is wrong and the loop runs at least once,
and when it meets a watch entry with a count that is not zero and a buffer of another
length. -/
theorem checkData_false (k j0 : Nat) (sd : SaveData)
    (h : (0 < k ∧ sd._data.length ≠ sd._addresses.length) ∨
      ∃ j, j0 ≤ j ∧ j < j0 + k ∧ sd._counts.getD j 0 ≠ 0 ∧
        (sd._data.getD j []).length ≠ sd._counts.getD j 0) :
    checkData k j0 sd = false := by
  induction k generalizing j0 with
  | zero =>
    rcases h with ⟨h0, -⟩ | ⟨j, h1, h2, -⟩
    · exact absurd h0 (by decide)
    · omega
  | succ n ih =>
    rw [checkData]
    split
    · rfl
    · rename_i hlen
      split
      · rfl
      · rename_i hinner
        apply ih
        rcases h with ⟨-, h1⟩ | ⟨j, h1, h2, h3, h4⟩
        · exact absurd h1 hlen
        · right
          refine ⟨j, ?_, by omega, h3, h4⟩
          by_contra hlt
          have hj : j = j0 := by omega
          subst hj
          exact hinner (checkInner_ne _ _ h3 h4)

/-- The header that `saveDataFile` writes before it checks the snapshot buffers. -/
theorem saveDataFile_header (sd : SaveData) (n : Nat) (hn : 1 ≤ n) (hn16 : n < 65536)
    (hc : sd._counts.length = n) (ha : sd._addresses.length = n)
    (hcheck : checkData n 0 sd = false) :
    saveDataFile true sd =
      { ok := false
        outfile := some (le16 n ++ sd._counts.flatMap le16 ++ le16 n
          ++ sd._addresses.flatMap le16) } := by
  have h1 : ¬ (sd._counts.length = 0 ∨ sd._counts.length ≠ sd._addresses.length) := by
    rw [hc, ha]
    omega
  have hmod : n % 65536 = n := Nat.mod_eq_of_lt hn16
  unfold saveDataFile
  simp only [Bool.true_eq_false, if_false, if_neg h1]
  rw [hc, ha, hmod, hcheck]
  simp only [if_true]
  rw [saveWords_eq n 0 _ _ (by omega), saveWords_eq n 0 _ _ (by omega), writeWord_eq,
    writeWord_eq]
  simp only [List.drop_zero, List.nil_append]
  rw [← hc, List.take_length, hc, ← ha, List.take_length]

/-! ### C22 -/

/-- C22, as stated, fails. `emptyBufferSlot` has one count and one address and no snapshot
buffer; `saveDataFile` fails on it ("data has not been initialised or loaded") after it has
written the eight bytes of the counts and addresses to the file. -/
theorem saveDataFile_validation_counterexample :
    saveDataFile true emptyBufferSlot =
      { ok := false, outfile := some [1, 0, 1, 0, 1, 0, 0x00, 0x01] } := by
  decide

/-- C22, amended. Whenever `saveDataFile` fails because the counts/addresses lengths mismatch
or are zero, no byte has been written to storage (the file could not be opened, or it has been
created and is empty); whenever it fails because the snapshot buffers are not initialised to
the declared counts (their number differs from the number `n` of watch addresses, or a buffer
has a length different from its count, which is not zero), it has written the two element
counts, the counts and the addresses, `4 + 4n` bytes, and no snapshot byte. -/
theorem saveDataFile_validation (sd : SaveData) :
    ((sd._counts.length = 0 ∨ sd._counts.length ≠ sd._addresses.length) →
      ∀ canOpen, (saveDataFile canOpen sd).ok = false ∧
        ((saveDataFile canOpen sd).outfile = none ∨
          (saveDataFile canOpen sd).outfile = some [])) ∧
    (∀ n, 1 ≤ n → n < 65536 → sd._counts.length = n → sd._addresses.length = n →
      (sd._data.length ≠ n ∨
        ∃ j, j < n ∧ sd._counts.getD j 0 ≠ 0 ∧
          (sd._data.getD j []).length ≠ sd._counts.getD j 0) →
      saveDataFile true sd =
        { ok := false
          outfile := some (le16 n ++ sd._counts.flatMap le16 ++ le16 n
            ++ sd._addresses.flatMap le16) } ∧
      (le16 n ++ sd._counts.flatMap le16 ++ le16 n
        ++ sd._addresses.flatMap le16).length = 4 + 4 * n) := by
  constructor
  · intro hbad canOpen
    cases canOpen with
    | false => exact ⟨rfl, Or.inl rfl⟩
    | true =>
      unfold saveDataFile
      simp only [Bool.true_eq_false, if_false, if_pos hbad, or_true, and_self]
  · intro n hn hn16 hc ha hbad
    constructor
    · apply saveDataFile_header sd n hn hn16 hc ha
      apply checkData_false
      rcases hbad with h | ⟨j, h1, h2, h3⟩
      · exact Or.inl ⟨by omega, by rw [ha]; exact h⟩
      · exact Or.inr ⟨j, by omega, by omega, h2, h3⟩
    · simp only [List.length_append, le16_length, flatMap_le16_length, hc, ha]
      omega

/-- Witness for C22, amended, at `unevenSlot` (two counts, one address) and at
`emptyBufferSlot`. -/
theorem saveDataFile_validation_witness :
    (unevenSlot._counts.length = 0 ∨ unevenSlot._counts.length ≠ unevenSlot._addresses.length) ∧
    (1 ≤ 1 ∧ 1 < 65536 ∧ emptyBufferSlot._counts.length = 1 ∧
      emptyBufferSlot._addresses.length = 1 ∧ emptyBufferSlot._data.length ≠ 1) ∧
    ((saveDataFile true unevenSlot).ok = false ∧
      ((saveDataFile true unevenSlot).outfile = none ∨
        (saveDataFile true unevenSlot).outfile = some [])) ∧
    (saveDataFile true emptyBufferSlot =
        { ok := false
          outfile := some (le16 1 ++ emptyBufferSlot._counts.flatMap le16 ++ le16 1
            ++ emptyBufferSlot._addresses.flatMap le16) } ∧
      (le16 1 ++ emptyBufferSlot._counts.flatMap le16 ++ le16 1
        ++ emptyBufferSlot._addresses.flatMap le16).length = 4 + 4 * 1) :=
  ⟨by decide, by decide,
    (saveDataFile_validation unevenSlot).1 (by decide) true,
    (saveDataFile_validation emptyBufferSlot).2 1 (by decide) (by decide) (by decide)
      (by decide) (Or.inl (by decide))⟩

/-! ### C23 -/

/-- C23, as stated, fails. In `zeroCountSlot` the snapshot buffer has length 1 and its count is
0; `saveDataFile` succeeds on it and writes the counts and addresses and no data byte. -/
theorem saveDataFile_rejects_counterexample :
    zeroCountSlot._data.length = zeroCountSlot._addresses.length ∧
    zeroCountSlot._data.map List.length ≠ zeroCountSlot._counts ∧
    saveDataFile true zeroCountSlot =
      { ok := true, outfile := some [1, 0, 0, 0, 1, 0, 0x00, 0x01] } := by
  decide

/-- C23, amended. `saveDataFile` fails for every slot in which the number of snapshot buffers
differs from the number of watch addresses or in which some `snapshotBytes[j]` has a length
different from `byteCounts[j]` and `byteCounts[j]` is not zero. -/
theorem saveDataFile_rejects (canOpen : Bool) (sd : SaveData)
    (h : sd._data.length ≠ sd._addresses.length ∨
      ∃ (j c : Nat) (buffer : List Nat), sd._counts[j]? = some c ∧
        sd._data[j]? = some buffer ∧ c ≠ 0 ∧ buffer.length ≠ c) :
    (saveDataFile canOpen sd).ok = false := by
  unfold saveDataFile
  split
  · rfl
  · split
    · rfl
    · rename_i hlen
      have hcheck : checkData sd._addresses.length 0 sd = false := by
        apply checkData_false
        rcases h with h | ⟨j, c, buffer, hc, hb, hc0, hne⟩
        · left
          refine ⟨?_, h⟩
          omega
        · right
          have hj : j < sd._counts.length := (List.getElem?_eq_some_iff.mp hc).1
          have hcd : sd._counts.getD j 0 = c := by
            rw [List.getD_eq_getElem?_getD, hc]; rfl
          have hbd : sd._data.getD j [] = buffer := by
            rw [List.getD_eq_getElem?_getD, hb]; rfl
          refine ⟨j, by omega, by omega, by rw [hcd]; exact hc0, by rw [hcd, hbd]; exact hne⟩
      simp only [hcheck, if_true]

/-- Witness for C23, amended, at `emptyBufferSlot` (no snapshot buffer for one address) and at
a slot with one count of 1 and a snapshot buffer of two bytes. -/
theorem saveDataFile_rejects_witness :
    emptyBufferSlot._data.length ≠ emptyBufferSlot._addresses.length ∧
    (saveDataFile true emptyBufferSlot).ok = false ∧
    (∃ (j c : Nat) (buffer : List Nat),
      ({ singleSlot with _data := [[1, 2]] } : SaveData)._counts[j]? = some c ∧
      ({ singleSlot with _data := [[1, 2]] } : SaveData)._data[j]? = some buffer ∧
      c ≠ 0 ∧ buffer.length ≠ c) ∧
    (saveDataFile true { singleSlot with _data := [[1, 2]] }).ok = false :=
  ⟨by decide, saveDataFile_rejects true emptyBufferSlot (Or.inl (by decide)),
    ⟨0, 1, [1, 2], rfl, rfl, by decide, by decide⟩,
    saveDataFile_rejects true { singleSlot with _data := [[1, 2]] }
      (Or.inr ⟨0, 1, [1, 2], rfl, rfl, by decide, by decide⟩)⟩

/-! ## Lemmas on `updateHighScore` -/

theorem mem_scanIndices (e : Endianness) (count i : Nat) :
    i ∈ scanIndices e count ↔ i < count := by
  cases e <;> simp [scanIndices]

/-- The copy loop, when every index is within the buffer: the bytes at the indices of the loop
are the live bytes afterwards, the other bytes are as before. -/
theorem copyLoop_ok (address : Nat) (ram : Memory) (ks buffer : List Nat)
    (h : ∀ k ∈ ks, k < buffer.length) :
    ∃ buffer1, copyLoop address ram ks buffer = some buffer1 ∧
      buffer1.length = buffer.length ∧
      ∀ k, (k ∈ ks → buffer1[k]? = some (getRAM ram (address + k))) ∧
        (k ∉ ks → buffer1[k]? = buffer[k]?) := by
  induction ks generalizing buffer with
  | nil =>
    exact ⟨buffer, rfl, rfl, fun k => ⟨fun hk => absurd hk (List.not_mem_nil k), fun _ => rfl⟩⟩
  | cons k0 ks ih =>
    have hk0 : k0 < buffer.length := h k0 (List.mem_cons_self _ _)
    obtain ⟨buffer1, h1, h2, h3⟩ := ih (buffer.set k0 (getRAM ram (address + k0))) (by
      intro k hk
      rw [List.length_set]
      exact h k (List.mem_cons_of_mem _ hk))
    refine ⟨buffer1, by rw [copyLoop, if_pos hk0, h1], by rw [h2, List.length_set], ?_⟩
    intro k
    constructor
    · intro hk
      by_cases hks : k ∈ ks
      · exact (h3 k).1 hks
      · rw [(h3 k).2 hks]
        have hkk : k = k0 := by
          rcases List.mem_cons.mp hk with h | h
          · exact h
          · exact absurd h hks
        subst hkk
        rw [List.getElem?_set_self hk0]
    · intro hk
      have hne : k0 ≠ k := fun h => hk (h ▸ List.mem_cons_self _ _)
      have hks : k ∉ ks := fun h => hk (List.mem_cons_of_mem _ h)
      rw [(h3 k).2 hks, List.getElem?_set_ne hne]

theorem scanLoop_cons (address : Nat) (ram : Memory) (data : List (List Nat)) (j i : Nat)
    (rest buffer : List Nat) (stored : Nat) (hbuf : data[j]? = some buffer)
    (hst : buffer[i]? = some stored) :
    scanLoop address ram data j (i :: rest) =
      if getRAM ram (address + i) < stored then ScanOutcome.smaller
      else if stored = 0 ∨ getRAM ram (address + i) > stored then
        match copyLoop address ram (i :: rest) buffer with
        | some buffer1 => ScanOutcome.update buffer1
        | none => ScanOutcome.undefined
      else scanLoop address ram data j rest := by
  rw [scanLoop, hbuf]
  simp only
  rw [hst]

/-- The scan passes the positions at which the snapshot byte is not 0 and equals the live
byte. -/
theorem scanLoop_prefix (address : Nat) (ram : Memory) (data : List (List Nat)) (j : Nat)
    (pre rest : List Nat)
    (h : ∀ i ∈ pre, ∃ buffer stored, data[j]? = some buffer ∧ buffer[i]? = some stored ∧
      stored ≠ 0 ∧ getRAM ram (address + i) = stored) :
    scanLoop address ram data j (pre ++ rest) = scanLoop address ram data j rest := by
  induction pre with
  | nil => rfl
  | cons i pre ih =>
    obtain ⟨buffer, stored, hbuf, hst, h0, heq⟩ := h i (List.mem_cons_self _ _)
    rw [List.cons_append, scanLoop_cons _ _ _ _ _ _ _ _ hbuf hst, if_neg (by omega),
      if_neg (by omega)]
    exact ih (fun q hq => h q (List.mem_cons_of_mem _ hq))

theorem scanLoop_smaller (address : Nat) (ram : Memory) (data : List (List Nat)) (j i : Nat)
    (rest buffer : List Nat) (stored : Nat) (hbuf : data[j]? = some buffer)
    (hst : buffer[i]? = some stored) (hlt : getRAM ram (address + i) < stored) :
    scanLoop address ram data j (i :: rest) = ScanOutcome.smaller := by
  rw [scanLoop_cons _ _ _ _ _ _ _ _ hbuf hst, if_pos hlt]

theorem scanLoop_update (address : Nat) (ram : Memory) (data : List (List Nat)) (j i : Nat)
    (rest buffer : List Nat) (stored : Nat) (hbuf : data[j]? = some buffer)
    (hst : buffer[i]? = some stored)
    (htrig : stored = 0 ∨ stored < getRAM ram (address + i))
    (hrange : ∀ k ∈ i :: rest, k < buffer.length) :
    ∃ buffer1, scanLoop address ram data j (i :: rest) = ScanOutcome.update buffer1 ∧
      buffer1.length = buffer.length ∧
      ∀ k, (k ∈ i :: rest → buffer1[k]? = some (getRAM ram (address + k))) ∧
        (k ∉ i :: rest → buffer1[k]? = buffer[k]?) := by
  obtain ⟨buffer1, h1, h2, h3⟩ := copyLoop_ok address ram (i :: rest) buffer hrange
  refine ⟨buffer1, ?_, h2, h3⟩
  rw [scanLoop_cons _ _ _ _ _ _ _ _ hbuf hst, if_neg (by omega), if_pos htrig, h1]

/-- The scan of positions at which the snapshot byte equals the live byte ends in an update
when it comes to a position with a stored 0. -/
theorem scanLoop_zero (address : Nat) (ram : Memory) (data : List (List Nat)) (j i : Nat)
    (pre post buffer : List Nat) (hbuf : data[j]? = some buffer)
    (hpre : ∀ q ∈ pre, ∃ stored, buffer[q]? = some stored ∧
      getRAM ram (address + q) = stored)
    (hst : buffer[i]? = some 0) (hpost : ∀ k ∈ post, k < buffer.length) :
    ∃ buffer1, scanLoop address ram data j (pre ++ i :: post) = ScanOutcome.update buffer1 := by
  have hi : i < buffer.length := (List.getElem?_eq_some_iff.mp hst).1
  induction pre with
  | nil =>
    obtain ⟨buffer1, h1, -⟩ := scanLoop_update address ram data j i post buffer 0 hbuf hst
      (Or.inl rfl) (by
        intro k hk
        rcases List.mem_cons.mp hk with h | h
        · rw [h]; exact hi
        · exact hpost k h)
    exact ⟨buffer1, h1⟩
  | cons q pre ih =>
    obtain ⟨stored, hq, heq⟩ := hpre q (List.mem_cons_self _ _)
    by_cases h0 : stored = 0
    · obtain ⟨buffer1, h1, -⟩ := scanLoop_update address ram data j q (pre ++ i :: post)
        buffer stored hbuf hq (Or.inl h0) (by
          intro k hk
          rcases List.mem_cons.mp hk with h | h
          · rw [h]; exact (List.getElem?_eq_some_iff.mp hq).1
          · rcases List.mem_append.mp h with h | h
            · obtain ⟨s, hs, -⟩ := hpre k (List.mem_cons_of_mem _ h)
              exact (List.getElem?_eq_some_iff.mp hs).1
            · rcases List.mem_cons.mp h with h | h
              · rw [h]; exact hi
              · exact hpost k h)
      exact ⟨buffer1, h1⟩
    · rw [List.cons_append, scanLoop_cons _ _ _ _ _ _ _ _ hbuf hq, if_neg (by omega),
        if_neg (by omega)]
      exact ih (fun k hk => hpre k (List.mem_cons_of_mem _ hk))

/-- The scan of a watch entry that agrees with the RAM runs to its end or ends in an
update. -/
theorem scanLoop_same (address : Nat) (ram : Memory) (data : List (List Nat)) (j : Nat)
    (is : List Nat)
    (h : ∀ i ∈ is, ∃ buffer stored, data[j]? = some buffer ∧ buffer[i]? = some stored ∧
      getRAM ram (address + i) = stored) :
    scanLoop address ram data j is = ScanOutcome.equal ∨
      ∃ buffer1, scanLoop address ram data j is = ScanOutcome.update buffer1 := by
  induction is with
  | nil => exact Or.inl rfl
  | cons i is ih =>
    obtain ⟨buffer, stored, hbuf, hst, heq⟩ := h i (List.mem_cons_self _ _)
    by_cases h0 : stored = 0
    · right
      obtain ⟨buffer1, h1, -⟩ := scanLoop_update address ram data j i is buffer stored hbuf hst
        (Or.inl h0) (by
          intro k hk
          obtain ⟨buffer2, s, hb2, hs, -⟩ := h k hk
          rw [hbuf] at hb2
          cases hb2
          exact (List.getElem?_eq_some_iff.mp hs).1)
      exact ⟨buffer1, h1⟩
    · rw [scanLoop_cons _ _ _ _ _ _ _ _ hbuf hst, if_neg (by omega), if_neg (by omega)]
      exact ih (fun k hk => h k (List.mem_cons_of_mem _ hk))

theorem compareLoop_entry (canOpen : Bool) (ram : Memory) (n j : Nat) (sd : SaveData)
    (count : Nat) (e : Endianness) (address : Nat) (hc : sd._counts[j]? = some count)
    (he : sd._endianness[j]? = some e) (ha : sd._addresses[j]? = some address) :
    compareLoop canOpen ram (n + 1) j sd =
      match scanLoop address ram sd._data j (scanIndices e count) with
      | .equal => compareLoop canOpen ram n (j + 1) sd
      | .smaller => some (sd, [])
      | .update buffer =>
        some ({ sd with _data := sd._data.set j buffer },
          saveHighScore canOpen (some { sd with _data := sd._data.set j buffer }))
      | .undefined => none := by
  rw [compareLoop, hc, he, ha]

theorem compareLoop_equal (canOpen : Bool) (ram : Memory) (n j : Nat) (sd : SaveData)
    (h : EntryEqual sd ram j) :
    compareLoop canOpen ram (n + 1) j sd = compareLoop canOpen ram n (j + 1) sd := by
  obtain ⟨count, e, address, hc, he, ha, hall⟩ := h
  have hscan := scanLoop_prefix address ram sd._data j (scanIndices e count) []
    (fun i hi => hall i ((mem_scanIndices e count i).mp hi))
  rw [List.append_nil] at hscan
  rw [compareLoop_entry canOpen ram n j sd count e address hc he ha, hscan]
  rfl

/-- The comparison pass goes past the watch entries that agree with the RAM and hold no 0. -/
theorem compareLoop_skip (canOpen : Bool) (ram : Memory) (d n j0 : Nat) (sd : SaveData)
    (h : ∀ j, j0 ≤ j → j < j0 + d → EntryEqual sd ram j) :
    compareLoop canOpen ram (d + n) j0 sd = compareLoop canOpen ram n (j0 + d) sd := by
  induction d generalizing j0 with
  | zero => rw [Nat.zero_add, Nat.add_zero]
  | succ d ih =>
    rw [show d + 1 + n = (d + n) + 1 by omega,
      compareLoop_equal canOpen ram (d + n) j0 sd (h j0 (by omega) (by omega)),
      ih (j0 + 1) (fun j h1 h2 => h j (by omega) (by omega)),
      show j0 + 1 + d = j0 + (d + 1) by omega]

/-- The comparison pass over watch entries that agree with the RAM goes past them or ends in
an update of one of them. -/
theorem compareLoop_same (canOpen : Bool) (ram : Memory) (d n j0 : Nat) (sd : SaveData)
    (h : ∀ j, j0 ≤ j → j < j0 + d → EntrySame sd ram j) :
    compareLoop canOpen ram (d + n) j0 sd = compareLoop canOpen ram n (j0 + d) sd ∨
      ∃ j1 buffer1, j1 < j0 + d ∧
        compareLoop canOpen ram (d + n) j0 sd =
          some ({ sd with _data := sd._data.set j1 buffer1 },
            [saveDataFile canOpen { sd with _data := sd._data.set j1 buffer1 }]) := by
  induction d generalizing j0 with
  | zero =>
    left
    rw [Nat.zero_add, Nat.add_zero]
  | succ d ih =>
    obtain ⟨count, e, address, hc, he, ha, hall⟩ := h j0 (by omega) (by omega)
    rw [show d + 1 + n = (d + n) + 1 by omega,
      compareLoop_entry canOpen ram (d + n) j0 sd count e address hc he ha]
    rcases scanLoop_same address ram sd._data j0 (scanIndices e count)
      (fun i hi => hall i ((mem_scanIndices e count i).mp hi)) with hs | ⟨buffer1, hs⟩
    · rw [hs]
      simp only
      rcases ih (j0 + 1) (fun j h1 h2 => h j (by omega) (by omega)) with h1 | ⟨j1, b1, hj1, h1⟩
      · left
        rw [h1, show j0 + 1 + d = j0 + (d + 1) by omega]
      · right
        exact ⟨j1, b1, by omega, h1⟩
    · right
      rw [hs]
      exact ⟨j0, buffer1, by omega, rfl⟩

theorem compareLoop_fields (canOpen : Bool) (ram : Memory) (n j : Nat) (sd sd1 : SaveData)
    (saved : List SaveDataResult) (h : compareLoop canOpen ram n j sd = some (sd1, saved)) :
    sd1._initialised = sd._initialised ∧ sd1._updaterate = sd._updaterate ∧
      sd1._counts = sd._counts ∧ sd1._addresses = sd._addresses ∧
      sd1._endianness = sd._endianness := by
  induction n generalizing j with
  | zero =>
    simp only [compareLoop, Option.some.injEq, Prod.mk.injEq] at h
    rw [← h.1]
    exact ⟨rfl, rfl, rfl, rfl, rfl⟩
  | succ n ih =>
    rw [compareLoop] at h
    split at h
    · split at h
      · exact ih _ h
      · simp only [Option.some.injEq, Prod.mk.injEq] at h
        rw [← h.1]
        exact ⟨rfl, rfl, rfl, rfl, rfl⟩
      · simp only [Option.some.injEq, Prod.mk.injEq] at h
        rw [← h.1]
        exact ⟨rfl, rfl, rfl, rfl, rfl⟩
      · cases h
    · cases h

/-- A call of `updateHighScore` on an initialised entry whose update rate the counter has
reached is a comparison pass. -/
theorem updateHighScore_pass (canOpen : Bool) (frameCount : Int) (sd : SaveData)
    (ram : Memory) (hinit : sd._initialised = true) (hrate : sd._updaterate ≤ frameCount) :
    updateHighScore canOpen frameCount (some sd) ram =
      (compareLoop canOpen ram sd._addresses.length 0 sd).map
        (fun p => { frameCount := 0, entry := some p.1, saved := p.2 }) := by
  unfold updateHighScore
  simp only [hinit, Bool.true_eq_false, if_false]
  rw [if_neg (by omega)]
  cases compareLoop canOpen ram sd._addresses.length 0 sd with
  | none => rfl
  | some p => rfl

/-- The comparison pass up to the watch entry `j`, when the entries before it agree with the
RAM and hold no 0. -/
theorem compareLoop_upto (canOpen : Bool) (ram : Memory) (sd : SaveData) (j : Nat)
    (hj : j < sd._addresses.length) (hprev : ∀ j1, j1 < j → EntryEqual sd ram j1) :
    compareLoop canOpen ram sd._addresses.length 0 sd =
      compareLoop canOpen ram (sd._addresses.length - j - 1 + 1) j sd := by
  have := compareLoop_skip canOpen ram j (sd._addresses.length - j - 1 + 1) 0 sd
    (fun j1 _ h2 => hprev j1 (by omega))
  rw [Nat.zero_add] at this
  rw [← this]
  congr 1
  omega

/-! ### C24 -/

/-- C24, as stated, fails. In `bigSlot` (one big-endian entry, snapshot 0, 5) with the live
bytes 0, 4 the first position in scan order at which the live byte differs from the stored
byte is the second one, and the live byte is smaller there; the pass nevertheless stops at the
first position, whose stored byte is 0, copies both live bytes into the snapshot and saves the
slot. -/
theorem updateHighScore_smaller_counterexample :
    getRAM lowRam 0x0100 = 0 ∧ getRAM lowRam 0x0101 = 4 ∧
    updateHighScore true 60 (some bigSlot) lowRam =
      some { frameCount := 0
             entry := some { bigSlot with _data := [[0, 4]] }
             saved := [saveDataFile true { bigSlot with _data := [[0, 4]] }] } ∧
    ({ bigSlot with _data := [[0, 4]] } : SaveData) ≠ bigSlot := by
  decide

/-- C24, amended. In a comparison pass of `updateHighScore`, if at the first position in scan
order (watch indices in order; the positions of an entry in the order of `scanIndices`) where
the live memory byte differs from the stored snapshot byte the live byte is smaller, and no
position scanned before it holds a stored 0, then the slot is left unchanged and nothing is
persisted. -/
theorem updateHighScore_smaller (canOpen : Bool) (frameCount : Int) (sd : SaveData)
    (ram : Memory) (j count : Nat) (e : Endianness) (address : Nat)
    (buffer pre post : List Nat) (i stored : Nat)
    (hinit : sd._initialised = true) (hrate : sd._updaterate ≤ frameCount)
    (hprev : ∀ j1, j1 < j → EntryEqual sd ram j1)
    (hc : sd._counts[j]? = some count) (he : sd._endianness[j]? = some e)
    (ha : sd._addresses[j]? = some address) (hbuf : sd._data[j]? = some buffer)
    (hscan : scanIndices e count = pre ++ i :: post)
    (hpre : ∀ q ∈ pre, ∃ s, buffer[q]? = some s ∧ s ≠ 0 ∧ getRAM ram (address + q) = s)
    (hst : buffer[i]? = some stored) (hlt : getRAM ram (address + i) < stored) :
    updateHighScore canOpen frameCount (some sd) ram =
      some { frameCount := 0, entry := some sd, saved := [] } := by
  have hj : j < sd._addresses.length := (List.getElem?_eq_some_iff.mp ha).1
  rw [updateHighScore_pass canOpen frameCount sd ram hinit hrate,
    compareLoop_upto canOpen ram sd j hj hprev,
    compareLoop_entry canOpen ram _ j sd count e address hc he ha, hscan,
    scanLoop_prefix address ram sd._data j pre (i :: post)
      (fun q hq => by
        obtain ⟨s, h1, h2, h3⟩ := hpre q hq
        exact ⟨buffer, s, hbuf, h1, h2, h3⟩),
    scanLoop_smaller address ram sd._data j i post buffer stored hbuf hst hlt]
  rfl

theorem scoreSlot_entry_equal (ram : Memory) (h0 : ram 0x0100 = 3) (h1 : ram 0x0101 = 9) :
    ∀ j1, j1 < 1 → EntryEqual scoreSlot ram j1 := by
  intro j1 hj1
  have hj : j1 = 0 := by omega
  subst hj
  refine ⟨2, Endianness.Little, 0x0100, rfl, rfl, rfl, ?_⟩
  intro i hi
  have hcases : i = 0 ∨ i = 1 := by omega
  rcases hcases with h | h
  · subst h
    exact ⟨[3, 9], 3, rfl, rfl, by decide, h0⟩
  · subst h
    exact ⟨[3, 9], 9, rfl, rfl, by decide, h1⟩

/-- Witness for C24, amended: `scoreSlot` with the RAM `lowerRam`. The first entry (3, 9)
equals the live bytes, the second entry (8, 1, big endian) has the first byte equal and the
second live byte, 0, smaller than the stored 1. -/
theorem updateHighScore_smaller_witness :
    updateHighScore true 2 (some scoreSlot) lowerRam =
      some { frameCount := 0, entry := some scoreSlot, saved := [] } :=
  updateHighScore_smaller true 2 scoreSlot lowerRam 1 2 Endianness.Big 0x0200 [8, 1] [0] []
    1 1 rfl (by decide) (scoreSlot_entry_equal lowerRam rfl rfl) rfl rfl rfl rfl rfl
    (fun q hq => by
      have hq0 : q = 0 := by simpa using hq
      subst hq0
      exact ⟨8, rfl, by decide, rfl⟩)
    rfl (by decide)

/-! ## Lemmas on the call of `saveDataFile` that an update makes -/

/-- In a comparison pass, when the scan comes to a position whose stored snapshot byte is 0,
all positions scanned before it holding a snapshot byte equal to the live byte, an update is
triggered, at this position or at an earlier one with a stored 0, and `saveDataFile` is called
once, on the updated slot, whatever the live byte at that position is. -/
theorem wildcard_calls_save (canOpen : Bool) (frameCount : Int) (sd : SaveData)
    (ram : Memory) (j count : Nat) (e : Endianness) (address : Nat)
    (buffer pre post : List Nat) (i : Nat)
    (hinit : sd._initialised = true) (hrate : sd._updaterate ≤ frameCount)
    (hprev : ∀ j1, j1 < j → EntrySame sd ram j1)
    (hc : sd._counts[j]? = some count) (he : sd._endianness[j]? = some e)
    (ha : sd._addresses[j]? = some address) (hbuf : sd._data[j]? = some buffer)
    (hlen : count ≤ buffer.length)
    (hscan : scanIndices e count = pre ++ i :: post)
    (hpre : ∀ q ∈ pre, ∃ s, buffer[q]? = some s ∧ getRAM ram (address + q) = s)
    (hst : buffer[i]? = some 0) :
    ∃ j1 buffer1, j1 ≤ j ∧
      updateHighScore canOpen frameCount (some sd) ram =
        some { frameCount := 0
               entry := some { sd with _data := sd._data.set j1 buffer1 }
               saved := [saveDataFile canOpen { sd with _data := sd._data.set j1 buffer1 }] } := by
  have hj : j < sd._addresses.length := (List.getElem?_eq_some_iff.mp ha).1
  rw [updateHighScore_pass canOpen frameCount sd ram hinit hrate]
  have hsplit : sd._addresses.length = j + (sd._addresses.length - j - 1 + 1) := by omega
  rcases compareLoop_same canOpen ram j (sd._addresses.length - j - 1 + 1) 0 sd
    (fun j1 _ h2 => hprev j1 (by omega)) with h1 | ⟨j1, buffer1, hj1, h1⟩
  · rw [← hsplit, Nat.zero_add] at h1
    obtain ⟨buffer1, hb1⟩ := scanLoop_zero address ram sd._data j i pre post buffer hbuf hpre
      hst (fun k hk => by
        have : k ∈ scanIndices e count := by
          rw [hscan]
          exact List.mem_append_right _ (List.mem_cons_of_mem _ hk)
        have := (mem_scanIndices e count k).mp this
        omega)
    refine ⟨j, buffer1, Nat.le_refl _, ?_⟩
    rw [h1, compareLoop_entry canOpen ram _ j sd count e address hc he ha, hscan, hb1]
    rfl
  · rw [← hsplit] at h1
    refine ⟨j1, buffer1, by omega, ?_⟩
    rw [h1]
    rfl

/-- When a comparison pass triggers an update at the watch index `j` and the scan position
`i`, the snapshot bytes of index `j` at the positions from `i` to the end of the scan are the
live bytes afterwards, every other snapshot byte is unchanged, and `saveDataFile` is called
once, on the updated slot. Nothing is assumed about the watch entries after `j`. -/
theorem update_calls_save (canOpen : Bool) (frameCount : Int) (sd : SaveData)
    (ram : Memory) (j count : Nat) (e : Endianness) (address : Nat)
    (buffer pre post : List Nat) (i stored : Nat)
    (hinit : sd._initialised = true) (hrate : sd._updaterate ≤ frameCount)
    (hprev : ∀ j1, j1 < j → EntryEqual sd ram j1)
    (hc : sd._counts[j]? = some count) (he : sd._endianness[j]? = some e)
    (ha : sd._addresses[j]? = some address) (hbuf : sd._data[j]? = some buffer)
    (hlen : count ≤ buffer.length)
    (hscan : scanIndices e count = pre ++ i :: post)
    (hpre : ∀ q ∈ pre, ∃ s, buffer[q]? = some s ∧ s ≠ 0 ∧ getRAM ram (address + q) = s)
    (hst : buffer[i]? = some stored)
    (htrig : stored = 0 ∨ stored < getRAM ram (address + i)) :
    ∃ buffer1,
      updateHighScore canOpen frameCount (some sd) ram =
        some { frameCount := 0
               entry := some { sd with _data := sd._data.set j buffer1 }
               saved := [saveDataFile canOpen { sd with _data := sd._data.set j buffer1 }] } ∧
      buffer1.length = buffer.length ∧
      ∀ k, (k ∈ i :: post → buffer1[k]? = some (getRAM ram (address + k))) ∧
        (k ∉ i :: post → buffer1[k]? = buffer[k]?) := by
  have hj : j < sd._addresses.length := (List.getElem?_eq_some_iff.mp ha).1
  obtain ⟨buffer1, h1, h2, h3⟩ := scanLoop_update address ram sd._data j i post buffer stored
    hbuf hst htrig (fun k hk => by
      have : k ∈ scanIndices e count := by
        rw [hscan]
        exact List.mem_append_right _ hk
      have := (mem_scanIndices e count k).mp this
      omega)
  refine ⟨buffer1, ?_, h2, h3⟩
  rw [updateHighScore_pass canOpen frameCount sd ram hinit hrate,
    compareLoop_upto canOpen ram sd j hj hprev,
    compareLoop_entry canOpen ram _ j sd count e address hc he ha, hscan,
    scanLoop_prefix address ram sd._data j pre (i :: post)
      (fun q hq => by
        obtain ⟨s, h1, h2, h3⟩ := hpre q hq
        exact ⟨buffer, s, hbuf, h1, h2, h3⟩),
    h1]
  rfl

/-! ### C27 -/

theorem updateHighScore_skip (canOpen : Bool) (frameCount : Int) (sd : SaveData)
    (ram : Memory) (hinit : sd._initialised = true) (hrate : frameCount < sd._updaterate) :
    updateHighScore canOpen frameCount (some sd) ram =
      some { frameCount := frameCount + 1, entry := some sd, saved := [] } := by
  unfold updateHighScore
  simp only [hinit, Bool.true_eq_false, if_false]
  rw [if_pos hrate]

theorem updateCalls_skip (canOpen : Bool) (rams : List Memory) (k : Nat) (sd : SaveData)
    (hinit : sd._initialised = true) (hrate : (k : Int) + rams.length ≤ sd._updaterate) :
    updateCalls canOpen rams k (some sd) =
      some { frameCount := (k : Int) + rams.length, entry := some sd, saved := [] } := by
  induction rams generalizing k with
  | nil => simp [updateCalls]
  | cons ram rams ih =>
    simp only [List.length_cons, Nat.cast_add, Nat.cast_one] at hrate ⊢
    rw [updateCalls, updateHighScore_skip canOpen k sd ram hinit (by omega)]
    simp only
    have := ih (k + 1) (by push_cast; omega)
    push_cast at this
    rw [this]
    simp only [List.nil_append, Option.some.injEq, UpdateResult.mk.injEq, and_true]
    omega

/-- C27. For an initialised, configured slot with update interval `R`, starting from the
counter value 0 (the initial value, and the value that every comparison pass leaves), the next
`R` calls of `updateHighScore` return without comparing and without changing the slot, whatever
the RAM holds, and the call after them is a comparison pass; the pass leaves the counter at 0
and the slot initialised with the same update interval, so that exactly `R` calls are skipped
between any two consecutive comparison passes. -/
theorem updateHighScore_cadence (canOpen : Bool) (sd : SaveData) (R : Nat)
    (hinit : sd._initialised = true) (hR : sd._updaterate = (R : Int)) :
    (∀ rams : List Memory, rams.length = R →
      updateCalls canOpen rams 0 (some sd) =
        some { frameCount := (R : Int), entry := some sd, saved := [] }) ∧
    (∀ (k : Nat) (ram : Memory), k < R →
      updateHighScore canOpen (k : Int) (some sd) ram =
        some { frameCount := (k : Int) + 1, entry := some sd, saved := [] }) ∧
    (∀ ram : Memory,
      updateHighScore canOpen (R : Int) (some sd) ram =
        (compareLoop canOpen ram sd._addresses.length 0 sd).map
          (fun p => { frameCount := 0, entry := some p.1, saved := p.2 })) ∧
    (∀ (ram : Memory) (r : UpdateResult),
      updateHighScore canOpen (R : Int) (some sd) ram = some r →
      r.frameCount = 0 ∧
        ∃ sd1, r.entry = some sd1 ∧ sd1._initialised = true ∧ sd1._updaterate = (R : Int)) := by
  refine ⟨?_, ?_, ?_, ?_⟩
  · intro rams hlen
    have := updateCalls_skip canOpen rams 0 sd hinit (by rw [hR, hlen]; simp)
    rw [hlen] at this
    simpa using this
  · intro k ram hk
    exact updateHighScore_skip canOpen k sd ram hinit (by rw [hR]; exact_mod_cast hk)
  · intro ram
    exact updateHighScore_pass canOpen R sd ram hinit (by rw [hR])
  · intro ram r hr
    rw [updateHighScore_pass canOpen R sd ram hinit (by rw [hR])] at hr
    cases hp : compareLoop canOpen ram sd._addresses.length 0 sd with
    | none => rw [hp] at hr; cases hr
    | some p =>
      rw [hp] at hr
      simp only [Option.map_some', Option.some.injEq] at hr
      obtain ⟨h1, h2, -⟩ := compareLoop_fields canOpen ram _ _ sd p.1 p.2 hp
      rw [← hr]
      exact ⟨rfl, p.1, rfl, by rw [h1, hinit], by rw [h2, hR]⟩

/-- Witness for C27 at `scoreSlot`, whose update interval is 2. -/
theorem updateHighScore_cadence_witness :
    (∀ rams : List Memory, rams.length = 2 →
      updateCalls true rams 0 (some scoreSlot) =
        some { frameCount := ((2 : Nat) : Int), entry := some scoreSlot, saved := [] }) ∧
    (∀ (k : Nat) (ram : Memory), k < 2 →
      updateHighScore true (k : Int) (some scoreSlot) ram =
        some { frameCount := (k : Int) + 1, entry := some scoreSlot, saved := [] }) ∧
    (∀ ram : Memory,
      updateHighScore true ((2 : Nat) : Int) (some scoreSlot) ram =
        (compareLoop true ram scoreSlot._addresses.length 0 scoreSlot).map
          (fun p => { frameCount := 0, entry := some p.1, saved := p.2 })) ∧
    (∀ (ram : Memory) (r : UpdateResult),
      updateHighScore true ((2 : Nat) : Int) (some scoreSlot) ram = some r →
      r.frameCount = 0 ∧
        ∃ sd1, r.entry = some sd1 ∧ sd1._initialised = true ∧
          sd1._updaterate = ((2 : Nat) : Int)) :=
  updateHighScore_cadence true scoreSlot 2 rfl rfl

/-! ## Lemmas on `sendFrame` -/

theorem scanLines_add (a b : Int) (m n : Nat) (hb : b = a + m) :
    scanLines a (m + n) = scanLines a m ++ scanLines b n := by
  induction m generalizing a with
  | zero =>
    have : b = a := by simpa using hb
    rw [Nat.zero_add, this]
    rfl
  | succ m ih =>
    rw [show m + 1 + n = (m + n) + 1 by omega, scanLines, scanLines, List.cons_append,
      ih (a + 1) (by push_cast at hb; omega)]

theorem scanLines_length (a : Int) (n : Nat) : (scanLines a n).length = n := by
  induction n generalizing a with
  | zero => rfl
  | succ n ih => rw [scanLines, List.length_cons, ih]

theorem replicate_true_append (m n : Nat) :
    List.replicate m true ++ List.replicate n true = List.replicate (m + n) true := by
  induction m with
  | zero => rw [Nat.zero_add]; rfl
  | succ m ih =>
    rw [show m + 1 + n = (m + n) + 1 by omega, List.replicate_succ, List.replicate_succ,
      List.cons_append, ih]

theorem sendFrames_chain (V : Int) (P fb : Nat) (msg : List Nat) (len addr : Nat)
    (l1 l2 : List Int) (s s1 s2 : Sender) (bs1 bs2 : List Bool)
    (h1 : sendFrames V P fb msg len addr l1 s = (bs1, s1))
    (h2 : sendFrames V P fb msg len addr l2 s1 = (bs2, s2)) :
    sendFrames V P fb msg len addr (l1 ++ l2) s = (bs1 ++ bs2, s2) := by
  induction l1 generalizing s bs1 with
  | nil =>
    simp only [sendFrames, Prod.mk.injEq] at h1
    obtain ⟨hb, hs⟩ := h1
    subst hb
    subst hs
    exact h2
  | cons y ys ih =>
    rw [sendFrames] at h1
    simp only [Prod.mk.injEq] at h1
    have := ih (sendFrame V P y fb msg len addr s).2 _ (Prod.ext rfl h1.2)
    rw [List.cons_append, sendFrames, this, ← h1.1]
    rfl

theorem sendFrame_idle (V : Int) (P : Nat) (y : Int) (fb : Nat) (msg : List Nat)
    (len addr : Nat) (s : Sender) (h : y ≠ triggerLine V P s) :
    sendFrame V P y fb msg len addr s = (true, s) := by
  unfold triggerLine at h
  unfold sendFrame
  cases hs : s.loaderState <;> rw [hs] at h <;> simp only at h ⊢ <;> rw [if_neg h]

/-- The calls at scan lines before or after the line the state waits for do nothing. -/
theorem sendFrames_idle (V : Int) (P fb : Nat) (msg : List Nat) (len addr : Nat) (a : Int)
    (n : Nat) (s : Sender) (h : triggerLine V P s < a ∨ a + n ≤ triggerLine V P s) :
    sendFrames V P fb msg len addr (scanLines a n) s = (List.replicate n true, s) := by
  induction n generalizing a with
  | zero => rfl
  | succ n ih =>
    rw [scanLines, sendFrames, sendFrame_idle V P a fb msg len addr s (by push_cast at h; omega)]
    simp only
    rw [ih (a + 1) (by push_cast at h; omega)]
    rfl

/-- The calls from the line `a` up to the line `a + d` that the state waits for: the first
`d` do nothing, the last one acts. -/
theorem sendFrames_wait (V : Int) (P fb : Nat) (msg : List Nat) (len addr : Nat) (a : Int)
    (d : Nat) (s s1 : Sender) (ht : triggerLine V P s = a + d)
    (hstep : sendFrame V P (a + d) fb msg len addr s = (true, s1)) :
    sendFrames V P fb msg len addr (scanLines a (d + 1)) s = (List.replicate (d + 1) true, s1) := by
  rw [scanLines_add a (a + d) d 1 rfl, ← replicate_true_append]
  apply sendFrames_chain V P fb msg len addr _ _ s s s1
  · exact sendFrames_idle V P fb msg len addr a d s (Or.inr (by omega))
  · rw [scanLines, scanLines, sendFrames, sendFrames, hstep]
    rfl

theorem copyPayload_length (P : Nat) (msg : List Nat) (k i : Nat) (pl : List Nat) :
    (copyPayload P msg k i pl).length = pl.length := by
  induction k generalizing i pl with
  | zero => rfl
  | succ k ih => rw [copyPayload, ih, List.length_set]

/-- The payload phase: from the state `Message` with `m` bytes sent and `r + 1` bytes to go,
the `8 * (r + 1)` lines from `VSYNC_START + 31 + 8 * m` on send the rest of the payload. -/
theorem sendFrames_message (V : Int) (P fb : Nat) (msg : List Nat) (len addr : Nat)
    (pl : List Nat) (hpl : pl.length = P) (r m c : Nat) (port : List Nat)
    (hm : m + (r + 1) = P) :
    sendFrames V P fb msg len addr (scanLines (V + 31 + 8 * (m : Int)) (8 * (r + 1)))
        { loaderState := LoaderState.Message, payload := pl, msgIdx := m, checksum := c,
          port := port } =
      (List.replicate (8 * (r + 1)) true,
        { loaderState := LoaderState.LastByte, payload := pl, msgIdx := 0,
          checksum := (c + (pl.drop m).sum) % 256, port := port ++ pl.drop m }) := by
  induction r generalizing m c port with
  | zero =>
    have hmP : m + 1 = P := by omega
    have hml : m < pl.length := by omega
    have hdrop : pl.drop m = [pl[m]] := by
      rw [List.drop_eq_getElem_cons hml, List.drop_of_length_le (by omega)]
    have hstep : sendFrame V P (V + 31 + 8 * (m : Int) + (7 : Nat)) fb msg len addr
        { loaderState := LoaderState.Message, payload := pl, msgIdx := m, checksum := c,
          port := port } =
        (true, { loaderState := LoaderState.LastByte, payload := pl, msgIdx := 0,
                 checksum := (c + (pl.drop m).sum) % 256, port := port ++ pl.drop m }) := by
      unfold sendFrame
      simp only
      rw [if_pos (by push_cast; omega), if_pos hmP, hdrop]
      simp [sendByte, setIN, List.getElem?_eq_getElem hml]
    exact sendFrames_wait V P fb msg len addr _ 7 _ _ (by simp only [triggerLine]; push_cast; omega)
      hstep
  | succ r ih =>
    have hmP : m + 1 ≠ P := by omega
    have hml : m < pl.length := by omega
    have hdrop : pl.drop m = pl[m] :: pl.drop (m + 1) := List.drop_eq_getElem_cons hml
    have hstep : sendFrame V P (V + 31 + 8 * (m : Int) + (7 : Nat)) fb msg len addr
        { loaderState := LoaderState.Message, payload := pl, msgIdx := m, checksum := c,
          port := port } =
        (true, { loaderState := LoaderState.Message, payload := pl, msgIdx := m + 1,
                 checksum := (c + pl[m]) % 256, port := port ++ [pl[m]] }) := by
      unfold sendFrame
      simp only
      rw [if_pos (by push_cast; omega), if_neg hmP]
      simp [sendByte, setIN, List.getElem?_eq_getElem hml]
    have h1 := sendFrames_wait V P fb msg len addr _ 7 _ _
      (by simp only [triggerLine]; push_cast; omega) hstep
    have h2 := ih (m + 1) ((c + pl[m]) % 256) (port ++ [pl[m]]) (by omega)
    rw [show 8 * (r + 1 + 1) = (7 + 1) + 8 * (r + 1) by omega,
      scanLines_add _ (V + 31 + 8 * ((m + 1 : Nat) : Int)) (7 + 1) _ (by push_cast; omega),
      ← replicate_true_append]
    rw [sendFrames_chain V P fb msg len addr _ _ _ _ _ _ _ h1 h2, hdrop]
    simp only [List.sum_cons, List.append_assoc, List.singleton_append, Prod.mk.injEq,
      Sender.mk.injEq, true_and, and_true]
    omega

/-- One frame, up to the line before the last: from the state `FirstByte` the lines
`VSYNC_START + 8` up to `VSYNC_START + 38 + 8 * PAYLOAD_SIZE` send the first byte, the length,
the two address bytes, the payload and the last byte; every call returns true. -/
theorem sendFrames_body (V : Int) (P fb : Nat) (msg : List Nat) (len addr : Nat)
    (pl0 : List Nat) (c0 : Nat) (port : List Nat) (hP : 1 ≤ P) (hpl : pl0.length = P) :
    sendFrames V P fb msg len addr (scanLines (V + 8) (8 * P + 31))
        { loaderState := LoaderState.FirstByte, payload := pl0, msgIdx := 0, checksum := c0,
          port := port } =
      (List.replicate (8 * P + 31) true,
        { loaderState := LoaderState.ResetIN
          payload := copyPayload P msg len 0 pl0
          msgIdx := 0
          checksum := negate8 (c0 + fb + 64 * fb + len + addr % 256 + addr / 256 % 256
            + (copyPayload P msg len 0 pl0).sum)
          port := port ++ [fb, len, addr % 256, addr / 256 % 256] ++ copyPayload P msg len 0 pl0
            ++ [negate8 (c0 + fb + 64 * fb + len + addr % 256 + addr / 256 % 256
              + (copyPayload P msg len 0 pl0).sum)] }) := by
  have hlen := copyPayload_length P msg len 0 pl0
  have h1 := sendFrames_wait V P fb msg len addr (V + 8) 0
    { loaderState := LoaderState.FirstByte, payload := pl0, msgIdx := 0, checksum := c0,
      port := port }
    { loaderState := LoaderState.MsgLength, payload := copyPayload P msg len 0 pl0, msgIdx := 0,
      checksum := ((c0 + fb) % 256 + fb * 64) % 256, port := port ++ [fb] }
    (by simp only [triggerLine]; push_cast; omega)
    (by unfold sendFrame; simp only; rw [if_pos (by push_cast; omega)]; rfl)
  have h2 := sendFrames_wait V P fb msg len addr (V + 9) 5
    { loaderState := LoaderState.MsgLength, payload := copyPayload P msg len 0 pl0, msgIdx := 0,
      checksum := ((c0 + fb) % 256 + fb * 64) % 256, port := port ++ [fb] }
    { loaderState := LoaderState.LowAddress, payload := copyPayload P msg len 0 pl0,
      msgIdx := 0, checksum := (((c0 + fb) % 256 + fb * 64) % 256 + len) % 256,
      port := port ++ [fb] ++ [len] }
    (by simp only [triggerLine]; push_cast; omega)
    (by unfold sendFrame; simp only; rw [if_pos (by push_cast; omega)]; rfl)
  have h3 := sendFrames_wait V P fb msg len addr (V + 15) 7
    { loaderState := LoaderState.LowAddress, payload := copyPayload P msg len 0 pl0,
      msgIdx := 0, checksum := (((c0 + fb) % 256 + fb * 64) % 256 + len) % 256,
      port := port ++ [fb] ++ [len] }
    { loaderState := LoaderState.HighAddress, payload := copyPayload P msg len 0 pl0,
      msgIdx := 0,
      checksum := ((((c0 + fb) % 256 + fb * 64) % 256 + len) % 256 + addr % 256) % 256,
      port := port ++ [fb] ++ [len] ++ [addr % 256] }
    (by simp only [triggerLine]; push_cast; omega)
    (by unfold sendFrame; simp only; rw [if_pos (by push_cast; omega)]; rfl)
  have h4 := sendFrames_wait V P fb msg len addr (V + 23) 7
    { loaderState := LoaderState.HighAddress, payload := copyPayload P msg len 0 pl0,
      msgIdx := 0,
      checksum := ((((c0 + fb) % 256 + fb * 64) % 256 + len) % 256 + addr % 256) % 256,
      port := port ++ [fb] ++ [len] ++ [addr % 256] }
    { loaderState := LoaderState.Message, payload := copyPayload P msg len 0 pl0,
      msgIdx := 0,
      checksum := (((((c0 + fb) % 256 + fb * 64) % 256 + len) % 256 + addr % 256) % 256
        + addr / 256 % 256) % 256,
      port := port ++ [fb] ++ [len] ++ [addr % 256] ++ [addr / 256 % 256] }
    (by simp only [triggerLine]; push_cast; omega)
    (by unfold sendFrame; simp only; rw [if_pos (by push_cast; omega)]; rfl)
  obtain ⟨r, hr⟩ : ∃ r, P = r + 1 := ⟨P - 1, by omega⟩
  have h5 := sendFrames_message V P fb msg len addr (copyPayload P msg len 0 pl0)
    (by rw [hlen, hpl]) r 0
    ((((((c0 + fb) % 256 + fb * 64) % 256 + len) % 256 + addr % 256) % 256
        + addr / 256 % 256) % 256)
    (port ++ [fb] ++ [len] ++ [addr % 256] ++ [addr / 256 % 256]) (by omega)
  rw [← hr, List.drop_zero] at h5
  have h6 := sendFrames_wait V P fb msg len addr (V + 31 + 8 * (P : Int)) 7
    { loaderState := LoaderState.LastByte, payload := copyPayload P msg len 0 pl0, msgIdx := 0,
      checksum := ((((((c0 + fb) % 256 + fb * 64) % 256 + len) % 256 + addr % 256) % 256
        + addr / 256 % 256) % 256 + (copyPayload P msg len 0 pl0).sum) % 256,
      port := port ++ [fb] ++ [len] ++ [addr % 256] ++ [addr / 256 % 256]
        ++ copyPayload P msg len 0 pl0 }
    { loaderState := LoaderState.ResetIN
      payload := copyPayload P msg len 0 pl0
      msgIdx := 0
      checksum := negate8 (c0 + fb + 64 * fb + len + addr % 256 + addr / 256 % 256
        + (copyPayload P msg len 0 pl0).sum)
      port := port ++ [fb, len, addr % 256, addr / 256 % 256] ++ copyPayload P msg len 0 pl0
        ++ [negate8 (c0 + fb + 64 * fb + len + addr % 256 + addr / 256 % 256
          + (copyPayload P msg len 0 pl0).sum)] }
    (by simp only [triggerLine]; push_cast; omega)
    (by
      unfold sendFrame
      simp only
      rw [if_pos (by push_cast; omega)]
      have hneg : (256 - ((((((c0 + fb) % 256 + fb * 64) % 256 + len) % 256 + addr % 256) % 256
          + addr / 256 % 256) % 256 + (copyPayload P msg len 0 pl0).sum) % 256 % 256) % 256
          = negate8 (c0 + fb + 64 * fb + len + addr % 256 + addr / 256 % 256
            + (copyPayload P msg len 0 pl0).sum) := by
        unfold negate8
        omega
      simp only [sendByte, setIN, hneg, List.append_assoc, List.singleton_append,
        List.cons_append, List.nil_append])
  have h56 := sendFrames_chain V P fb msg len addr _ _ _ _ _ _ _ h5 h6
  have h456 := sendFrames_chain V P fb msg len addr _ _ _ _ _ _ _ h4 h56
  have h3456 := sendFrames_chain V P fb msg len addr _ _ _ _ _ _ _ h3 h456
  have h23456 := sendFrames_chain V P fb msg len addr _ _ _ _ _ _ _ h2 h3456
  have hall := sendFrames_chain V P fb msg len addr _ _ _ _ _ _ _ h1 h23456
  simp only [Nat.mul_zero, Nat.cast_zero, Int.mul_zero, Int.add_zero, replicate_true_append]
    at hall
  rw [show 8 * P + 31 = (0 + 1) + ((5 + 1) + ((7 + 1) + ((7 + 1) + (8 * P + (7 + 1))))) by omega,
    scanLines_add (V + 8) (V + 9) (0 + 1) _ (by push_cast; omega),
    scanLines_add (V + 9) (V + 15) (5 + 1) _ (by push_cast; omega),
    scanLines_add (V + 15) (V + 23) (7 + 1) _ (by push_cast; omega),
    scanLines_add (V + 23) (V + 31) (7 + 1) _ (by push_cast; omega),
    scanLines_add (V + 31) (V + 31 + 8 * (P : Int)) (8 * P) _ (by push_cast; omega)]
  exact hall

theorem frameLines_eq (V : Int) (P : Nat) :
    frameLines V P = scanLines (V + 8) (8 * P + 31) ++ [V + 39 + 8 * (P : Int)] := by
  unfold frameLines
  rw [show 8 * P + 32 = (8 * P + 31) + 1 by omega,
    scanLines_add (V + 8) (V + 39 + 8 * (P : Int)) (8 * P + 31) 1 (by push_cast; omega)]
  rfl

theorem sender_eta (s : Sender) (hs : s.loaderState = LoaderState.FirstByte)
    (hi : s.msgIdx = 0) :
    s = { loaderState := LoaderState.FirstByte, payload := s.payload, msgIdx := 0,
          checksum := s.checksum, port := s.port } := by
  cases s
  simp only at hs hi
  rw [hs, hi]

/-- The variables of `sendFrame` one line before the end of a frame that starts with the
variables `s`. -/
theorem sendFrames_reset (V : Int) (P fb : Nat) (msg : List Nat) (len addr : Nat)
    (s : Sender) (hP : 1 ≤ P) (hs : s.loaderState = LoaderState.FirstByte)
    (hi : s.msgIdx = 0) (hpl : s.payload.length = P) :
    sendFrames V P fb msg len addr (scanLines (V + 8) (8 * P + 31)) s =
      (List.replicate (8 * P + 31) true,
        { loaderState := LoaderState.ResetIN
          payload := copyPayload P msg len 0 s.payload
          msgIdx := 0
          checksum := lastByte P fb msg len addr s
          port := s.port ++ frameBytes P fb msg len addr s ++ [lastByte P fb msg len addr s] }) := by
  have hsum : lastByte P fb msg len addr s =
      negate8 (s.checksum + fb + 64 * fb + len + addr % 256 + addr / 256 % 256
        + (copyPayload P msg len 0 s.payload).sum) := by
    unfold lastByte frameBytes
    congr 1
    simp only [List.cons_append, List.nil_append, List.sum_cons]
    omega
  have := sendFrames_body V P fb msg len addr s.payload s.checksum s.port hP hpl
  rw [← sender_eta s hs hi] at this
  rw [this, hsum]
  simp only [frameBytes, List.append_assoc]

/-- One frame: a state machine in the state `FirstByte` that is fed the lines of a frame sends
the frame and is in the state `FirstByte` again; only the last call returns false. -/
theorem sendFrames_frame (V : Int) (P fb : Nat) (msg : List Nat) (len addr : Nat)
    (s : Sender) (hP : 1 ≤ P) (hs : s.loaderState = LoaderState.FirstByte)
    (hi : s.msgIdx = 0) (hpl : s.payload.length = P) :
    sendFrames V P fb msg len addr (frameLines V P) s =
      (List.replicate (8 * P + 31) true ++ [false], frameDone P fb msg len addr s) := by
  rw [frameLines_eq]
  apply sendFrames_chain V P fb msg len addr _ _ s _ _ _ _
    (sendFrames_reset V P fb msg len addr s hP hs hi hpl)
  rw [sendFrames, sendFrames]
  unfold sendFrame
  simp only
  rw [if_pos (show V + 39 + 8 * (P : Int) = V + 39 + (P : Int) * 8 by omega)]
  simp only [setIN, frameDone, List.append_assoc, List.singleton_append, List.cons_append,
    List.nil_append]

/-- The static `payload` after the copy of line 1110: the first `len` bytes are those of the
message, the others are as before. -/
theorem copyPayload_getElem? (P : Nat) (msg : List Nat) (k i : Nat) (pl : List Nat)
    (hpl : pl.length = P) (idx : Nat) (hidx : idx < P) :
    (copyPayload P msg k i pl)[idx]? =
      if ∃ t, t < k ∧ (i + t) % P = idx then some (msg.getD idx 0) else pl[idx]? := by
  induction k generalizing i pl with
  | zero => simp [copyPayload]
  | succ k ih =>
    rw [copyPayload, ih (i + 1) _ (by rw [List.length_set]; exact hpl)]
    by_cases h1 : ∃ t, t < k ∧ (i + 1 + t) % P = idx
    · rw [if_pos h1, if_pos]
      obtain ⟨t, ht, he⟩ := h1
      exact ⟨t + 1, by omega, by rw [← he]; congr 1; omega⟩
    · rw [if_neg h1]
      by_cases h0 : i % P = idx
      · rw [if_pos ⟨0, by omega, by rw [Nat.add_zero]; exact h0⟩, h0,
          List.getElem?_set_self (by omega)]
      · rw [List.getElem?_set_ne h0, if_neg]
        rintro ⟨t, ht, he⟩
        cases t with
        | zero => exact h0 (by rw [← he, Nat.add_zero])
        | succ t => exact h1 ⟨t, by omega, by rw [← he]; congr 1; omega⟩

/-! ### C29 -/

/-- C29. Starting in the state `FirstByte` (with `msgIdx` 0, as it is whenever the state is
not `Message`) with the checksum `c0 = s.checksum` and fed the scan lines `VSYNC_START + 8` up
to `VSYNC_START + 39 + 8 * PAYLOAD_SIZE` in increasing order, `sendFrame` writes to the input
port, in this order, `firstByte`, `len`, the low address byte, the high address byte, the
`PAYLOAD_SIZE` bytes of its `payload` array (whatever `len` is; the first `len` of them, at
most `PAYLOAD_SIZE`, have been copied from the message), then the last byte, then 0xFF; the
last byte is the negation modulo 256 of `c0 + firstByte + 64 * firstByte + len + low + high`
plus the sum of the payload bytes; every call returns true except the last one, at the line
`VSYNC_START + 39 + 8 * PAYLOAD_SIZE`, which returns false; afterwards the state is
`FirstByte` again and the checksum equals the last byte. -/
theorem sendFrame_emission (VSYNC_START : Int) (PAYLOAD_SIZE firstByte : Nat)
    (message : List Nat) (len address : Nat) (s : Sender) (hP : 1 ≤ PAYLOAD_SIZE)
    (hs : s.loaderState = LoaderState.FirstByte) (hi : s.msgIdx = 0)
    (hpl : s.payload.length = PAYLOAD_SIZE) :
    ∃ (payload : List Nat) (last : Nat),
      payload.length = PAYLOAD_SIZE ∧
      (∀ idx, idx < PAYLOAD_SIZE →
        payload[idx]? = if idx < len then some (message.getD idx 0) else s.payload[idx]?) ∧
      last = negate8 (s.checksum + firstByte + 64 * firstByte + len + address % 256
        + address / 256 % 256 + payload.sum) ∧
      frameLines VSYNC_START PAYLOAD_SIZE =
        scanLines (VSYNC_START + 8) (8 * PAYLOAD_SIZE + 31)
          ++ [VSYNC_START + 39 + 8 * (PAYLOAD_SIZE : Int)] ∧
      sendFrames VSYNC_START PAYLOAD_SIZE firstByte message len address
          (frameLines VSYNC_START PAYLOAD_SIZE) s =
        (List.replicate (8 * PAYLOAD_SIZE + 31) true ++ [false],
          { loaderState := LoaderState.FirstByte
            payload := payload
            msgIdx := 0
            checksum := last
            port := s.port ++ [firstByte, len, address % 256, address / 256 % 256] ++ payload
              ++ [last, 0xFF] }) := by
  refine ⟨copyPayload PAYLOAD_SIZE message len 0 s.payload,
    lastByte PAYLOAD_SIZE firstByte message len address s, ?_, ?_, ?_,
    frameLines_eq VSYNC_START PAYLOAD_SIZE, ?_⟩
  · rw [copyPayload_length, hpl]
  · intro idx hidx
    rw [copyPayload_getElem? PAYLOAD_SIZE message len 0 s.payload hpl idx hidx]
    by_cases h : idx < len
    · rw [if_pos h, if_pos ⟨idx, h, by rw [Nat.zero_add]; exact Nat.mod_eq_of_lt hidx⟩]
    · rw [if_neg h, if_neg]
      rintro ⟨t, ht, he⟩
      rw [Nat.zero_add] at he
      have := Nat.mod_le t PAYLOAD_SIZE
      omega
  · unfold lastByte frameBytes
    congr 1
    simp only [List.cons_append, List.nil_append, List.sum_cons]
    omega
  · rw [sendFrames_frame VSYNC_START PAYLOAD_SIZE firstByte message len address s hP hs hi hpl]
    simp only [frameDone, frameBytes, List.append_assoc]

/-- Witness for C29: the frame of the state `Resync` from the initial variables, with
`PAYLOAD_SIZE` 60. -/
theorem sendFrame_emission_witness :
    ∃ (payload : List Nat) (last : Nat),
      payload.length = examplePayloadSize ∧
      (∀ idx, idx < examplePayloadSize →
        payload[idx]? = if idx < 0 then some (([] : List Nat).getD idx 0)
          else exampleSender.payload[idx]?) ∧
      last = negate8 (exampleSender.checksum + 0xFF + 64 * 0xFF + 0 + 0x0200 % 256
        + 0x0200 / 256 % 256 + payload.sum) ∧
      frameLines exampleVsyncStart examplePayloadSize =
        scanLines (exampleVsyncStart + 8) (8 * examplePayloadSize + 31)
          ++ [exampleVsyncStart + 39 + 8 * (examplePayloadSize : Int)] ∧
      sendFrames exampleVsyncStart examplePayloadSize 0xFF [] 0 0x0200
          (frameLines exampleVsyncStart examplePayloadSize) exampleSender =
        (List.replicate (8 * examplePayloadSize + 31) true ++ [false],
          { loaderState := LoaderState.FirstByte
            payload := payload
            msgIdx := 0
            checksum := last
            port := exampleSender.port ++ [0xFF, 0, 0x0200 % 256, 0x0200 / 256 % 256] ++ payload
              ++ [last, 0xFF] }) :=
  sendFrame_emission exampleVsyncStart examplePayloadSize 0xFF [] 0 0x0200 exampleSender
    (by decide) rfl rfl rfl

/-! ## Lemmas on `upload` -/

theorem uploads_append (V : Int) (P lba : Nat) (l1 l2 : List Int) (u : Uploader) :
    uploads V P lba (l1 ++ l2) u = uploads V P lba l2 (uploads V P lba l1 u) := by
  induction l1 generalizing u with
  | nil => rfl
  | cons y ys ih => exact ih _

/-- A call of `upload` during a transfer in which `sendFrame` returns true changes the
variables of `sendFrame` only. -/
theorem upload_sending (V : Int) (P lba : Nat) (y : Int) (u : Uploader) (fb len : Nat)
    (s1 : Sender) (hT : u.uploadTarget = UploadTarget.None) (hU : u.frameUploading = true)
    (hargs : (u.frameState = FrameState.Resync ∧ fb = 0xFF ∧ len = u.payloadSize) ∨
      (u.frameState = FrameState.Frame ∧ fb = 0x4C ∧ len = u.payloadSize) ∨
      (u.frameState = FrameState.Execute ∧ fb = 0x4C ∧ len = 0))
    (h : sendFrame V P y fb u.payload len lba u.sender = (true, s1)) :
    upload V P lba y u = { u with sender := s1 } := by
  unfold upload
  rw [if_pos (Or.inr hU), if_neg (by rw [hT]; exact fun h => h rfl)]
  rcases hargs with ⟨h1, h2, h3⟩ | ⟨h1, h2, h3⟩ | ⟨h1, h2, h3⟩ <;>
    · subst h2
      subst h3
      rw [h1]
      simp only
      rw [h]

theorem uploads_sending (V : Int) (P lba : Nat) (lines : List Int) (u : Uploader)
    (fb len : Nat) (s1 : Sender) (hT : u.uploadTarget = UploadTarget.None)
    (hU : u.frameUploading = true)
    (hargs : (u.frameState = FrameState.Resync ∧ fb = 0xFF ∧ len = u.payloadSize) ∨
      (u.frameState = FrameState.Frame ∧ fb = 0x4C ∧ len = u.payloadSize) ∨
      (u.frameState = FrameState.Execute ∧ fb = 0x4C ∧ len = 0))
    (h : sendFrames V P fb u.payload len lba lines u.sender
      = (List.replicate lines.length true, s1)) :
    uploads V P lba lines u = { u with sender := s1 } := by
  induction lines generalizing u with
  | nil =>
    simp only [sendFrames, Prod.mk.injEq, true_and, List.length_nil, List.replicate_zero] at h
    rw [uploads, ← h]
  | cons y ys ih =>
    rw [sendFrames] at h
    simp only [List.length_cons, List.replicate_succ, Prod.mk.injEq, List.cons.injEq] at h
    obtain ⟨⟨h1, h2⟩, h3⟩ := h
    have hstep := upload_sending V P lba y u fb len
      (sendFrame V P y fb u.payload len lba u.sender).2 hT hU hargs (Prod.ext h1 rfl)
    rw [uploads, hstep]
    exact ih { u with sender := (sendFrame V P y fb u.payload len lba u.sender).2 } hT hU hargs
      (Prod.ext h2 h3)

theorem sendFrames_fst_length (V : Int) (P fb : Nat) (msg : List Nat) (len addr : Nat)
    (lines : List Int) (s : Sender) :
    (sendFrames V P fb msg len addr lines s).1.length = lines.length := by
  induction lines generalizing s with
  | nil => rfl
  | cons y ys ih => rw [sendFrames, List.length_cons, List.length_cons, ih]

theorem sendFrames_prefix (V : Int) (P fb : Nat) (msg : List Nat) (len addr : Nat)
    (l1 l2 : List Int) (s s1 : Sender) (n : Nat)
    (h : sendFrames V P fb msg len addr (l1 ++ l2) s = (List.replicate n true, s1)) :
    sendFrames V P fb msg len addr l1 s =
      (List.replicate l1.length true, (sendFrames V P fb msg len addr l1 s).2) := by
  have hch := sendFrames_chain V P fb msg len addr l1 l2 s _ _ _ _ rfl rfl
  rw [h] at hch
  simp only [Prod.mk.injEq] at hch
  have h1 := congrArg (List.take l1.length) hch.1
  rw [List.take_left' (sendFrames_fst_length V P fb msg len addr l1 s)] at h1
  have hlen := congrArg List.length hch.1
  rw [List.length_replicate, List.length_append, sendFrames_fst_length] at hlen
  refine Prod.ext ?_ rfl
  show (sendFrames V P fb msg len addr l1 s).1 = List.replicate l1.length true
  rw [← h1, List.take_replicate]
  congr 1
  omega

/-- During a frame, up to its last line, `upload` changes the variables of `sendFrame`
only. -/
theorem uploads_during (V : Int) (P lba : Nat) (u : Uploader) (fb len : Nat) (k : Nat)
    (hP : 1 ≤ P) (hk : k ≤ 8 * P + 31) (hT : u.uploadTarget = UploadTarget.None)
    (hU : u.frameUploading = true)
    (hargs : (u.frameState = FrameState.Resync ∧ fb = 0xFF ∧ len = u.payloadSize) ∨
      (u.frameState = FrameState.Frame ∧ fb = 0x4C ∧ len = u.payloadSize) ∨
      (u.frameState = FrameState.Execute ∧ fb = 0x4C ∧ len = 0))
    (hs : u.sender.loaderState = LoaderState.FirstByte) (hi : u.sender.msgIdx = 0)
    (hpl : u.sender.payload.length = P) :
    uploads V P lba (scanLines (V + 8) k) u =
      { u with sender := (sendFrames V P fb u.payload len lba (scanLines (V + 8) k) u.sender).2 } := by
  have hall := sendFrames_reset V P fb u.payload len lba u.sender hP hs hi hpl
  rw [show 8 * P + 31 = k + (8 * P + 31 - k) by omega,
    scanLines_add (V + 8) (V + 8 + (k : Int)) k _ rfl] at hall
  have hpre := sendFrames_prefix V P fb u.payload len lba _ _ _ _ _ hall
  exact uploads_sending V P lba _ u fb len _ hT hU hargs hpre

/-- The frame of the state `Resync`. -/
theorem uploads_resync (V : Int) (P lba : Nat) (u : Uploader) (hP : 1 ≤ P)
    (hT : u.uploadTarget = UploadTarget.None) (hU : u.frameUploading = true)
    (hR : u.frameState = FrameState.Resync)
    (hs : u.sender.loaderState = LoaderState.FirstByte) (hi : u.sender.msgIdx = 0)
    (hpl : u.sender.payload.length = P) :
    uploads V P lba (frameLines V P) u =
      { u with
        sender := { frameDone P 0xFF u.payload u.payloadSize lba u.sender with checksum := 0x67 }
        frameState := FrameState.Frame } := by
  have hargs : (u.frameState = FrameState.Resync ∧ 0xFF = 0xFF ∧ u.payloadSize = u.payloadSize) ∨
      (u.frameState = FrameState.Frame ∧ 0xFF = 0x4C ∧ u.payloadSize = u.payloadSize) ∨
      (u.frameState = FrameState.Execute ∧ 0xFF = 0x4C ∧ u.payloadSize = 0) :=
    Or.inl ⟨hR, rfl, rfl⟩
  have hbody := uploads_during V P lba u 0xFF u.payloadSize (8 * P + 31) hP (Nat.le_refl _) hT hU
    hargs hs hi hpl
  rw [sendFrames_reset V P 0xFF u.payload u.payloadSize lba u.sender hP hs hi hpl] at hbody
  rw [frameLines_eq, uploads_append, hbody, uploads, uploads]
  unfold upload
  simp only [hT, hU, hR, ne_eq, not_true_eq_false, false_or, if_true, if_false]
  unfold sendFrame
  simp only
  rw [if_pos (show V + 39 + 8 * (P : Int) = V + 39 + (P : Int) * 8 by omega)]
  simp only [setIN, frameDone, List.append_assoc, List.singleton_append, List.cons_append,
    List.nil_append]

/-- The frame of the state `Frame`. -/
theorem uploads_frame (V : Int) (P lba : Nat) (u : Uploader) (hP : 1 ≤ P)
    (hT : u.uploadTarget = UploadTarget.None) (hU : u.frameUploading = true)
    (hR : u.frameState = FrameState.Frame)
    (hs : u.sender.loaderState = LoaderState.FirstByte) (hi : u.sender.msgIdx = 0)
    (hpl : u.sender.payload.length = P) :
    uploads V P lba (frameLines V P) u =
      { u with
        sender := frameDone P 0x4C u.payload u.payloadSize lba u.sender
        frameState := FrameState.Execute } := by
  have hargs : (u.frameState = FrameState.Resync ∧ 0x4C = 0xFF ∧ u.payloadSize = u.payloadSize) ∨
      (u.frameState = FrameState.Frame ∧ 0x4C = 0x4C ∧ u.payloadSize = u.payloadSize) ∨
      (u.frameState = FrameState.Execute ∧ 0x4C = 0x4C ∧ u.payloadSize = 0) :=
    Or.inr (Or.inl ⟨hR, rfl, rfl⟩)
  have hbody := uploads_during V P lba u 0x4C u.payloadSize (8 * P + 31) hP (Nat.le_refl _) hT hU
    hargs hs hi hpl
  rw [sendFrames_reset V P 0x4C u.payload u.payloadSize lba u.sender hP hs hi hpl] at hbody
  rw [frameLines_eq, uploads_append, hbody, uploads, uploads]
  unfold upload
  simp only [hT, hU, hR, ne_eq, not_true_eq_false, false_or, if_true, if_false]
  unfold sendFrame
  simp only
  rw [if_pos (show V + 39 + 8 * (P : Int) = V + 39 + (P : Int) * 8 by omega)]
  simp only [setIN, frameDone, List.append_assoc, List.singleton_append, List.cons_append,
    List.nil_append]

/-- The frame of the state `Execute`. -/
theorem uploads_execute (V : Int) (P lba : Nat) (u : Uploader) (hP : 1 ≤ P)
    (hT : u.uploadTarget = UploadTarget.None) (hU : u.frameUploading = true)
    (hR : u.frameState = FrameState.Execute)
    (hs : u.sender.loaderState = LoaderState.FirstByte) (hi : u.sender.msgIdx = 0)
    (hpl : u.sender.payload.length = P) :
    uploads V P lba (frameLines V P) u =
      { u with
        sender := { frameDone P 0x4C u.payload 0 lba u.sender with checksum := 0 }
        frameState := FrameState.Resync
        frameUploading := false } := by
  have hargs : (u.frameState = FrameState.Resync ∧ 0x4C = 0xFF ∧ 0 = u.payloadSize) ∨
      (u.frameState = FrameState.Frame ∧ 0x4C = 0x4C ∧ 0 = u.payloadSize) ∨
      (u.frameState = FrameState.Execute ∧ 0x4C = 0x4C ∧ 0 = 0) :=
    Or.inr (Or.inr ⟨hR, rfl, rfl⟩)
  have hbody := uploads_during V P lba u 0x4C 0 (8 * P + 31) hP (Nat.le_refl _) hT hU
    hargs hs hi hpl
  rw [sendFrames_reset V P 0x4C u.payload 0 lba u.sender hP hs hi hpl] at hbody
  rw [frameLines_eq, uploads_append, hbody, uploads, uploads]
  unfold upload
  simp only [hT, hU, hR, ne_eq, not_true_eq_false, false_or, if_true, if_false]
  unfold sendFrame
  simp only
  rw [if_pos (show V + 39 + 8 * (P : Int) = V + 39 + (P : Int) * 8 by omega)]
  simp only [setIN, frameDone, List.append_assoc, List.singleton_append, List.cons_append,
    List.nil_append]

/-! ### C28 -/

/-- C28, as stated, fails. With `PAYLOAD_SIZE` 60, a transfer from the initial variables
(checksum 0, zero-filled payload, `payloadSize` 0) and the load base address 0x0200 sends in
the state `Resync` the bytes 0xFF, 0, 0, 2 and sixty payload bytes 0, whose negated sum modulo
256 is 255, and then the final checksum byte 63. -/
theorem upload_checksum_counterexample :
    (uploads exampleVsyncStart examplePayloadSize 0x0200
        (frameLines exampleVsyncStart examplePayloadSize) exampleUploader).sender.port =
      [0xFF, 0, 0, 2] ++ List.replicate 60 0 ++ [63, 0xFF] ∧
    negate8 ([0xFF, 0, 0, 2] ++ List.replicate 60 0).sum = 255 := by
  rw [uploads_resync exampleVsyncStart examplePayloadSize 0x0200 exampleUploader (by decide)
    rfl rfl rfl rfl rfl rfl]
  decide

/-- C28, amended. In every frame emitted during a transfer (`Resync`, `Frame` and `Execute`),
the final checksum byte emitted by `sendFrame` equals the negation, modulo 256, of the sum of
the checksum the frame starts with (in `Resync` the checksum `upload` holds at that time, in
`Frame` the value 'g' set when `Resync` completes, in `Execute` the final checksum byte of the
frame before), 64 times the first byte, and all bytes emitted before it in that frame (first
byte, length, low address, high address and the `PAYLOAD_SIZE` payload bytes). -/
theorem upload_checksum (VSYNC_START : Int) (PAYLOAD_SIZE loadBaseAddress : Nat)
    (u : Uploader) (hP : 1 ≤ PAYLOAD_SIZE) (hT : u.uploadTarget = UploadTarget.None)
    (hU : u.frameUploading = true) (hR : u.frameState = FrameState.Resync)
    (hs : u.sender.loaderState = LoaderState.FirstByte) (hi : u.sender.msgIdx = 0)
    (hpl : u.sender.payload.length = PAYLOAD_SIZE) :
    ∃ (u1 u2 u3 : Uploader) (body1 body2 body3 : List Nat) (last1 last2 last3 : Nat),
      uploads VSYNC_START PAYLOAD_SIZE loadBaseAddress
        (frameLines VSYNC_START PAYLOAD_SIZE) u = u1 ∧
      uploads VSYNC_START PAYLOAD_SIZE loadBaseAddress
        (frameLines VSYNC_START PAYLOAD_SIZE) u1 = u2 ∧
      uploads VSYNC_START PAYLOAD_SIZE loadBaseAddress
        (frameLines VSYNC_START PAYLOAD_SIZE) u2 = u3 ∧
      u1.sender.port = u.sender.port ++ body1 ++ [last1, 0xFF] ∧
      u2.sender.port = u1.sender.port ++ body2 ++ [last2, 0xFF] ∧
      u3.sender.port = u2.sender.port ++ body3 ++ [last3, 0xFF] ∧
      body1.length = 4 + PAYLOAD_SIZE ∧ body2.length = 4 + PAYLOAD_SIZE ∧
      body3.length = 4 + PAYLOAD_SIZE ∧
      body1.take 4 = [0xFF, u.payloadSize, loadBaseAddress % 256,
        loadBaseAddress / 256 % 256] ∧
      body2.take 4 = [0x4C, u.payloadSize, loadBaseAddress % 256,
        loadBaseAddress / 256 % 256] ∧
      body3.take 4 = [0x4C, 0, loadBaseAddress % 256, loadBaseAddress / 256 % 256] ∧
      last1 = negate8 (u.sender.checksum + 64 * 0xFF + body1.sum) ∧
      last2 = negate8 (0x67 + 64 * 0x4C + body2.sum) ∧
      last3 = negate8 (last2 + 64 * 0x4C + body3.sum) := by
  have h1 := uploads_resync VSYNC_START PAYLOAD_SIZE loadBaseAddress u hP hT hU hR hs hi hpl
  have h2 := uploads_frame VSYNC_START PAYLOAD_SIZE loadBaseAddress _ hP
    (show ({ u with
        sender := { frameDone PAYLOAD_SIZE 0xFF u.payload u.payloadSize loadBaseAddress u.sender
          with checksum := 0x67 }
        frameState := FrameState.Frame } : Uploader).uploadTarget = UploadTarget.None from hT)
    hU rfl rfl rfl (by simp only [frameDone]; rw [copyPayload_length, hpl])
  have h3 := uploads_execute VSYNC_START PAYLOAD_SIZE loadBaseAddress _ hP
    (show ({ ({ u with
        sender := { frameDone PAYLOAD_SIZE 0xFF u.payload u.payloadSize loadBaseAddress u.sender
          with checksum := 0x67 }
        frameState := FrameState.Frame } : Uploader) with
        sender := frameDone PAYLOAD_SIZE 0x4C u.payload u.payloadSize loadBaseAddress
          { frameDone PAYLOAD_SIZE 0xFF u.payload u.payloadSize loadBaseAddress u.sender
            with checksum := 0x67 }
        frameState := FrameState.Execute } : Uploader).uploadTarget = UploadTarget.None from hT)
    hU rfl rfl rfl
    (by simp only [frameDone]; rw [copyPayload_length, copyPayload_length, hpl])
  refine ⟨_, _, _, _, _, _, _, _, _, h1, h2, h3, rfl, rfl, rfl, ?_, ?_, ?_, rfl, rfl, rfl,
    rfl, rfl, rfl⟩
  · simp only [frameBytes, List.length_append, List.length_cons, List.length_nil,
      copyPayload_length, hpl]
  · simp only [frameBytes, frameDone, List.length_append, List.length_cons, List.length_nil,
      copyPayload_length, hpl]
  · simp only [frameBytes, frameDone, List.length_append, List.length_cons, List.length_nil,
      copyPayload_length, hpl]

/-- Witness for C28, amended: a transfer from the initial variables with `PAYLOAD_SIZE` 60 and
the load base address 0x0200. -/
theorem upload_checksum_witness :
    ∃ (u1 u2 u3 : Uploader) (body1 body2 body3 : List Nat) (last1 last2 last3 : Nat),
      uploads exampleVsyncStart examplePayloadSize 0x0200
        (frameLines exampleVsyncStart examplePayloadSize) exampleUploader = u1 ∧
      uploads exampleVsyncStart examplePayloadSize 0x0200
        (frameLines exampleVsyncStart examplePayloadSize) u1 = u2 ∧
      uploads exampleVsyncStart examplePayloadSize 0x0200
        (frameLines exampleVsyncStart examplePayloadSize) u2 = u3 ∧
      u1.sender.port = exampleUploader.sender.port ++ body1 ++ [last1, 0xFF] ∧
      u2.sender.port = u1.sender.port ++ body2 ++ [last2, 0xFF] ∧
      u3.sender.port = u2.sender.port ++ body3 ++ [last3, 0xFF] ∧
      body1.length = 4 + examplePayloadSize ∧ body2.length = 4 + examplePayloadSize ∧
      body3.length = 4 + examplePayloadSize ∧
      body1.take 4 = [0xFF, exampleUploader.payloadSize, 0x0200 % 256, 0x0200 / 256 % 256] ∧
      body2.take 4 = [0x4C, exampleUploader.payloadSize, 0x0200 % 256, 0x0200 / 256 % 256] ∧
      body3.take 4 = [0x4C, 0, 0x0200 % 256, 0x0200 / 256 % 256] ∧
      last1 = negate8 (exampleUploader.sender.checksum + 64 * 0xFF + body1.sum) ∧
      last2 = negate8 (0x67 + 64 * 0x4C + body2.sum) ∧
      last3 = negate8 (last2 + 64 * 0x4C + body3.sum) :=
  upload_checksum exampleVsyncStart examplePayloadSize 0x0200 exampleUploader (by decide)
    rfl rfl rfl rfl rfl rfl

/-! ### C30 -/

/-- C30. With a transfer in progress (`frameUploading` true, no upload target requested) and
the frame state `Resync`, `sendFrame` being in its state `FirstByte`, driving `upload` through
the lines of three frames visits the states `Resync`, `Frame` and `Execute` in that order:
the state stays `Resync` up to the last line of the first frame, in which `upload` drives
`sendFrame` with the first byte 0xFF and the pending payload length (`s1` is what that frame
leaves), then it is `Frame`, with the checksum set to 'g' (0x67); it stays `Frame` up to the
last line of the second frame, driven with the first byte 'L' (0x4C) and the pending payload
length, then it is `Execute`; it stays `Execute` up to the last line of the third frame,
driven with the first byte 'L' and the length 0, after which the checksum is 0, the state is
`Resync` again and the transfer is no longer in progress. -/
theorem upload_transfer (VSYNC_START : Int) (PAYLOAD_SIZE loadBaseAddress : Nat)
    (u : Uploader) (hP : 1 ≤ PAYLOAD_SIZE) (hT : u.uploadTarget = UploadTarget.None)
    (hU : u.frameUploading = true) (hR : u.frameState = FrameState.Resync)
    (hs : u.sender.loaderState = LoaderState.FirstByte) (hi : u.sender.msgIdx = 0)
    (hpl : u.sender.payload.length = PAYLOAD_SIZE) :
    ∃ (u1 u2 u3 : Uploader) (s1 s2 s3 : Sender),
      uploads VSYNC_START PAYLOAD_SIZE loadBaseAddress
        (frameLines VSYNC_START PAYLOAD_SIZE) u = u1 ∧
      uploads VSYNC_START PAYLOAD_SIZE loadBaseAddress
        (frameLines VSYNC_START PAYLOAD_SIZE) u1 = u2 ∧
      uploads VSYNC_START PAYLOAD_SIZE loadBaseAddress
        (frameLines VSYNC_START PAYLOAD_SIZE) u2 = u3 ∧
      sendFrames VSYNC_START PAYLOAD_SIZE 0xFF u.payload u.payloadSize loadBaseAddress
          (frameLines VSYNC_START PAYLOAD_SIZE) u.sender =
        (List.replicate (8 * PAYLOAD_SIZE + 31) true ++ [false], s1) ∧
      sendFrames VSYNC_START PAYLOAD_SIZE 0x4C u.payload u.payloadSize loadBaseAddress
          (frameLines VSYNC_START PAYLOAD_SIZE) u1.sender =
        (List.replicate (8 * PAYLOAD_SIZE + 31) true ++ [false], s2) ∧
      sendFrames VSYNC_START PAYLOAD_SIZE 0x4C u.payload 0 loadBaseAddress
          (frameLines VSYNC_START PAYLOAD_SIZE) u2.sender =
        (List.replicate (8 * PAYLOAD_SIZE + 31) true ++ [false], s3) ∧
      u1 = { u with sender := { s1 with checksum := 0x67 }, frameState := FrameState.Frame } ∧
      u2 = { u1 with sender := s2, frameState := FrameState.Execute } ∧
      u3 = { u2 with
             sender := { s3 with checksum := 0 }
             frameState := FrameState.Resync
             frameUploading := false } ∧
      (∀ k, k ≤ 8 * PAYLOAD_SIZE + 31 →
        (uploads VSYNC_START PAYLOAD_SIZE loadBaseAddress (scanLines (VSYNC_START + 8) k)
          u).frameState = FrameState.Resync) ∧
      (∀ k, k ≤ 8 * PAYLOAD_SIZE + 31 →
        (uploads VSYNC_START PAYLOAD_SIZE loadBaseAddress (scanLines (VSYNC_START + 8) k)
          u1).frameState = FrameState.Frame) ∧
      (∀ k, k ≤ 8 * PAYLOAD_SIZE + 31 →
        (uploads VSYNC_START PAYLOAD_SIZE loadBaseAddress (scanLines (VSYNC_START + 8) k)
          u2).frameState = FrameState.Execute) ∧
      u1.frameState = FrameState.Frame ∧ u1.sender.checksum = 0x67 ∧
      u1.frameUploading = true ∧
      u2.frameState = FrameState.Execute ∧ u2.frameUploading = true ∧
      u3.frameState = FrameState.Resync ∧ u3.sender.checksum = 0 ∧
      u3.frameUploading = false := by
  have h1 := uploads_resync VSYNC_START PAYLOAD_SIZE loadBaseAddress u hP hT hU hR hs hi hpl
  have hpl1 : ({ u with
        sender := { frameDone PAYLOAD_SIZE 0xFF u.payload u.payloadSize loadBaseAddress u.sender
          with checksum := 0x67 }
        frameState := FrameState.Frame } : Uploader).sender.payload.length = PAYLOAD_SIZE := by
    simp only [frameDone]
    rw [copyPayload_length, hpl]
  have hT1 : ({ u with
        sender := { frameDone PAYLOAD_SIZE 0xFF u.payload u.payloadSize loadBaseAddress u.sender
          with checksum := 0x67 }
        frameState := FrameState.Frame } : Uploader).uploadTarget = UploadTarget.None := hT
  have h2 := uploads_frame VSYNC_START PAYLOAD_SIZE loadBaseAddress _ hP hT1 hU rfl rfl rfl hpl1
  have hpl2 : ({ ({ u with
        sender := { frameDone PAYLOAD_SIZE 0xFF u.payload u.payloadSize loadBaseAddress u.sender
          with checksum := 0x67 }
        frameState := FrameState.Frame } : Uploader) with
        sender := frameDone PAYLOAD_SIZE 0x4C u.payload u.payloadSize loadBaseAddress
          { frameDone PAYLOAD_SIZE 0xFF u.payload u.payloadSize loadBaseAddress u.sender
            with checksum := 0x67 }
        frameState := FrameState.Execute } : Uploader).sender.payload.length
          = PAYLOAD_SIZE := by
    simp only [frameDone]
    rw [copyPayload_length, copyPayload_length, hpl]
  have hT2 : ({ ({ u with
        sender := { frameDone PAYLOAD_SIZE 0xFF u.payload u.payloadSize loadBaseAddress u.sender
          with checksum := 0x67 }
        frameState := FrameState.Frame } : Uploader) with
        sender := frameDone PAYLOAD_SIZE 0x4C u.payload u.payloadSize loadBaseAddress
          { frameDone PAYLOAD_SIZE 0xFF u.payload u.payloadSize loadBaseAddress u.sender
            with checksum := 0x67 }
        frameState := FrameState.Execute } : Uploader).uploadTarget = UploadTarget.None := hT
  have h3 := uploads_execute VSYNC_START PAYLOAD_SIZE loadBaseAddress _ hP hT2 hU rfl rfl rfl hpl2
  refine ⟨_, _, _, _, _, _, h1, h2, h3,
    sendFrames_frame VSYNC_START PAYLOAD_SIZE 0xFF u.payload u.payloadSize loadBaseAddress
      u.sender hP hs hi hpl,
    sendFrames_frame VSYNC_START PAYLOAD_SIZE 0x4C u.payload u.payloadSize loadBaseAddress
      _ hP rfl rfl hpl1,
    sendFrames_frame VSYNC_START PAYLOAD_SIZE 0x4C u.payload 0 loadBaseAddress
      _ hP rfl rfl hpl2,
    rfl, rfl, rfl, ?_, ?_, ?_, rfl, rfl, hU, rfl, hU, rfl, rfl, rfl⟩
  · intro k hk
    rw [uploads_during VSYNC_START PAYLOAD_SIZE loadBaseAddress u 0xFF u.payloadSize k hP hk hT
      hU (Or.inl ⟨hR, rfl, rfl⟩) hs hi hpl]
    exact hR
  · intro k hk
    rw [uploads_during VSYNC_START PAYLOAD_SIZE loadBaseAddress _ 0x4C u.payloadSize k hP hk hT1
      hU (Or.inr (Or.inl ⟨rfl, rfl, rfl⟩)) rfl rfl hpl1]
  · intro k hk
    rw [uploads_during VSYNC_START PAYLOAD_SIZE loadBaseAddress _ 0x4C 0 k hP hk hT2
      hU (Or.inr (Or.inr ⟨rfl, rfl, rfl⟩)) rfl rfl hpl2]

/-- Witness for C30: a transfer from the initial variables with `PAYLOAD_SIZE` 60 and the load
base address 0x0200. -/
theorem upload_transfer_witness :
    ∃ (u1 u2 u3 : Uploader) (s1 s2 s3 : Sender),
      uploads exampleVsyncStart examplePayloadSize 0x0200
        (frameLines exampleVsyncStart examplePayloadSize) exampleUploader = u1 ∧
      uploads exampleVsyncStart examplePayloadSize 0x0200
        (frameLines exampleVsyncStart examplePayloadSize) u1 = u2 ∧
      uploads exampleVsyncStart examplePayloadSize 0x0200
        (frameLines exampleVsyncStart examplePayloadSize) u2 = u3 ∧
      sendFrames exampleVsyncStart examplePayloadSize 0xFF exampleUploader.payload
          exampleUploader.payloadSize 0x0200
          (frameLines exampleVsyncStart examplePayloadSize) exampleUploader.sender =
        (List.replicate (8 * examplePayloadSize + 31) true ++ [false], s1) ∧
      sendFrames exampleVsyncStart examplePayloadSize 0x4C exampleUploader.payload
          exampleUploader.payloadSize 0x0200
          (frameLines exampleVsyncStart examplePayloadSize) u1.sender =
        (List.replicate (8 * examplePayloadSize + 31) true ++ [false], s2) ∧
      sendFrames exampleVsyncStart examplePayloadSize 0x4C exampleUploader.payload 0 0x0200
          (frameLines exampleVsyncStart examplePayloadSize) u2.sender =
        (List.replicate (8 * examplePayloadSize + 31) true ++ [false], s3) ∧
      u1 = { exampleUploader with
             sender := { s1 with checksum := 0x67 }, frameState := FrameState.Frame } ∧
      u2 = { u1 with sender := s2, frameState := FrameState.Execute } ∧
      u3 = { u2 with
             sender := { s3 with checksum := 0 }
             frameState := FrameState.Resync
             frameUploading := false } ∧
      (∀ k, k ≤ 8 * examplePayloadSize + 31 →
        (uploads exampleVsyncStart examplePayloadSize 0x0200
          (scanLines (exampleVsyncStart + 8) k) exampleUploader).frameState
            = FrameState.Resync) ∧
      (∀ k, k ≤ 8 * examplePayloadSize + 31 →
        (uploads exampleVsyncStart examplePayloadSize 0x0200
          (scanLines (exampleVsyncStart + 8) k) u1).frameState = FrameState.Frame) ∧
      (∀ k, k ≤ 8 * examplePayloadSize + 31 →
        (uploads exampleVsyncStart examplePayloadSize 0x0200
          (scanLines (exampleVsyncStart + 8) k) u2).frameState = FrameState.Execute) ∧
      u1.frameState = FrameState.Frame ∧ u1.sender.checksum = 0x67 ∧
      u1.frameUploading = true ∧
      u2.frameState = FrameState.Execute ∧ u2.frameUploading = true ∧
      u3.frameState = FrameState.Resync ∧ u3.sender.checksum = 0 ∧
      u3.frameUploading = false :=
  upload_transfer exampleVsyncStart examplePayloadSize 0x0200 exampleUploader (by decide)
    rfl rfl rfl rfl rfl rfl

/-! ## Lemmas on `waitForPromptGiga` -/

theorem waitForPromptGiga_skip (pre rest : List ReadLine)
    (hpre : ∀ r ∈ pre, r.ok = true ∧ '!' ∉ r.line ∧ '?' ∉ r.line) :
    waitForPromptGiga (pre ++ rest) = waitForPromptGiga rest := by
  induction pre with
  | nil => rfl
  | cons r pre ih =>
    obtain ⟨h1, h2, h3⟩ := hpre r (List.mem_cons_self _ _)
    rw [List.cons_append, waitForPromptGiga, if_neg (by rw [h1]; decide), if_neg h2,
      if_neg (by decide), if_neg h3]
    exact ih (fun q hq => hpre q (List.mem_cons_of_mem _ hq))

/-- What `waitForPromptGiga` does over any sequence of results of `readLineGiga`: after lines
without marker, it succeeds with the first line that holds `'?'` and no `'!'`, it fails at the
first line that holds `'!'`, printing the line from its second character on, and it fails at
the first call of `readLineGiga` that times out. -/
theorem waitForPromptGiga_outcome (pre rest : List ReadLine) (r : ReadLine)
    (hpre : ∀ q ∈ pre, q.ok = true ∧ '!' ∉ q.line ∧ '?' ∉ q.line) :
    (r.ok = true → '!' ∉ r.line → '?' ∈ r.line →
      waitForPromptGiga (pre ++ r :: rest)
        = some { ok := true, line := r.line, error := none }) ∧
    (r.ok = true → '!' ∈ r.line →
      waitForPromptGiga (pre ++ r :: rest)
        = some { ok := false, line := r.line, error := some (cString (r.line.drop 1)) }) ∧
    (r.ok = false →
      waitForPromptGiga (pre ++ r :: rest)
        = some { ok := false, line := r.line, error := none }) := by
  rw [waitForPromptGiga_skip pre (r :: rest) hpre]
  refine ⟨?_, ?_, ?_⟩
  · intro h1 h2 h3
    rw [waitForPromptGiga, if_neg (by rw [h1]; decide), if_neg h2, if_neg (by decide),
      if_pos h3]
  · intro h1 h2
    rw [waitForPromptGiga, if_neg (by rw [h1]; decide), if_pos h2, if_pos (by decide)]
  · intro h1
    rw [waitForPromptGiga, if_pos h1]

/-! ### C31 -/

/-- C31, the code at the failing input. `readLineGiga` returns the line `ok` and then the line
`ab!cd`. `waitForPromptGiga` fails at the second line, which is the first that contains
`'!'`; the remainder of that line starting at the `'!'` marker is `!cd`, but the message that
the function prints is `b!cd`, the line from its second character on. -/
theorem waitForPromptGiga_error_example :
    waitForPromptGiga [{ ok := true, line := plainLine }, { ok := true, line := errorLine }] =
      some { ok := false, line := errorLine, error := some ['b', '!', 'c', 'd'] } ∧
    errorRemainder errorLine = ['!', 'c', 'd'] ∧
    (['b', '!', 'c', 'd'] : List Char) ≠ errorRemainder errorLine := by
  decide

/-! ## Lemmas on the lexicographic order of the scanned bytes -/

theorem lex_cons_gt (a b : Nat) (l1 l2 : List Nat) (h : b < a) :
    ¬ List.Lex (· < ·) (a :: l1) (b :: l2) := by
  intro hlex
  cases hlex with
  | cons h1 => omega
  | rel h1 => omega

theorem lex_cons_same (a : Nat) (l1 l2 : List Nat) :
    List.Lex (· < ·) (a :: l1) (a :: l2) ↔ List.Lex (· < ·) l1 l2 := by
  constructor
  · intro hlex
    cases hlex with
    | cons h1 => exact h1
    | rel h1 => omega
  · exact fun h => List.Lex.cons h

theorem lex_append_same (p l1 l2 : List Nat) :
    List.Lex (· < ·) (p ++ l1) (p ++ l2) ↔ List.Lex (· < ·) l1 l2 := by
  induction p with
  | nil => rfl
  | cons a p ih => rw [List.cons_append, List.cons_append, lex_cons_same, ih]

/-- The scan of one watch entry without a stored 0 compares the live bytes with the stored
bytes lexicographically: it runs to its end when they are equal, returns when the live bytes
are smaller, and updates when they are greater, whatever follows. -/
theorem scanLoop_lex (address : Nat) (ram : Memory) (data : List (List Nat)) (j : Nat)
    (is buffer : List Nat) (hbuf : data[j]? = some buffer)
    (hall : ∀ i ∈ is, ∃ stored, buffer[i]? = some stored ∧ stored ≠ 0) :
    (scanLoop address ram data j is = ScanOutcome.equal ∧
      is.map (fun i => getRAM ram (address + i)) = is.map (fun i => buffer.getD i 0)) ∨
    (scanLoop address ram data j is = ScanOutcome.smaller ∧
      ∀ r1 r2, ¬ List.Lex (· < ·) (is.map (fun i => buffer.getD i 0) ++ r1)
        (is.map (fun i => getRAM ram (address + i)) ++ r2)) ∨
    (∃ buffer1, scanLoop address ram data j is = ScanOutcome.update buffer1 ∧
      buffer1 ≠ buffer ∧
      ∀ r1 r2, List.Lex (· < ·) (is.map (fun i => buffer.getD i 0) ++ r1)
        (is.map (fun i => getRAM ram (address + i)) ++ r2)) := by
  induction is with
  | nil => exact Or.inl ⟨rfl, rfl⟩
  | cons i rest ih =>
    obtain ⟨stored, hst, h0⟩ := hall i (List.mem_cons_self _ _)
    have hi : i < buffer.length := (List.getElem?_eq_some_iff.mp hst).1
    have hgetD : buffer.getD i 0 = stored := by
      rw [List.getD_eq_getElem?_getD, hst]
      rfl
    simp only [List.map_cons, List.cons_append, hgetD]
    rcases Nat.lt_trichotomy (getRAM ram (address + i)) stored with hlt | heq | hgt
    · right
      left
      exact ⟨scanLoop_smaller address ram data j i rest buffer stored hbuf hst hlt,
        fun r1 r2 => lex_cons_gt _ _ _ _ hlt⟩
    · rw [scanLoop_cons _ _ _ _ _ _ _ _ hbuf hst, if_neg (by omega), if_neg (by omega), heq]
      rcases ih (fun k hk => hall k (List.mem_cons_of_mem _ hk)) with
        ⟨h1, h2⟩ | ⟨h1, h2⟩ | ⟨b1, h1, h2, h3⟩
      · exact Or.inl ⟨h1, by rw [h2]⟩
      · exact Or.inr (Or.inl ⟨h1, fun r1 r2 => by rw [lex_cons_same]; exact h2 r1 r2⟩)
      · exact Or.inr (Or.inr ⟨b1, h1, h2, fun r1 r2 => by rw [lex_cons_same]; exact h3 r1 r2⟩)
    · right
      right
      obtain ⟨buffer1, h1, -, h3⟩ := scanLoop_update address ram data j i rest buffer stored
        hbuf hst (Or.inr hgt) (by
          intro k hk
          obtain ⟨s, hs, -⟩ := hall k hk
          exact (List.getElem?_eq_some_iff.mp hs).1)
      refine ⟨buffer1, h1, ?_, fun r1 r2 => List.Lex.rel hgt⟩
      intro hb
      have h4 := (h3 i).1 (List.mem_cons_self _ _)
      rw [hb, hst] at h4
      simp only [Option.some.injEq] at h4
      omega

theorem set_ne_self (sd : SaveData) (j : Nat) (buffer buffer1 : List Nat)
    (hbuf : sd._data[j]? = some buffer) (hne : buffer1 ≠ buffer) :
    ({ sd with _data := sd._data.set j buffer1 } : SaveData) ≠ sd := by
  intro h
  have hd : sd._data.set j buffer1 = sd._data := congrArg SaveData._data h
  have hj : j < sd._data.length := (List.getElem?_eq_some_iff.mp hbuf).1
  have h1 : (sd._data.set j buffer1)[j]? = some buffer1 := List.getElem?_set_self hj
  rw [hd, hbuf] at h1
  exact hne (Option.some.inj h1).symm

/-- The comparison pass over watch entries without a stored 0: either the live bytes of the
entries are not lexicographically greater than the stored ones and the pass changes and saves
nothing, or they are greater and the pass updates one buffer and saves. -/
theorem compareLoop_lex (canOpen : Bool) (ram : Memory) (n j0 : Nat) (sd : SaveData)
    (hwf : ∀ j, j0 ≤ j → j < j0 + n → ∃ (count : Nat) (e : Endianness) (address : Nat)
      (buffer : List Nat), sd._counts[j]? = some count ∧ sd._endianness[j]? = some e ∧
        sd._addresses[j]? = some address ∧ sd._data[j]? = some buffer ∧
        count ≤ buffer.length ∧ (0 : Nat) ∉ buffer) :
    (compareLoop canOpen ram n j0 sd = some (sd, []) ∧
      ¬ List.Lex (· < ·) (storedFrom sd n j0) (liveFrom sd ram n j0)) ∨
    (∃ (j : Nat) (buffer1 : List Nat),
      ({ sd with _data := sd._data.set j buffer1 } : SaveData) ≠ sd ∧
      compareLoop canOpen ram n j0 sd =
        some ({ sd with _data := sd._data.set j buffer1 },
          [saveDataFile canOpen { sd with _data := sd._data.set j buffer1 }]) ∧
      List.Lex (· < ·) (storedFrom sd n j0) (liveFrom sd ram n j0)) := by
  induction n generalizing j0 with
  | zero =>
    left
    refine ⟨rfl, ?_⟩
    intro h
    cases h
  | succ n ih =>
    obtain ⟨count, e, address, buffer, hc, he, ha, hbuf, hlen, hnz⟩ :=
      hwf j0 (Nat.le_refl _) (by omega)
    have hgc : sd._counts.getD j0 0 = count := by
      rw [List.getD_eq_getElem?_getD, hc]
      rfl
    have hge : sd._endianness.getD j0 Endianness.Little = e := by
      rw [List.getD_eq_getElem?_getD, he]
      rfl
    have hga : sd._addresses.getD j0 0 = address := by
      rw [List.getD_eq_getElem?_getD, ha]
      rfl
    have hgd : sd._data.getD j0 [] = buffer := by
      rw [List.getD_eq_getElem?_getD, hbuf]
      rfl
    have hsb : storedBlock sd j0 = (scanIndices e count).map (fun i => buffer.getD i 0) := by
      unfold storedBlock
      rw [hge, hgc, hgd]
    have hlb : liveBlock sd ram j0 =
        (scanIndices e count).map (fun i => getRAM ram (address + i)) := by
      unfold liveBlock
      rw [hge, hgc, hga]
    rw [compareLoop_entry canOpen ram n j0 sd count e address hc he ha, storedFrom, liveFrom,
      hsb, hlb]
    rcases scanLoop_lex address ram sd._data j0 (scanIndices e count) buffer hbuf (by
        intro i hi
        have hic : i < count := (mem_scanIndices e count i).mp hi
        have hib : i < buffer.length := by omega
        refine ⟨buffer[i], List.getElem?_eq_getElem hib, ?_⟩
        intro h0
        exact hnz (h0 ▸ List.getElem_mem hib)) with
      ⟨h1, h2⟩ | ⟨h1, h2⟩ | ⟨b1, h1, h2, h3⟩
    · rw [h1, h2]
      simp only
      rw [lex_append_same]
      exact ih (j0 + 1) (fun j hj1 hj2 => hwf j (by omega) (by omega))
    · left
      rw [h1]
      exact ⟨rfl, h2 _ _⟩
    · right
      rw [h1]
      exact ⟨j0, b1, set_ne_self sd j0 buffer b1 hbuf h2, rfl, h3 _ _⟩

theorem slot_entries (sd : SaveData) (hinv : SlotInvariant sd)
    (hnz : ∀ buffer ∈ sd._data, (0 : Nat) ∉ buffer) (j : Nat)
    (hj : j < sd._addresses.length) :
    ∃ (count : Nat) (e : Endianness) (address : Nat) (buffer : List Nat),
      sd._counts[j]? = some count ∧ sd._endianness[j]? = some e ∧
      sd._addresses[j]? = some address ∧ sd._data[j]? = some buffer ∧
      count ≤ buffer.length ∧ (0 : Nat) ∉ buffer := by
  obtain ⟨h1, h2, h3⟩ := hinv
  have hjc : j < sd._counts.length := by omega
  have hje : j < sd._endianness.length := by omega
  have hjd : j < sd._data.length := by
    have := congrArg List.length h3
    rw [List.length_map] at this
    omega
  refine ⟨sd._counts[j], sd._endianness[j], sd._addresses[j], sd._data[j],
    List.getElem?_eq_getElem hjc, List.getElem?_eq_getElem hje, List.getElem?_eq_getElem hj,
    List.getElem?_eq_getElem hjd, ?_, hnz _ (List.getElem_mem hjd)⟩
  have : sd._counts[j] = (sd._data[j]).length := by
    simp only [← h3, List.getElem_map]
  omega

/-- For a slot that satisfies the slot invariant and holds no snapshot byte 0, a comparison
pass changes one snapshot buffer and calls `saveDataFile` once, on the updated slot, if the
live bytes in scan order are lexicographically greater than the stored ones; otherwise it
leaves the slot as it is and calls nothing. -/
theorem lexicographic_calls_save (canOpen : Bool) (frameCount : Int) (sd : SaveData)
    (ram : Memory) (hinit : sd._initialised = true) (hrate : sd._updaterate ≤ frameCount)
    (hinv : SlotInvariant sd) (hnz : ∀ buffer ∈ sd._data, (0 : Nat) ∉ buffer) :
    (List.Lex (· < ·) (storedBytes sd) (liveBytes sd ram) →
      ∃ (j : Nat) (buffer1 : List Nat),
        ({ sd with _data := sd._data.set j buffer1 } : SaveData) ≠ sd ∧
        updateHighScore canOpen frameCount (some sd) ram =
          some { frameCount := 0
                 entry := some { sd with _data := sd._data.set j buffer1 }
                 saved := [saveDataFile canOpen { sd with _data := sd._data.set j buffer1 }] }) ∧
    (¬ List.Lex (· < ·) (storedBytes sd) (liveBytes sd ram) →
      updateHighScore canOpen frameCount (some sd) ram =
        some { frameCount := 0, entry := some sd, saved := [] }) := by
  have hpass := updateHighScore_pass canOpen frameCount sd ram hinit hrate
  rcases compareLoop_lex canOpen ram sd._addresses.length 0 sd
    (fun j _ hj => slot_entries sd hinv hnz j (by omega)) with
    ⟨h1, h2⟩ | ⟨j, b1, h1, h2, h3⟩
  · constructor
    · intro hlex
      exact absurd hlex h2
    · intro _
      rw [hpass, h1]
      rfl
  · constructor
    · intro _
      refine ⟨j, b1, h1, ?_⟩
      rw [hpass, h2]
      rfl
    · intro hn
      exact absurd h3 hn

/-- The stored and the live bytes of `scoreSlot` in scan order: the first entry is little
endian and is taken from its last byte to its first, the second is big endian. -/
theorem scoreSlot_bytes :
    SlotInvariant scoreSlot ∧ (∀ buffer ∈ scoreSlot._data, (0 : Nat) ∉ buffer) ∧
    storedBytes scoreSlot = [9, 3, 8, 1] ∧ liveBytes scoreSlot scoreRam = [9, 3, 8, 7] ∧
    liveBytes scoreSlot lowerRam = [9, 3, 8, 0] := by
  refine ⟨⟨rfl, rfl, rfl⟩, by decide, by decide, by decide, by decide⟩

/-! ## Lemmas on the outcome of a comparison pass -/

theorem copyLoop_some (address : Nat) (ram : Memory) (ks buffer buffer1 : List Nat)
    (h : copyLoop address ram ks buffer = some buffer1) : ∀ k ∈ ks, k < buffer.length := by
  induction ks generalizing buffer with
  | nil => exact fun k hk => absurd hk (List.not_mem_nil k)
  | cons k0 ks ih =>
    rw [copyLoop] at h
    split at h
    · rename_i hk0
      intro k hk
      rcases List.mem_cons.mp hk with hk1 | hk1
      · rw [hk1]
        exact hk0
      · have := ih _ h k hk1
        rw [List.length_set] at this
        exact this
    · cases h

/-- A scan that ends in an update leaves a buffer that agrees with the live bytes at every
scanned position, those gone past as equal and those copied; the other bytes are as before. -/
theorem scanLoop_agrees (address : Nat) (ram : Memory) (data : List (List Nat)) (j : Nat)
    (is buffer1 : List Nat)
    (h : scanLoop address ram data j is = ScanOutcome.update buffer1) :
    ∃ buffer, data[j]? = some buffer ∧ buffer1.length = buffer.length ∧
      ∀ k, (k ∈ is → buffer1[k]? = some (getRAM ram (address + k))) ∧
        (k ∉ is → buffer1[k]? = buffer[k]?) := by
  induction is with
  | nil => cases h
  | cons i rest ih =>
    rw [scanLoop] at h
    split at h
    · cases h
    · rename_i buffer hbuf
      split at h
      · cases h
      · rename_i stored hst
        split at h
        · cases h
        · rename_i hnlt
          split at h
          · split at h
            · rename_i b1 hcopy
              simp only [ScanOutcome.update.injEq] at h
              subst h
              obtain ⟨b2, h1, h2, h3⟩ := copyLoop_ok address ram (i :: rest) buffer
                (copyLoop_some address ram _ _ _ hcopy)
              rw [hcopy] at h1
              cases h1
              exact ⟨buffer, hbuf, h2, h3⟩
            · cases h
          · rename_i hntrig
            obtain ⟨buffer0, hb0, hlen, hall⟩ := ih h
            rw [hbuf] at hb0
            cases hb0
            refine ⟨buffer, hbuf, hlen, ?_⟩
            intro k
            constructor
            · intro hk
              by_cases hkr : k ∈ rest
              · exact (hall k).1 hkr
              · have hki : k = i := by
                  rcases List.mem_cons.mp hk with h1 | h1
                  · exact h1
                  · exact absurd h1 hkr
                subst hki
                rw [(hall k).2 hkr, hst]
                congr 1
                omega
            · intro hk
              exact (hall k).2 (fun hkr => hk (List.mem_cons_of_mem _ hkr))

/-- A comparison pass that saves has updated one watch entry, whose buffer agrees with the
live bytes at every offset below its count afterwards. -/
theorem compareLoop_saved (canOpen : Bool) (ram : Memory) (n j0 : Nat) (sd sd1 : SaveData)
    (saved : List SaveDataResult)
    (h : compareLoop canOpen ram n j0 sd = some (sd1, saved)) (hsaved : saved ≠ []) :
    ∃ (j count address : Nat) (buffer buffer1 : List Nat),
      j0 ≤ j ∧ j < j0 + n ∧
      sd._counts[j]? = some count ∧ sd._addresses[j]? = some address ∧
      sd._data[j]? = some buffer ∧ buffer1.length = buffer.length ∧
      sd1 = { sd with _data := sd._data.set j buffer1 } ∧
      saved = [saveDataFile canOpen { sd with _data := sd._data.set j buffer1 }] ∧
      ∀ k, k < count → buffer1[k]? = some (getRAM ram (address + k)) := by
  induction n generalizing j0 with
  | zero =>
    simp only [compareLoop, Option.some.injEq, Prod.mk.injEq] at h
    exact absurd h.2.symm hsaved
  | succ n ih =>
    rw [compareLoop] at h
    split at h
    · rename_i count e address hc he ha
      split at h
      · obtain ⟨j, c1, a1, b, b1, h1, h2, h3⟩ := ih (j0 + 1) h
        exact ⟨j, c1, a1, b, b1, by omega, by omega, h3⟩
      · simp only [Option.some.injEq, Prod.mk.injEq] at h
        exact absurd h.2.symm hsaved
      · rename_i buffer1 hscan
        simp only [Option.some.injEq, Prod.mk.injEq] at h
        obtain ⟨buffer, hbuf, hlen, hall⟩ := scanLoop_agrees _ _ _ _ _ _ hscan
        refine ⟨j0, count, address, buffer, buffer1, Nat.le_refl _, by omega, hc, ha, hbuf,
          hlen, h.1.symm, h.2.symm, ?_⟩
        intro k hk
        exact (hall k).1 ((mem_scanIndices e count k).mpr hk)
      · cases h
    · cases h

/-! ### C33 -/

/-- C33. After a call of `updateHighScore` that saves, that is after a comparison pass that
updates a watch index `j`, the whole snapshot of that index agrees with the live memory:
`snapshotBytes[j][k]` equals the memory byte at `watchAddresses[j] + k` for every
`k < byteCounts[j]`, at the positions that were copied and at those the scan had gone past.
The other buffers are as before and `saveDataFile` has been called once, on the updated
slot. -/
theorem updateHighScore_snapshot (canOpen : Bool) (frameCount : Int) (sd : SaveData)
    (ram : Memory) (r : UpdateResult)
    (h : updateHighScore canOpen frameCount (some sd) ram = some r) (hsaved : r.saved ≠ []) :
    ∃ (j count address : Nat) (buffer buffer1 : List Nat),
      sd._counts[j]? = some count ∧ sd._addresses[j]? = some address ∧
      sd._data[j]? = some buffer ∧ buffer1.length = buffer.length ∧
      r.entry = some { sd with _data := sd._data.set j buffer1 } ∧
      r.saved = [saveDataFile canOpen { sd with _data := sd._data.set j buffer1 }] ∧
      ∀ k, k < count → buffer1[k]? = some (getRAM ram (address + k)) := by
  unfold updateHighScore at h
  simp only at h
  split at h
  · simp only [Option.some.injEq] at h
    rw [← h] at hsaved
    exact absurd rfl hsaved
  · split at h
    · simp only [Option.some.injEq] at h
      rw [← h] at hsaved
      exact absurd rfl hsaved
    · split at h
      · rename_i sd1 saved hpass
        simp only [Option.some.injEq] at h
        rw [← h] at hsaved ⊢
        obtain ⟨j, count, address, buffer, buffer1, -, -, h1, h2, h3, h4, h5, h6, h7⟩ :=
          compareLoop_saved canOpen ram _ 0 sd sd1 saved hpass hsaved
        exact ⟨j, count, address, buffer, buffer1, h1, h2, h3, h4, by rw [h5], h6, h7⟩
      · cases h

/-- Witness for C33: `scoreSlot` with the RAM `scoreRam`. The pass updates the second entry
(8, 1, big endian, live bytes 8, 7): it copies the second byte only, and afterwards both bytes
are the live bytes. -/
theorem updateHighScore_snapshot_witness :
    ∃ r, updateHighScore true 2 (some scoreSlot) scoreRam = some r ∧ r.saved ≠ [] ∧
    ∃ (j count address : Nat) (buffer buffer1 : List Nat),
      scoreSlot._counts[j]? = some count ∧ scoreSlot._addresses[j]? = some address ∧
      scoreSlot._data[j]? = some buffer ∧ buffer1.length = buffer.length ∧
      r.entry = some { scoreSlot with _data := scoreSlot._data.set j buffer1 } ∧
      r.saved = [saveDataFile true { scoreSlot with _data := scoreSlot._data.set j buffer1 }] ∧
      ∀ k, k < count → buffer1[k]? = some (getRAM scoreRam (address + k)) :=
  ⟨_, rfl, by decide, updateHighScore_snapshot true 2 scoreSlot scoreRam _ rfl (by decide)⟩

/-! ## Lemmas on `upload` without a transfer in progress -/

/-- A call of `upload` without a transfer in progress does nothing when no upload target is
requested, and otherwise calls `uploadDirect` and clears the request. -/
theorem upload_idle (V : Int) (P lba : Nat) (y : Int) (u : Uploader)
    (hU : u.frameUploading = false) :
    (u.uploadTarget = UploadTarget.None ∧ upload V P lba y u = u) ∨
    (u.uploadTarget ≠ UploadTarget.None ∧
      upload V P lba y u =
        { u with
          directUploads := u.directUploads ++ [u.uploadTarget]
          uploadTarget := UploadTarget.None }) := by
  unfold upload
  by_cases hT : u.uploadTarget = UploadTarget.None
  · left
    refine ⟨hT, ?_⟩
    rw [if_neg]
    rw [hT, hU]
    simp
  · right
    refine ⟨hT, ?_⟩
    rw [if_pos (Or.inl hT), if_pos hT]

theorem upload_idle_fields (V : Int) (P lba : Nat) (y : Int) (u : Uploader)
    (hU : u.frameUploading = false) :
    (upload V P lba y u).frameUploading = false ∧ (upload V P lba y u).sender = u.sender ∧
      (upload V P lba y u).frameState = u.frameState := by
  rcases upload_idle V P lba y u hU with ⟨-, h⟩ | ⟨-, h⟩
  · rw [h]
    exact ⟨hU, rfl, rfl⟩
  · rw [h]
    exact ⟨hU, rfl, rfl⟩

theorem requested_fields (u : Uploader) (event : UploadEvent) :
    (requested u event).frameUploading = u.frameUploading ∧
      (requested u event).sender = u.sender ∧
      (requested u event).frameState = u.frameState := by
  unfold requested
  cases event.request with
  | none => exact ⟨rfl, rfl, rfl⟩
  | some target => exact ⟨rfl, rfl, rfl⟩

theorem uploadEvents_append (V : Int) (P : Nat) (l1 l2 : List UploadEvent) (u : Uploader) :
    uploadEvents V P (l1 ++ l2) u = uploadEvents V P l2 (uploadEvents V P l1 u) := by
  induction l1 generalizing u with
  | nil => rfl
  | cons event events ih => exact ih _

/-- Without a transfer in progress at the start, no sequence of requests and calls of `upload`
starts one or changes the variables of `sendFrame`. -/
theorem uploadEvents_idle (V : Int) (P : Nat) (events : List UploadEvent) (u : Uploader)
    (hU : u.frameUploading = false) :
    (uploadEvents V P events u).frameUploading = false ∧
      (uploadEvents V P events u).sender = u.sender ∧
      (uploadEvents V P events u).frameState = u.frameState := by
  induction events generalizing u with
  | nil => exact ⟨hU, rfl, rfl⟩
  | cons event events ih =>
    obtain ⟨h1, h2, h3⟩ := requested_fields u event
    obtain ⟨h4, h5, h6⟩ := upload_idle_fields V P event.loadBaseAddress event.vgaY
      (requested u event) (by rw [h1, hU])
    obtain ⟨h7, h8, h9⟩ := ih (upload V P event.loadBaseAddress event.vgaY (requested u event))
      h4
    rw [uploadEvents]
    exact ⟨h7, by rw [h8, h5, h2], by rw [h9, h6, h3]⟩

/-! ### C34 -/

/-- C34. Starting from a state without a transfer in progress, as the initial state is, for
every sequence of upload-target requests and calls of `upload`, the flag `frameUploading`
remains false and the variables of `sendFrame`, among them the input port, and the frame state
remain as they were: `upload` never calls `sendFrame` and never writes a byte to the input
port. Each call either does nothing (no upload target is requested) or calls `uploadDirect`
with the requested target and clears the request. -/
theorem upload_never_transfers (VSYNC_START : Int) (PAYLOAD_SIZE : Nat)
    (events : List UploadEvent) (u : Uploader) (hU : u.frameUploading = false) :
    (uploadEvents VSYNC_START PAYLOAD_SIZE events u).frameUploading = false ∧
    (uploadEvents VSYNC_START PAYLOAD_SIZE events u).sender = u.sender ∧
    (uploadEvents VSYNC_START PAYLOAD_SIZE events u).frameState = u.frameState ∧
    ∀ (pre post : List UploadEvent) (event : UploadEvent), events = pre ++ event :: post →
      ((requested (uploadEvents VSYNC_START PAYLOAD_SIZE pre u) event).uploadTarget
          = UploadTarget.None ∧
        upload VSYNC_START PAYLOAD_SIZE event.loadBaseAddress event.vgaY
            (requested (uploadEvents VSYNC_START PAYLOAD_SIZE pre u) event) =
          requested (uploadEvents VSYNC_START PAYLOAD_SIZE pre u) event) ∨
      ((requested (uploadEvents VSYNC_START PAYLOAD_SIZE pre u) event).uploadTarget
          ≠ UploadTarget.None ∧
        upload VSYNC_START PAYLOAD_SIZE event.loadBaseAddress event.vgaY
            (requested (uploadEvents VSYNC_START PAYLOAD_SIZE pre u) event) =
          { requested (uploadEvents VSYNC_START PAYLOAD_SIZE pre u) event with
            directUploads :=
              (requested (uploadEvents VSYNC_START PAYLOAD_SIZE pre u) event).directUploads
                ++ [(requested (uploadEvents VSYNC_START PAYLOAD_SIZE pre u) event).uploadTarget]
            uploadTarget := UploadTarget.None }) := by
  obtain ⟨h1, h2, h3⟩ := uploadEvents_idle VSYNC_START PAYLOAD_SIZE events u hU
  refine ⟨h1, h2, h3, ?_⟩
  intro pre post event _
  apply upload_idle
  rw [(requested_fields _ event).1]
  exact (uploadEvents_idle VSYNC_START PAYLOAD_SIZE pre u hU).1

/-- Witness for C34: the initial state with `PAYLOAD_SIZE` 60 and arrays of 65536 bytes, and
the events of `exampleEvents`. -/
theorem upload_never_transfers_witness :
    (initialUploader 60 65536).frameUploading = false ∧
    (uploadEvents exampleVsyncStart 60 exampleEvents (initialUploader 60 65536)).frameUploading
      = false ∧
    (uploadEvents exampleVsyncStart 60 exampleEvents (initialUploader 60 65536)).sender
      = (initialUploader 60 65536).sender ∧
    (uploadEvents exampleVsyncStart 60 exampleEvents (initialUploader 60 65536)).frameState
      = (initialUploader 60 65536).frameState ∧
    ∀ (pre post : List UploadEvent) (event : UploadEvent),
      exampleEvents = pre ++ event :: post →
      ((requested (uploadEvents exampleVsyncStart 60 pre (initialUploader 60 65536))
          event).uploadTarget = UploadTarget.None ∧
        upload exampleVsyncStart 60 event.loadBaseAddress event.vgaY
            (requested (uploadEvents exampleVsyncStart 60 pre (initialUploader 60 65536))
              event) =
          requested (uploadEvents exampleVsyncStart 60 pre (initialUploader 60 65536)) event) ∨
      ((requested (uploadEvents exampleVsyncStart 60 pre (initialUploader 60 65536))
          event).uploadTarget ≠ UploadTarget.None ∧
        upload exampleVsyncStart 60 event.loadBaseAddress event.vgaY
            (requested (uploadEvents exampleVsyncStart 60 pre (initialUploader 60 65536))
              event) =
          { requested (uploadEvents exampleVsyncStart 60 pre (initialUploader 60 65536))
              event with
            directUploads :=
              (requested (uploadEvents exampleVsyncStart 60 pre (initialUploader 60 65536))
                event).directUploads
                ++ [(requested (uploadEvents exampleVsyncStart 60 pre
                  (initialUploader 60 65536)) event).uploadTarget]
            uploadTarget := UploadTarget.None }) :=
  ⟨rfl, upload_never_transfers exampleVsyncStart 60 exampleEvents (initialUploader 60 65536) rfl⟩

/-! ## Lemmas on persisting an updated slot -/

/-- Replacing a snapshot buffer by one of the same length leaves the lengths of the buffers as
they were. -/
theorem map_length_set (data : List (List Nat)) (j : Nat) (buffer buffer1 : List Nat)
    (hbuf : data[j]? = some buffer) (hlen : buffer1.length = buffer.length) :
    (data.set j buffer1).map List.length = data.map List.length := by
  induction data generalizing j with
  | nil => rfl
  | cons b t ih =>
    cases j with
    | zero =>
      simp only [List.getElem?_cons_zero, Option.some.injEq] at hbuf
      subst hbuf
      simp [hlen]
    | succ j =>
      simp only [List.getElem?_cons_succ] at hbuf
      simp [ih j hbuf]

/-- On a slot with at least one watch entry that satisfies the slot invariant, `saveDataFile`
succeeds when the file can be opened, and it writes the bytes of `slotFile` (the number of
entries being a 16-bit number). -/
theorem saveDataFile_ok (sd : SaveData) (hinv : SlotInvariant sd)
    (hn : sd._addresses.length ≠ 0) :
    ∃ bytes, saveDataFile true sd = { ok := true, outfile := some bytes } ∧
      (sd._addresses.length < 65536 → bytes = slotFile sd) := by
  obtain ⟨hc, -, hd⟩ := hinv
  have hdl : sd._data.length = sd._addresses.length := by
    rw [← hc, ← hd, List.length_map]
  have h1 : ¬ (sd._counts.length = 0 ∨ sd._counts.length ≠ sd._addresses.length) := by
    rw [hc]
    omega
  have hcheck := checkData_true sd._addresses.length 0 sd hd hdl (by omega)
  unfold saveDataFile
  simp only [Bool.true_eq_false, if_false, if_neg h1]
  rw [hcheck]
  simp only [Bool.true_eq_false, if_false]
  refine ⟨_, rfl, ?_⟩
  intro h16
  have hmod : sd._addresses.length % 65536 = sd._addresses.length := Nat.mod_eq_of_lt h16
  rw [hc, hmod]
  rw [saveGroups_eq _ 0 sd _ hd (by omega), saveWords_eq _ 0 _ _ (by omega),
    saveWords_eq _ 0 _ _ (by omega), writeWord_eq, writeWord_eq]
  simp only [List.drop_zero, List.nil_append]
  rw [List.take_length, ← hdl, List.take_length, hdl, ← hc, List.take_length]
  unfold slotFile
  rw [hc]

/-- The slot that an update leaves satisfies the slot invariant when the slot before it did,
and `saveDataFile` persists it when the file can be opened. -/
theorem saveDataFile_updated (sd : SaveData) (j : Nat) (buffer buffer1 : List Nat)
    (hinv : SlotInvariant sd) (hbuf : sd._data[j]? = some buffer)
    (hlen : buffer1.length = buffer.length) :
    ∃ bytes,
      saveDataFile true { sd with _data := sd._data.set j buffer1 } =
        { ok := true, outfile := some bytes } ∧
      (sd._addresses.length < 65536 →
        bytes = slotFile { sd with _data := sd._data.set j buffer1 }) := by
  have hj : j < sd._data.length := (List.getElem?_eq_some_iff.mp hbuf).1
  have hdl : sd._data.length = sd._addresses.length := by
    rw [← hinv.1, ← hinv.2.2, List.length_map]
  exact saveDataFile_ok { sd with _data := sd._data.set j buffer1 }
    ⟨hinv.1, hinv.2.1, by
      show (sd._data.set j buffer1).map List.length = sd._counts
      rw [map_length_set sd._data j buffer buffer1 hbuf hlen]
      exact hinv.2.2⟩
    (by
      show sd._addresses.length ≠ 0
      omega)

/-- A call of `updateHighScore` that calls `saveDataFile` on a slot that satisfies the slot
invariant persists the updated slot when the file can be opened. -/
theorem updateHighScore_persists (frameCount : Int) (sd : SaveData) (ram : Memory)
    (r : UpdateResult) (hinv : SlotInvariant sd)
    (h : updateHighScore true frameCount (some sd) ram = some r) (hsaved : r.saved ≠ []) :
    ∃ sd1 bytes, r.entry = some sd1 ∧ r.saved = [saveDataFile true sd1] ∧
      saveDataFile true sd1 = { ok := true, outfile := some bytes } ∧
      (sd._addresses.length < 65536 → bytes = slotFile sd1) := by
  unfold updateHighScore at h
  simp only at h
  split at h
  · simp only [Option.some.injEq] at h
    rw [← h] at hsaved
    exact absurd rfl hsaved
  · split at h
    · simp only [Option.some.injEq] at h
      rw [← h] at hsaved
      exact absurd rfl hsaved
    · split at h
      · rename_i sd1 saved hpass
        simp only [Option.some.injEq] at h
        rw [← h] at hsaved ⊢
        obtain ⟨j, count, address, buffer, buffer1, -, -, -, -, h3, h4, h5, h6, -⟩ :=
          compareLoop_saved true ram _ 0 sd sd1 saved hpass hsaved
        obtain ⟨bytes, hb1, hb2⟩ := saveDataFile_updated sd j buffer buffer1 hinv h3 h4
        exact ⟨_, bytes, by rw [h5], h6, hb1, hb2⟩
      · cases h

/-! ### C25 -/

set_option maxRecDepth 20000 in
/-- C25, as stated, fails in its part on persisting. With a save file that cannot be opened,
the pass on `bigSlot` (snapshot 0, 5, live bytes 0, 4) updates the slot at the stored 0 and
writes nothing. And the slot that a successful `loadDataFile` of `zeroByteFile` leaves holds
one buffer more than it has watch entries: the pass on it, with the live byte 0 at the
stored 0, triggers the update, and `saveDataFile` fails after the header of the file. -/
theorem updateHighScore_wildcard_counterexample :
    updateHighScore false 60 (some bigSlot) lowRam =
      some { frameCount := 0
             entry := some { bigSlot with _data := [[0, 4]] }
             saved := [{ ok := false, outfile := none }] } ∧
    (loadDataFile (some zeroByteFile) singleSlot zeroRam).map
        (fun r => (r.ok, r.saveData)) =
      some (true, { singleSlot with _data := [[0], [0]] }) ∧
    updateHighScore true 60 (some { singleSlot with _data := [[0], [0]] }) zeroRam =
      some { frameCount := 0
             entry := some { singleSlot with _data := [[0], [0]] }
             saved := [{ ok := false, outfile := some [1, 0, 1, 0, 1, 0, 0x00, 0x01] }] } := by
  decide

/-- C25, amended. In a comparison pass, when the scan comes to a position whose stored
snapshot byte is 0, all positions scanned before it holding a snapshot byte equal to the live
byte, an update is triggered, at this position or at an earlier one with a stored 0, for
every value of the live byte at that position, including 0, and `saveDataFile` is called once,
on the updated slot. When the save file can be opened and the slot satisfies the slot
invariant, that call succeeds and the file it writes is the file of the updated slot: the
slot is persisted. -/
theorem updateHighScore_wildcard (canOpen : Bool) (frameCount : Int) (sd : SaveData)
    (ram : Memory) (j count : Nat) (e : Endianness) (address : Nat)
    (buffer pre post : List Nat) (i : Nat)
    (hinit : sd._initialised = true) (hrate : sd._updaterate ≤ frameCount)
    (hprev : ∀ j1, j1 < j → EntrySame sd ram j1)
    (hc : sd._counts[j]? = some count) (he : sd._endianness[j]? = some e)
    (ha : sd._addresses[j]? = some address) (hbuf : sd._data[j]? = some buffer)
    (hlen : count ≤ buffer.length)
    (hscan : scanIndices e count = pre ++ i :: post)
    (hpre : ∀ q ∈ pre, ∃ s, buffer[q]? = some s ∧ getRAM ram (address + q) = s)
    (hst : buffer[i]? = some 0) :
    ∃ j1 buffer1, j1 ≤ j ∧
      updateHighScore canOpen frameCount (some sd) ram =
        some { frameCount := 0
               entry := some { sd with _data := sd._data.set j1 buffer1 }
               saved := [saveDataFile canOpen { sd with _data := sd._data.set j1 buffer1 }] } ∧
      (canOpen = true → SlotInvariant sd →
        ∃ bytes,
          saveDataFile canOpen { sd with _data := sd._data.set j1 buffer1 } =
            { ok := true, outfile := some bytes } ∧
          (sd._addresses.length < 65536 →
            bytes = slotFile { sd with _data := sd._data.set j1 buffer1 })) := by
  obtain ⟨j1, buffer1, hj1, heq⟩ := wildcard_calls_save canOpen frameCount sd ram j count e
    address buffer pre post i hinit hrate hprev hc he ha hbuf hlen hscan hpre hst
  refine ⟨j1, buffer1, hj1, heq, ?_⟩
  intro hopen hinv
  subst hopen
  obtain ⟨sd1, bytes, h1, -, h3, h4⟩ := updateHighScore_persists frameCount sd ram _ hinv heq
    (List.cons_ne_nil _ _)
  simp only [Option.some.injEq] at h1
  subst h1
  exact ⟨bytes, h3, h4⟩

/-- Witness for C25, amended: `bigSlot` (snapshot 0, 5), whose first scanned byte is a stored
0, with the live bytes 0, 4 and a save file that can be opened. The pass leaves the snapshot
0, 4 and writes the file `01 00 02 00 01 00 00 01 00 04`. -/
theorem updateHighScore_wildcard_witness :
    SlotInvariant bigSlot ∧
    updateHighScore true 60 (some bigSlot) lowRam =
      some { frameCount := 0
             entry := some { bigSlot with _data := [[0, 4]] }
             saved := [{ ok := true, outfile := some [1, 0, 2, 0, 1, 0, 0x00, 0x01, 0, 4] }] } ∧
    ∃ j1 buffer1 bytes, j1 ≤ 0 ∧
      updateHighScore true 60 (some bigSlot) lowRam =
        some { frameCount := 0
               entry := some { bigSlot with _data := bigSlot._data.set j1 buffer1 }
               saved := [{ ok := true, outfile := some bytes }] } ∧
      bytes = slotFile { bigSlot with _data := bigSlot._data.set j1 buffer1 } := by
  refine ⟨⟨rfl, rfl, rfl⟩, by decide, ?_⟩
  obtain ⟨j1, buffer1, h1, h2, h3⟩ :=
    updateHighScore_wildcard true 60 bigSlot lowRam 0 2 Endianness.Big 0x0100 [0, 5] [] [1] 0
      rfl (by decide) (fun j1 h => absurd h (Nat.not_lt_zero j1)) rfl rfl rfl rfl (by decide)
      rfl (fun q hq => absurd hq (List.not_mem_nil q)) rfl
  obtain ⟨bytes, h4, h5⟩ := h3 rfl ⟨rfl, rfl, rfl⟩
  exact ⟨j1, buffer1, bytes, h1, by rw [h2, h4], h5 (by decide)⟩

/-! ### C26 -/

set_option maxRecDepth 20000 in
/-- C26, as stated, fails in its part on persisting. With a save file that cannot be opened,
the pass on `scoreSlot` with the RAM `scoreRam` updates the second entry and writes nothing.
And the slot that a successful `loadDataFile` of `singleSlotFile` leaves holds one buffer more
than it has watch entries: the pass on it, with the live byte 0x2B greater than the stored
0x2A, updates the snapshot, and `saveDataFile` fails after the header of the file. -/
theorem updateHighScore_update_counterexample :
    updateHighScore false 2 (some scoreSlot) scoreRam =
      some { frameCount := 0
             entry := some { scoreSlot with _data := [[3, 9], [8, 7]] }
             saved := [{ ok := false, outfile := none }] } ∧
    (loadDataFile (some singleSlotFile) singleSlot zeroRam).map
        (fun r => (r.ok, r.saveData)) =
      some (true, { singleSlot with _data := [[0x2A], [0]] }) ∧
    updateHighScore true 60 (some { singleSlot with _data := [[0x2A], [0]] }) highRam =
      some { frameCount := 0
             entry := some { singleSlot with _data := [[0x2B], [0]] }
             saved := [{ ok := false, outfile := some [1, 0, 1, 0, 1, 0, 0x00, 0x01] }] } := by
  decide

/-- C26, amended. When a comparison pass triggers an update at the watch index `j` and the
scan position `i` (every earlier watch index and every earlier position of `j` being equal to
the live bytes and not 0, and the stored byte at `i` being 0 or smaller than the live byte),
exactly the snapshot bytes of index `j` at the positions from `i` to the end of the scan are
overwritten with the live bytes at `watchAddresses[j] + k`, every other snapshot byte of index
`j` and every other watch index is unchanged, and `saveDataFile` is called exactly once, on
the updated slot; nothing is assumed about the watch entries after `j`, which the call does
not examine. When the save file can be opened and the slot satisfies the slot invariant, that
one call succeeds and the file it writes is the file of the updated slot: the slot is
persisted exactly once. -/
theorem updateHighScore_update (canOpen : Bool) (frameCount : Int) (sd : SaveData)
    (ram : Memory) (j count : Nat) (e : Endianness) (address : Nat)
    (buffer pre post : List Nat) (i stored : Nat)
    (hinit : sd._initialised = true) (hrate : sd._updaterate ≤ frameCount)
    (hprev : ∀ j1, j1 < j → EntryEqual sd ram j1)
    (hc : sd._counts[j]? = some count) (he : sd._endianness[j]? = some e)
    (ha : sd._addresses[j]? = some address) (hbuf : sd._data[j]? = some buffer)
    (hlen : count ≤ buffer.length)
    (hscan : scanIndices e count = pre ++ i :: post)
    (hpre : ∀ q ∈ pre, ∃ s, buffer[q]? = some s ∧ s ≠ 0 ∧ getRAM ram (address + q) = s)
    (hst : buffer[i]? = some stored)
    (htrig : stored = 0 ∨ stored < getRAM ram (address + i)) :
    ∃ buffer1,
      updateHighScore canOpen frameCount (some sd) ram =
        some { frameCount := 0
               entry := some { sd with _data := sd._data.set j buffer1 }
               saved := [saveDataFile canOpen { sd with _data := sd._data.set j buffer1 }] } ∧
      buffer1.length = buffer.length ∧
      (∀ k, (k ∈ i :: post → buffer1[k]? = some (getRAM ram (address + k))) ∧
        (k ∉ i :: post → buffer1[k]? = buffer[k]?)) ∧
      (canOpen = true → SlotInvariant sd →
        ∃ bytes,
          saveDataFile canOpen { sd with _data := sd._data.set j buffer1 } =
            { ok := true, outfile := some bytes } ∧
          (sd._addresses.length < 65536 →
            bytes = slotFile { sd with _data := sd._data.set j buffer1 })) := by
  obtain ⟨buffer1, h1, h2, h3⟩ := update_calls_save canOpen frameCount sd ram j count e address
    buffer pre post i stored hinit hrate hprev hc he ha hbuf hlen hscan hpre hst htrig
  refine ⟨buffer1, h1, h2, h3, ?_⟩
  intro hopen hinv
  subst hopen
  exact saveDataFile_updated sd j buffer buffer1 hinv hbuf h2

/-- Witness for C26, amended: `scoreSlot` with the RAM `scoreRam` and a save file that can be
opened. The first entry (3, 9) equals the live bytes; in the second entry (8, 1, big endian)
the first byte is equal and the second live byte, 7, is greater than the stored 1. The pass
leaves the snapshot 3, 9 and 8, 7 and writes the file
`02 00 02 00 02 00 02 00 00 01 00 02 03 09 08 07`. -/
theorem updateHighScore_update_witness :
    SlotInvariant scoreSlot ∧
    updateHighScore true 2 (some scoreSlot) scoreRam =
      some { frameCount := 0
             entry := some { scoreSlot with _data := [[3, 9], [8, 7]] }
             saved := [{ ok := true
                         outfile := some [2, 0, 2, 0, 2, 0, 2, 0, 0x00, 0x01, 0x00, 0x02,
                           3, 9, 8, 7] }] } ∧
    ∃ buffer1 bytes,
      updateHighScore true 2 (some scoreSlot) scoreRam =
        some { frameCount := 0
               entry := some { scoreSlot with _data := scoreSlot._data.set 1 buffer1 }
               saved := [{ ok := true, outfile := some bytes }] } ∧
      bytes = slotFile { scoreSlot with _data := scoreSlot._data.set 1 buffer1 } ∧
      buffer1.length = [8, 1].length ∧
      ∀ k, (k ∈ [1] → buffer1[k]? = some (getRAM scoreRam (0x0200 + k))) ∧
        (k ∉ [1] → buffer1[k]? = [8, 1][k]?) := by
  refine ⟨⟨rfl, rfl, rfl⟩, by decide, ?_⟩
  obtain ⟨buffer1, h1, h2, h3, h4⟩ :=
    updateHighScore_update true 2 scoreSlot scoreRam 1 2 Endianness.Big 0x0200 [8, 1] [0] []
      1 1 rfl (by decide) (scoreSlot_entry_equal scoreRam rfl rfl) rfl rfl rfl rfl (by decide)
      rfl
      (fun q hq => by
        have hq0 : q = 0 := by simpa using hq
        subst hq0
        exact ⟨8, rfl, by decide, rfl⟩)
      rfl (Or.inr (by decide))
  obtain ⟨bytes, h5, h6⟩ := h4 rfl ⟨rfl, rfl, rfl⟩
  exact ⟨buffer1, bytes, by rw [h1, h5], h6 (by decide), h2, h3⟩

/-! ### C32 -/

set_option maxRecDepth 20000 in
/-- C32, as stated, fails in its part on persisting: `scoreSlot` holds no snapshot byte 0 and
its live bytes with the RAM `scoreRam`, 9, 3, 8, 7 in scan order, are lexicographically
greater than the stored 9, 3, 8, 1; with a save file that cannot be opened the pass updates
the slot and writes nothing. -/
theorem updateHighScore_lexicographic_counterexample :
    (∀ buffer ∈ scoreSlot._data, (0 : Nat) ∉ buffer) ∧
    storedBytes scoreSlot = [9, 3, 8, 1] ∧ liveBytes scoreSlot scoreRam = [9, 3, 8, 7] ∧
    List.Lex (· < ·) [9, 3, 8, 1] [9, 3, 8, 7] ∧
    updateHighScore false 2 (some scoreSlot) scoreRam =
      some { frameCount := 0
             entry := some { scoreSlot with _data := [[3, 9], [8, 7]] }
             saved := [{ ok := false, outfile := none }] } := by
  refine ⟨by decide, by decide, by decide, ?_, by decide⟩
  exact List.Lex.cons (List.Lex.cons (List.Lex.cons (List.Lex.rel (by decide))))

/-- C32, amended. For every slot that satisfies the slot invariant and none of whose snapshot
bytes is 0, a comparison pass of `updateHighScore` updates the slot and calls `saveDataFile`,
once, on the updated slot, if and only if the sequence of live memory bytes, taken in scan
order over all watch indices, is lexicographically strictly greater than the sequence of
stored snapshot bytes taken in the same order; when the save file can be opened that call
succeeds and the file it writes is the file of the updated slot, so that the slot is
persisted. Otherwise the slot is unchanged and nothing is persisted. -/
theorem updateHighScore_lexicographic (canOpen : Bool) (frameCount : Int) (sd : SaveData)
    (ram : Memory) (hinit : sd._initialised = true) (hrate : sd._updaterate ≤ frameCount)
    (hinv : SlotInvariant sd) (hnz : ∀ buffer ∈ sd._data, (0 : Nat) ∉ buffer) :
    (List.Lex (· < ·) (storedBytes sd) (liveBytes sd ram) →
      ∃ (j : Nat) (buffer1 : List Nat),
        ({ sd with _data := sd._data.set j buffer1 } : SaveData) ≠ sd ∧
        updateHighScore canOpen frameCount (some sd) ram =
          some { frameCount := 0
                 entry := some { sd with _data := sd._data.set j buffer1 }
                 saved := [saveDataFile canOpen { sd with _data := sd._data.set j buffer1 }] } ∧
        (canOpen = true →
          ∃ bytes,
            saveDataFile canOpen { sd with _data := sd._data.set j buffer1 } =
              { ok := true, outfile := some bytes } ∧
            (sd._addresses.length < 65536 →
              bytes = slotFile { sd with _data := sd._data.set j buffer1 }))) ∧
    (¬ List.Lex (· < ·) (storedBytes sd) (liveBytes sd ram) →
      updateHighScore canOpen frameCount (some sd) ram =
        some { frameCount := 0, entry := some sd, saved := [] }) := by
  obtain ⟨h1, h2⟩ := lexicographic_calls_save canOpen frameCount sd ram hinit hrate hinv hnz
  refine ⟨?_, h2⟩
  intro hlex
  obtain ⟨j, buffer1, hne, heq⟩ := h1 hlex
  refine ⟨j, buffer1, hne, heq, ?_⟩
  intro hopen
  subst hopen
  obtain ⟨sd1, bytes, h3, -, h5, h6⟩ := updateHighScore_persists frameCount sd ram _ hinv heq
    (List.cons_ne_nil _ _)
  simp only [Option.some.injEq] at h3
  subst h3
  exact ⟨bytes, h5, h6⟩

/-- Witness for C32, amended: `scoreSlot`, whose stored bytes in scan order are 9, 3, 8, 1,
with a save file that can be opened, with the RAM `scoreRam` (live bytes 9, 3, 8, 7, greater:
the slot is updated and its file written) and with the RAM `lowerRam` (live bytes 9, 3, 8, 0,
not greater: nothing happens). -/
theorem updateHighScore_lexicographic_witness :
    List.Lex (· < ·) (storedBytes scoreSlot) (liveBytes scoreSlot scoreRam) ∧
    ¬ List.Lex (· < ·) (storedBytes scoreSlot) (liveBytes scoreSlot lowerRam) ∧
    (∃ (j : Nat) (buffer1 bytes : List Nat),
      ({ scoreSlot with _data := scoreSlot._data.set j buffer1 } : SaveData) ≠ scoreSlot ∧
      updateHighScore true 2 (some scoreSlot) scoreRam =
        some { frameCount := 0
               entry := some { scoreSlot with _data := scoreSlot._data.set j buffer1 }
               saved := [{ ok := true, outfile := some bytes }] } ∧
      bytes = slotFile { scoreSlot with _data := scoreSlot._data.set j buffer1 }) ∧
    updateHighScore true 2 (some scoreSlot) lowerRam =
      some { frameCount := 0, entry := some scoreSlot, saved := [] } := by
  have hgreater : List.Lex (· < ·) (storedBytes scoreSlot) (liveBytes scoreSlot scoreRam) := by
    rw [scoreSlot_bytes.2.2.1, scoreSlot_bytes.2.2.2.1]
    exact List.Lex.cons (List.Lex.cons (List.Lex.cons (List.Lex.rel (by decide))))
  have hnot : ¬ List.Lex (· < ·) (storedBytes scoreSlot) (liveBytes scoreSlot lowerRam) := by
    rw [scoreSlot_bytes.2.2.1, scoreSlot_bytes.2.2.2.2]
    decide
  refine ⟨hgreater, hnot, ?_,
    (updateHighScore_lexicographic true 2 scoreSlot lowerRam rfl (by decide)
      scoreSlot_bytes.1 scoreSlot_bytes.2.1).2 hnot⟩
  obtain ⟨j, buffer1, h1, h2, h3⟩ :=
    (updateHighScore_lexicographic true 2 scoreSlot scoreRam rfl (by decide)
      scoreSlot_bytes.1 scoreSlot_bytes.2.1).1 hgreater
  obtain ⟨bytes, h4, h5⟩ := h3 rfl
  exact ⟨j, buffer1, bytes, h1, by rw [h2, h4], h5 (by decide)⟩

end Loader
